import Mathlib

/-!
Shallow embedding of the ChessApp core (src/chessEngine.py, src/moveAI.py and
the AI-fallback fragment of src/chessMain.py), together with proofs settling
the frozen claims about it.

Conventions of the embedding:
* Python strings "wp", "bR", "--" become the inductive `Piece`; the first
  character is `Piece.col`, the second `Piece.kind`.
* The mutable `GameState` object becomes a record, and every mutating method
  becomes a function `GameState → ... → GameState` (or returns the state next
  to its result).  Methods that append to a caller-supplied `moves` list are
  embedded as functions returning the list of appended moves, concatenated in
  the source's append order.
* Python ints used as board indices are embedded as `Nat`; the comparison
  `c - 1 >= 0` on a non-negative int is embedded as `1 ≤ c`.  Python's
  negative-index wrap-around (e.g. `board[-1]`) can differ from `Nat`
  truncation, but only on states never produced by the program (pawns on their
  own back rank, castling generation with a displaced king while rights are
  still set); the invariants proved below exclude those states.
* Python floats (piece values 3.3 and the 0.01 positional weight) are embedded
  as `ℚ`.  None of the claims below depends on rounding of float arithmetic:
  they compare results of the very same arithmetic expressions.
-/

set_option maxHeartbeats 1000000
set_option maxRecDepth 4000000
set_option linter.unusedVariables false

namespace Chess

inductive Color where
  | white
  | black
deriving DecidableEq, Repr

inductive Kind where
  | pawn
  | rook
  | knight
  | bishop
  | queen
  | king
deriving DecidableEq, Repr

/-- A board square content: "--" or a two-character piece code. -/
inductive Piece where
  | empty
  | mk (c : Color) (k : Kind)
deriving DecidableEq, Repr

/-- First character of the square's string ('w' / 'b' / '-'). -/
def Piece.col : Piece → Option Color
  | .empty => none
  | .mk c _ => some c

/-- Second character of the square's string (piece kind, if any). -/
def Piece.kind : Piece → Option Kind
  | .empty => none
  | .mk _ k => some k

/-- `pieceMoved[0] + promotionChoice` (only ever used on a real pawn). -/
def Piece.promote : Piece → Kind → Piece
  | .empty, _ => .empty
  | .mk c _, k => .mk c k

abbrev Board := List (List Piece)

/-- `self.board[r][c]` (out-of-range reads give "--"; in the program all reads
are in range on the 8×8 board). -/
def bget (b : Board) (r c : Nat) : Piece := (b.getD r []).getD c .empty

/-- `self.board[r][c] = p` (out-of-range writes are dropped; all writes are in
range in the program). -/
def bset (b : Board) (r c : Nat) (p : Piece) : Board :=
  b.set r ((b.getD r []).set c p)

/-- Python `abs(a - b)` for non-negative ints. -/
def absDiff (a b : Nat) : Nat := if b ≤ a then a - b else b - a

/-- The `Move` class: all fields are fixed at construction time. -/
structure Move where
  startRow : Nat
  startCol : Nat
  endRow : Nat
  endCol : Nat
  pieceMoved : Piece
  pieceCaptured : Piece
  isEnPassantMove : Bool
  isPawnPromotion : Bool
  promotionChoice : Kind
  isCastleMove : Bool
deriving DecidableEq, Repr

instance : Inhabited Move :=
  ⟨⟨0, 0, 0, 0, .empty, .empty, false, false, .queen, false⟩⟩

/-- `self.moveID`, the value `__eq__` compares. -/
def Move.moveID (m : Move) : Nat :=
  m.startRow * 1000 + m.startCol * 100 + m.endRow * 10 + m.endCol

/-- `Move.__init__(startSq, endSq, board, promotionChoice, isEnPassantMove,
isCastleMove)`. -/
def mkMove (startSq endSq : Nat × Nat) (board : Board)
    (promotionChoice : Option Kind) (isEnPassantMove : Bool)
    (isCastleMove : Bool) : Move :=
  let startRow := startSq.1
  let startCol := startSq.2
  let endRow := endSq.1
  let endCol := endSq.2
  let pieceMoved := bget board startRow startCol
  let pieceCaptured0 := bget board endRow endCol
  let pieceCaptured :=
    if isEnPassantMove then
      (if pieceMoved = .mk .white .pawn then Piece.mk .black .pawn
       else Piece.mk .white .pawn)
    else pieceCaptured0
  let isPawnPromotion : Bool :=
    decide (pieceMoved.kind = some .pawn ∧ (endRow = 0 ∨ endRow = 7))
  let promotionChoiceV :=
    match promotionChoice, isPawnPromotion with
    | some k, true => k
    | _, _ => Kind.queen
  { startRow := startRow, startCol := startCol, endRow := endRow,
    endCol := endCol, pieceMoved := pieceMoved, pieceCaptured := pieceCaptured,
    isEnPassantMove := isEnPassantMove, isPawnPromotion := isPawnPromotion,
    promotionChoice := promotionChoiceV, isCastleMove := isCastleMove }

/-- The `CastlingRights` class (argument order as in the source: wks, bks,
wqs, bqs). -/
structure CastlingRights where
  wks : Bool
  bks : Bool
  wqs : Bool
  bqs : Bool
deriving DecidableEq, Repr

instance : Inhabited CastlingRights := ⟨⟨true, true, true, true⟩⟩

/-- The `GameState` object. -/
structure GameState where
  board : Board
  whiteToMove : Bool
  movelog : List Move
  whiteKingLocation : Nat × Nat
  blackKingLocation : Nat × Nat
  checkMate : Bool
  staleMate : Bool
  enpassantPossible : Option (Nat × Nat)
  currentCastlingRights : CastlingRights
  CastleRightLog : List CastlingRights
deriving DecidableEq, Repr

/-- `GameState.__init__`. -/
def initialGameState : GameState where
  board :=
    [[.mk .black .rook, .mk .black .knight, .mk .black .bishop, .mk .black .queen,
      .mk .black .king, .mk .black .bishop, .mk .black .knight, .mk .black .rook],
     List.replicate 8 (.mk .black .pawn),
     List.replicate 8 .empty,
     List.replicate 8 .empty,
     List.replicate 8 .empty,
     List.replicate 8 .empty,
     List.replicate 8 (.mk .white .pawn),
     [.mk .white .rook, .mk .white .knight, .mk .white .bishop, .mk .white .queen,
      .mk .white .king, .mk .white .bishop, .mk .white .knight, .mk .white .rook]]
  whiteToMove := true
  movelog := []
  whiteKingLocation := (7, 4)
  blackKingLocation := (0, 4)
  checkMate := false
  staleMate := false
  enpassantPossible := none
  currentCastlingRights := ⟨true, true, true, true⟩
  CastleRightLog := [⟨true, true, true, true⟩]

/-- `GameState.updateCastleRights(move)`. -/
def updateCastleRights (cr : CastlingRights) (m : Move) : CastlingRights :=
  let cr1 :=
    if m.pieceMoved = .mk .white .king then { cr with wks := false, wqs := false }
    else if m.pieceMoved = .mk .black .king then { cr with bks := false, bqs := false }
    else if m.pieceMoved = .mk .white .rook then
      (if m.startRow = 7 then
        (if m.startCol = 0 then { cr with wqs := false }
         else if m.startCol = 7 then { cr with wks := false } else cr)
       else cr)
    else if m.pieceMoved = .mk .black .rook then
      (if m.startRow = 0 then
        (if m.startCol = 0 then { cr with bqs := false }
         else if m.startCol = 7 then { cr with bks := false } else cr)
       else cr)
    else cr
  if m.pieceCaptured = .mk .white .rook then
    (if m.endRow = 7 then
      (if m.endCol = 0 then { cr1 with wqs := false }
       else if m.endCol = 7 then { cr1 with wks := false } else cr1)
     else cr1)
  else if m.pieceCaptured = .mk .black .rook then
    (if m.endRow = 0 then
      (if m.endCol = 0 then { cr1 with bqs := false }
       else if m.endCol = 7 then { cr1 with bks := false } else cr1)
     else cr1)
  else cr1

/-- The piece-moved stage of `updateCastleRights` (proof-local factoring). -/
def ucrMove (cr : CastlingRights) (m : Move) : CastlingRights :=
  if m.pieceMoved = .mk .white .king then { cr with wks := false, wqs := false }
  else if m.pieceMoved = .mk .black .king then { cr with bks := false, bqs := false }
  else if m.pieceMoved = .mk .white .rook then
    (if m.startRow = 7 then
      (if m.startCol = 0 then { cr with wqs := false }
       else if m.startCol = 7 then { cr with wks := false } else cr)
     else cr)
  else if m.pieceMoved = .mk .black .rook then
    (if m.startRow = 0 then
      (if m.startCol = 0 then { cr with bqs := false }
       else if m.startCol = 7 then { cr with bks := false } else cr)
     else cr)
  else cr

/-- The piece-captured stage of `updateCastleRights` (proof-local factoring). -/
def ucrCap (cr1 : CastlingRights) (m : Move) : CastlingRights :=
  if m.pieceCaptured = .mk .white .rook then
    (if m.endRow = 7 then
      (if m.endCol = 0 then { cr1 with wqs := false }
       else if m.endCol = 7 then { cr1 with wks := false } else cr1)
     else cr1)
  else if m.pieceCaptured = .mk .black .rook then
    (if m.endRow = 0 then
      (if m.endCol = 0 then { cr1 with bqs := false }
       else if m.endCol = 7 then { cr1 with bks := false } else cr1)
     else cr1)
  else cr1

/-- `GameState.makeMove(move)`. -/
def makeMove (s : GameState) (m : Move) : GameState :=
  let b1 := bset s.board m.startRow m.startCol .empty
  let b2 :=
    if m.isPawnPromotion then
      bset b1 m.endRow m.endCol (m.pieceMoved.promote m.promotionChoice)
    else bset b1 m.endRow m.endCol m.pieceMoved
  let b3 :=
    if m.isEnPassantMove then
      (if m.pieceMoved = .mk .white .pawn then bset b2 (m.endRow + 1) m.endCol .empty
       else bset b2 (m.endRow - 1) m.endCol .empty)
    else b2
  let b4 :=
    if m.isCastleMove then
      (if m.endCol - m.startCol = 2 then
        bset (bset b3 m.endRow (m.endCol - 1) (bget b3 m.endRow (m.endCol + 1)))
          m.endRow (m.endCol + 1) .empty
      else
        bset (bset b3 m.endRow (m.endCol + 1) (bget b3 m.endRow (m.endCol - 2)))
          m.endRow (m.endCol - 2) .empty)
    else b3
  let wk :=
    if m.pieceMoved = .mk .white .king then (m.endRow, m.endCol)
    else s.whiteKingLocation
  let bk :=
    if m.pieceMoved = .mk .black .king then (m.endRow, m.endCol)
    else s.blackKingLocation
  let ep :=
    if m.pieceMoved.kind = some .pawn ∧ absDiff m.startRow m.endRow = 2 then
      some ((m.startRow + m.endRow) / 2, m.endCol)
    else none
  let cr := updateCastleRights s.currentCastlingRights m
  { board := b4
    whiteToMove := !s.whiteToMove
    movelog := s.movelog ++ [m]
    whiteKingLocation := wk
    blackKingLocation := bk
    checkMate := s.checkMate
    staleMate := s.staleMate
    enpassantPossible := ep
    currentCastlingRights := cr
    CastleRightLog := s.CastleRightLog ++ [cr] }

/-- `GameState.undoMove()`.  (On an empty move log the method is a no-op.
`self.CastleRightLog[-1]` after the pop is embedded with a default for the
out-of-range case, which cannot occur in the program because the rights log
is always one longer than the move log.) -/
def undoMove (s : GameState) : GameState :=
  match s.movelog.getLast? with
  | none => s
  | some m =>
    let log1 := s.movelog.dropLast
    let b1 := bset s.board m.startRow m.startCol m.pieceMoved
    -- the promotion and non-promotion branches of the source are identical
    let b2 := bset b1 m.endRow m.endCol m.pieceCaptured
    let b3 :=
      if m.isEnPassantMove then
        let t := bset b2 m.endRow m.endCol .empty
        (if m.pieceMoved = .mk .white .pawn then
          bset t (m.endRow + 1) m.endCol (.mk .black .pawn)
         else bset t (m.endRow - 1) m.endCol (.mk .white .pawn))
      else b2
    let b4 :=
      if m.isCastleMove then
        (if m.endCol - m.startCol = 2 then
          bset (bset b3 m.endRow (m.endCol + 1) (bget b3 m.endRow (m.endCol - 1)))
            m.endRow (m.endCol - 1) .empty
        else
          bset (bset b3 m.endRow (m.endCol - 2) (bget b3 m.endRow (m.endCol + 1)))
            m.endRow (m.endCol + 1) .empty)
      else b3
    let ep :=
      if m.pieceMoved.kind = some .pawn ∧ absDiff m.startRow m.endRow = 2 then
        (none : Option (Nat × Nat))
      else s.enpassantPossible
    let wk :=
      if m.pieceMoved = .mk .white .king then (m.startRow, m.startCol)
      else s.whiteKingLocation
    let bk :=
      if m.pieceMoved = .mk .black .king then (m.startRow, m.startCol)
      else s.blackKingLocation
    let crlog1 := s.CastleRightLog.dropLast
    let cr := (crlog1.getLast?).getD default
    { board := b4
      whiteToMove := !s.whiteToMove
      movelog := log1
      whiteKingLocation := wk
      blackKingLocation := bk
      checkMate := s.checkMate
      staleMate := s.staleMate
      enpassantPossible := ep
      currentCastlingRights := ⟨cr.wks, cr.bks, cr.wqs, cr.bqs⟩
      CastleRightLog := crlog1 }

/-- `'b' if self.whiteToMove else 'w'`. -/
def enemyColor (s : GameState) : Color := if s.whiteToMove then .black else .white

/-- `'w' if self.whiteToMove else 'b'`. -/
def allyColor (s : GameState) : Color := if s.whiteToMove then .white else .black

/-- `GameState.getPawnMoves(r, c, moves)`: the list of appended moves, in
append order. -/
def getPawnMoves (s : GameState) (r c : Nat) : List Move :=
  if s.whiteToMove then
    (if bget s.board (r - 1) c = .empty then
      mkMove (r, c) (r - 1, c) s.board none false false ::
        (if r = 6 ∧ bget s.board (r - 2) c = .empty then
          [mkMove (r, c) (r - 2, c) s.board none false false]
         else [])
     else []) ++
    (if 1 ≤ c then
      (if (bget s.board (r - 1) (c - 1)).col = some .black then
        [mkMove (r, c) (r - 1, c - 1) s.board none false false]
       else if s.enpassantPossible = some (r - 1, c - 1) then
        [mkMove (r, c) (r - 1, c - 1) s.board none true false]
       else [])
     else []) ++
    (if c + 1 ≤ 7 then
      (if (bget s.board (r - 1) (c + 1)).col = some .black then
        [mkMove (r, c) (r - 1, c + 1) s.board none false false]
       else if s.enpassantPossible = some (r - 1, c + 1) then
        [mkMove (r, c) (r - 1, c + 1) s.board none true false]
       else [])
     else [])
  else
    (if bget s.board (r + 1) c = .empty then
      mkMove (r, c) (r + 1, c) s.board none false false ::
        (if r = 1 ∧ bget s.board (r + 2) c = .empty then
          [mkMove (r, c) (r + 2, c) s.board none false false]
         else [])
     else []) ++
    (if 1 ≤ c then
      (if (bget s.board (r + 1) (c - 1)).col = some .white then
        [mkMove (r, c) (r + 1, c - 1) s.board none false false]
       else if s.enpassantPossible = some (r + 1, c - 1) then
        [mkMove (r, c) (r + 1, c - 1) s.board none true false]
       else [])
     else []) ++
    (if c + 1 ≤ 7 then
      (if (bget s.board (r + 1) (c + 1)).col = some .white then
        [mkMove (r, c) (r + 1, c + 1) s.board none false false]
       else if s.enpassantPossible = some (r + 1, c + 1) then
        [mkMove (r, c) (r + 1, c + 1) s.board none true false]
       else [])
     else [])

/-- The `while 0 <= temprow < 8 and 0 <= tempcol < 8` ray-walking loop shared
by the rook and bishop generators.  The walk moves one step per iteration, so
from any in-range start it leaves the board after at most 8 steps; the fuel
argument 16 used below therefore never runs out before the loop's own exit
conditions fire. -/
def rayMoves (s : GameState) (r c : Nat) (dr dc : Int) :
    Nat → Int → Int → List Move
  | 0, _, _ => []
  | fuel + 1, tr, tc =>
    if 0 ≤ tr ∧ tr < 8 ∧ 0 ≤ tc ∧ tc < 8 then
      if (bget s.board tr.toNat tc.toNat).col = (bget s.board r c).col then []
      else
        mkMove (r, c) (tr.toNat, tc.toNat) s.board none false false ::
          (if (bget s.board tr.toNat tc.toNat).col = some (enemyColor s) then []
           else rayMoves s r c dr dc fuel (tr + dr) (tc + dc))
    else []

/-- `GameState.getRookMoves(r, c, moves)`. -/
def getRookMoves (s : GameState) (r c : Nat) : List Move :=
  [((1 : Int), (0 : Int)), (-1, 0), (0, 1), (0, -1)].flatMap fun d =>
    rayMoves s r c d.1 d.2 16 ((r : Int) + d.1) ((c : Int) + d.2)

/-- `GameState.getBishopMoves(r, c, moves)`. -/
def getBishopMoves (s : GameState) (r c : Nat) : List Move :=
  [((1 : Int), (1 : Int)), (1, -1), (-1, 1), (-1, -1)].flatMap fun d =>
    rayMoves s r c d.1 d.2 16 ((r : Int) + d.1) ((c : Int) + d.2)

/-- `GameState.getKnightMoves(r, c, moves)`. -/
def getKnightMoves (s : GameState) (r c : Nat) : List Move :=
  [((-2 : Int), (-1 : Int)), (-2, 1), (-1, -2), (-1, 2),
   (1, -2), (1, 2), (2, -1), (2, 1)].flatMap fun d =>
    let nr := (r : Int) + d.1
    let nc := (c : Int) + d.2
    if 0 ≤ nr ∧ nr < 8 ∧ 0 ≤ nc ∧ nc < 8 then
      (if (bget s.board nr.toNat nc.toNat).col ≠ some (allyColor s) then
        [mkMove (r, c) (nr.toNat, nc.toNat) s.board none false false]
       else [])
    else []

/-- `GameState.getQueenMoves(r, c, moves)` (bishop rays first, as in the
source). -/
def getQueenMoves (s : GameState) (r c : Nat) : List Move :=
  getBishopMoves s r c ++ getRookMoves s r c

/-- `GameState.getKingMoves(r, c, moves)`. -/
def getKingMoves (s : GameState) (r c : Nat) : List Move :=
  [((0 : Int), (1 : Int)), (0, -1), (1, 0), (-1, 0),
   (1, 1), (-1, -1), (-1, 1), (1, -1)].flatMap fun d =>
    let nr := (r : Int) + d.1
    let nc := (c : Int) + d.2
    if 0 ≤ nr ∧ nr < 8 ∧ 0 ≤ nc ∧ nc < 8 then
      (if (bget s.board nr.toNat nc.toNat).col ≠ some (allyColor s) then
        [mkMove (r, c) (nr.toNat, nc.toNat) s.board none false false]
       else [])
    else []

/-- The `self.moveFunctions` dispatch table. -/
def pieceMoves (s : GameState) (k : Kind) (r c : Nat) : List Move :=
  match k with
  | .pawn => getPawnMoves s r c
  | .rook => getRookMoves s r c
  | .king => getKingMoves s r c
  | .queen => getQueenMoves s r c
  | .bishop => getBishopMoves s r c
  | .knight => getKnightMoves s r c

/-- `GameState.getAllPossibleMovees()`. -/
def getAllPossibleMovees (s : GameState) : List Move :=
  (List.range s.board.length).flatMap fun r =>
    (List.range (s.board.getD r []).length).flatMap fun c =>
      match bget s.board r c with
      | .empty => []
      | .mk col k =>
        if (col = .white ∧ s.whiteToMove) ∨ (col = .black ∧ ¬s.whiteToMove) then
          pieceMoves s k r c
        else []

/-- `GameState.SquareUnderAttack(r, c)` (pure: the two side-to-move flips of
the source cancel and are internal to this definition). -/
def SquareUnderAttack (s : GameState) (r c : Nat) : Bool :=
  (getAllPossibleMovees { s with whiteToMove := !s.whiteToMove }).any fun m =>
    m.endRow == r && m.endCol == c

/-- `GameState.inCheck()`. -/
def inCheck (s : GameState) : Bool :=
  if s.whiteToMove then
    SquareUnderAttack s s.whiteKingLocation.1 s.whiteKingLocation.2
  else
    SquareUnderAttack s s.blackKingLocation.1 s.blackKingLocation.2

/-- `GameState.kingSideCastleMoves(r, c, moves)`. -/
def kingSideCastleMoves (s : GameState) (r c : Nat) : List Move :=
  if bget s.board r (c + 1) = .empty ∧ bget s.board r (c + 2) = .empty then
    (if ¬SquareUnderAttack s r (c + 1) ∧ ¬SquareUnderAttack s r (c + 2) then
      [mkMove (r, c) (r, c + 2) s.board none false true]
     else [])
  else []

/-- `GameState.queenSideCastleMoves(r, c, moves)`. -/
def queenSideCastleMoves (s : GameState) (r c : Nat) : List Move :=
  if bget s.board r (c - 1) = .empty ∧ bget s.board r (c - 2) = .empty ∧
      bget s.board r (c - 3) = .empty then
    (if ¬SquareUnderAttack s r (c - 1) ∧ ¬SquareUnderAttack s r (c - 2) then
      [mkMove (r, c) (r, c - 2) s.board none false true]
     else [])
  else []

/-- `GameState.getCastleMoves(r, c, moves)`. -/
def getCastleMoves (s : GameState) (r c : Nat) : List Move :=
  if SquareUnderAttack s r c then []
  else
    (if (s.whiteToMove ∧ s.currentCastlingRights.wks = true) ∨
        (¬s.whiteToMove ∧ s.currentCastlingRights.bks = true) then
      kingSideCastleMoves s r c
     else []) ++
    (if (s.whiteToMove ∧ s.currentCastlingRights.wqs = true) ∨
        (¬s.whiteToMove ∧ s.currentCastlingRights.bqs = true) then
      queenSideCastleMoves s r c
     else [])

/-- Python's `list.remove(x)` where `Move.__eq__` compares `moveID`. -/
def removeFirstByID (l : List Move) (m : Move) : List Move :=
  match l with
  | [] => []
  | x :: xs => if x.moveID = m.moveID then xs else x :: removeFirstByID xs m

/-- The `for i in range(len(moves)-1, -1, -1)` probing loop of
`getValidMoves`: index `n` of the current (possibly already shrunk) list is
processed, then the loop continues downward. -/
def checkFilterLoop : List Move → GameState → Nat → List Move × GameState
  | mv, s, 0 => (mv, s)
  | mv, s, n + 1 =>
    let m := mv.getD n default
    let s1 := makeMove s m
    let s2 := { s1 with whiteToMove := !s1.whiteToMove }
    let bad := inCheck s2
    let mv' := if bad then removeFirstByID mv m else mv
    let s3 := { s2 with whiteToMove := !s2.whiteToMove }
    let s4 := undoMove s3
    checkFilterLoop mv' s4 n

/-- `GameState.getValidMoves()`: returns the legal-move list together with the
state of the object after the call. -/
def getValidMoves (s : GameState) : List Move × GameState :=
  let tempEnpassantPossible := s.enpassantPossible
  let tempCastleRights : CastlingRights :=
    ⟨s.currentCastlingRights.wks, s.currentCastlingRights.bks,
     s.currentCastlingRights.wqs, s.currentCastlingRights.bqs⟩
  let moves0 := getAllPossibleMovees s
  let moves1 := moves0 ++
    (if s.whiteToMove then
      getCastleMoves s s.whiteKingLocation.1 s.whiteKingLocation.2
     else getCastleMoves s s.blackKingLocation.1 s.blackKingLocation.2)
  let p := checkFilterLoop moves1 s moves1.length
  let moves2 := p.1
  let s1 := p.2
  let s2 :=
    if moves2 = [] then
      (if inCheck s1 then { s1 with checkMate := true }
       else { s1 with staleMate := true })
    else { s1 with checkMate := false, staleMate := false }
  (moves2, { s2 with enpassantPossible := tempEnpassantPossible,
                     currentCastlingRights := tempCastleRights })

/-! ## The search engine (src/moveAI.py)

Scores are embedded as `ℚ`; the source's float literals 3.3 and 0.01 become
33/10 and 1/100.  The process-wide mutable `nextMove` is threaded through the
search functions and returned; the `counter` global is only printed by the
source and is not modelled. -/

/-- `pieceScore`. -/
def pieceScore : Kind → ℚ
  | .king => 0
  | .queen => 10
  | .rook => 5
  | .bishop => 33 / 10
  | .knight => 3
  | .pawn => 1

/-- `pieceScore[square[1]]` on a nonempty square. -/
def pieceVal : Piece → ℚ
  | .empty => 0
  | .mk _ k => pieceScore k

def pawnScoreTable : List (List ℚ) :=
  [[0, 0, 0, 0, 0, 0, 0, 0],
   [5, 5, 5, -5, -5, 5, 5, 5],
   [1, 1, 2, 3, 3, 2, 1, 1],
   [0, 0, 0, 2, 2, 0, 0, 0],
   [0, 0, 0, -2, -2, 0, 0, 0],
   [1, -1, -2, 0, 0, -2, -1, 1],
   [1, 2, 2, -2, -2, 2, 2, 1],
   [0, 0, 0, 0, 0, 0, 0, 0]]

def knightScoreTable : List (List ℚ) :=
  [[-5, -4, -3, -3, -3, -3, -4, -5],
   [-4, -2, 0, 1, 1, 0, -2, -4],
   [-3, 1, 2, 3, 3, 2, 1, -3],
   [-3, 0, 3, 4, 4, 3, 0, -3],
   [-3, 1, 3, 4, 4, 3, 1, -3],
   [-3, 0, 2, 3, 3, 2, 0, -3],
   [-4, -2, 0, 0, 0, 0, -2, -4],
   [-5, -4, -3, -3, -3, -3, -4, -5]]

def bishopScoreTable : List (List ℚ) :=
  [[-2, -1, -1, -1, -1, -1, -1, -2],
   [-1, 0, 0, 0, 0, 0, 0, -1],
   [-1, 0, 1, 1, 1, 1, 0, -1],
   [-1, 1, 1, 1, 1, 1, 1, -1],
   [-1, 0, 1, 1, 1, 1, 0, -1],
   [-1, 1, 1, 1, 1, 1, 1, -1],
   [-1, 1, 0, 0, 0, 0, 1, -1],
   [-2, -1, -1, -1, -1, -1, -1, -2]]

def rookScoreTable : List (List ℚ) :=
  [[0, 0, 1, 2, 2, 1, 0, 0],
   [-2, 0, 0, 0, 0, 0, 0, -2],
   [-2, 0, 0, 0, 0, 0, 0, -2],
   [-2, 0, 0, 0, 0, 0, 0, -2],
   [-2, 0, 0, 0, 0, 0, 0, -2],
   [-2, 0, 0, 0, 0, 0, 0, -2],
   [2, 2, 2, 2, 2, 2, 2, 2],
   [0, 0, 1, 2, 2, 1, 0, 0]]

def queenScoreTable : List (List ℚ) :=
  [[-2, -1, -1, 0, 0, -1, -1, -2],
   [-1, 0, 0, 0, 0, 0, 0, -1],
   [-1, 0, 1, 1, 1, 1, 0, -1],
   [0, 0, 1, 1, 1, 1, 0, 0],
   [0, 0, 1, 1, 1, 1, 0, 0],
   [-1, 1, 1, 1, 1, 1, 0, -1],
   [-1, 0, 1, 0, 0, 0, 0, -1],
   [-2, -1, -1, 0, 0, -1, -1, -2]]

def kingScoreTable : List (List ℚ) :=
  [[-3, -4, -4, -5, -5, -4, -4, -3],
   [-3, -4, -4, -5, -5, -4, -4, -3],
   [-3, -4, -4, -5, -5, -4, -4, -3],
   [-3, -4, -4, -5, -5, -4, -4, -3],
   [-2, -3, -3, -4, -4, -3, -3, -2],
   [-1, -2, -2, -2, -2, -2, -2, -1],
   [2, 2, 0, 0, 0, 0, 2, 2],
   [2, 3, 1, 0, 0, 1, 3, 2]]

/-- `piecePositionScores` (the dict contains a table for all six kinds). -/
def piecePositionScores : Kind → List (List ℚ)
  | .pawn => pawnScoreTable
  | .knight => knightScoreTable
  | .bishop => bishopScoreTable
  | .rook => rookScoreTable
  | .queen => queenScoreTable
  | .king => kingScoreTable

def CHECKMATE : ℚ := 1000
def STALEMATE : ℚ := 0
def DEPTH : Nat := 3

/-- `scoreBoard(gs)`. -/
def scoreBoard (s : GameState) : ℚ :=
  if s.checkMate then (if s.whiteToMove then -CHECKMATE else CHECKMATE)
  else if s.staleMate then STALEMATE
  else
    (List.range s.board.length).foldl
      (fun acc row =>
        (List.range ((s.board.getD row []).length)).foldl
          (fun acc2 col =>
            match bget s.board row col with
            | .empty => acc2
            | .mk c k =>
              let material := pieceScore k
              let posTable := piecePositionScores k
              let positionScore :=
                if c = .white then (posTable.getD (7 - row) []).getD col 0
                else (posTable.getD row []).getD col 0
              let total := material + (1 / 100) * positionScore
              acc2 + (if c = .white then total else -total))
          acc)
      0

/-- `scoreMove(move, gs)` (the `gs` parameter is unused in the source body). -/
def scoreMove (m : Move) (gs : GameState) : ℚ :=
  let score0 : ℚ := 0
  let score1 :=
    if m.pieceCaptured ≠ .empty then
      score0 + (10 * pieceVal m.pieceCaptured - pieceVal m.pieceMoved)
    else score0
  let score2 :=
    if m.pieceMoved.kind = some .pawn ∧ (m.endRow = 0 ∨ m.endRow = 7) then
      score1 + 9
    else score1
  if m.pieceMoved.kind = some .pawn ∧ m.startCol ≠ m.endCol then score2 + 2
  else score2

/-- Stable insertion into a list ascending in `key`: the new element goes
after every element whose key is `≤` its own, so earlier elements with equal
keys stay in front of it. -/
def insertByKey (key : Move → ℚ) (a : Move) : List Move → List Move
  | [] => [a]
  | b :: bs => if key b ≤ key a then b :: insertByKey key a bs else a :: b :: bs

/-- Python's stable `list.sort(key=...)` (ascending in the key, equal keys
keep their original order), as a stable insertion sort. -/
def sortByKey (key : Move → ℚ) (l : List Move) : List Move :=
  l.foldl (fun acc a => insertByKey key a acc) []

/-- Return type of the search functions: the score, the value of the
process-wide `nextMove`, and the `GameState` after the call. -/
structure SearchResult where
  score : ℚ
  nextMove : Option Move
  state : GameState
deriving Repr

/-- The `for move in validMoves` loop of `findMoveNegaMax` at depth `d + 1`;
`recurse` is the search at depth `d` (passed explicitly so that both the loop
and the search are structurally recursive). -/
def negaMaxLoop (recurse : GameState → List Move → ℚ → Option Move → SearchResult)
    (d : Nat) (turnMultiplier : ℚ) :
    List Move → ℚ → Option Move → GameState → SearchResult
  | [], maxScore, nm, gs => ⟨maxScore, nm, gs⟩
  | move :: rest, maxScore, nm, gs =>
    let s1 := makeMove gs move
    let p := getValidMoves s1
    let r := recurse p.2 p.1 (-turnMultiplier) nm
    let score := -r.score
    let maxScore' := if maxScore < score then score else maxScore
    let nm' :=
      if maxScore < score then
        (if d + 1 = DEPTH then some move else r.nextMove)
      else r.nextMove
    let s4 := undoMove r.state
    negaMaxLoop recurse d turnMultiplier rest maxScore' nm' s4

/-- `findMoveNegaMax`, by structural recursion on `depth`. -/
def negaMaxAux : Nat → GameState → List Move → ℚ → Option Move → SearchResult
  | 0, gs, _validMoves, tm, nm => ⟨tm * scoreBoard gs, nm, gs⟩
  | d + 1, gs, validMoves, tm, nm =>
    negaMaxLoop (fun gs2 mv2 tm2 nm2 => negaMaxAux d gs2 mv2 tm2 nm2)
      d tm validMoves (-CHECKMATE) nm gs

/-- `findMoveNegaMax(gs, validMoves, depth, turnMultiplier)` (the process-wide
`nextMove` is the last argument and part of the result). -/
def findMoveNegaMax (gs : GameState) (validMoves : List Move) (depth : Nat)
    (turnMultiplier : ℚ) (nm : Option Move) : SearchResult :=
  negaMaxAux depth gs validMoves turnMultiplier nm

/-- The `for move in validMoves` loop of `findMoveNegaMaxAlphaBeta` at depth
`d + 1`, with the `alpha`/`beta` updates and the cut-off `break`; `recurse` is
the search at depth `d`. -/
def alphaBetaLoop
    (recurse : GameState → List Move → ℚ → ℚ → ℚ → Option Move → SearchResult)
    (d : Nat) (turnMultiplier : ℚ) :
    List Move → ℚ → ℚ → ℚ → Option Move → GameState → SearchResult
  | [], maxScore, _alpha, _beta, nm, gs => ⟨maxScore, nm, gs⟩
  | move :: rest, maxScore, alpha, beta, nm, gs =>
    let s1 := makeMove gs move
    let p := getValidMoves s1
    let r := recurse p.2 p.1 (-beta) (-alpha) (-turnMultiplier) nm
    let score := -r.score
    let maxScore' := if maxScore < score then score else maxScore
    let nm' :=
      if maxScore < score then
        (if d + 1 = DEPTH then some move else r.nextMove)
      else r.nextMove
    let s4 := undoMove r.state
    let alpha' := if alpha < maxScore' then maxScore' else alpha
    if beta ≤ alpha' then ⟨maxScore', nm', s4⟩
    else alphaBetaLoop recurse d turnMultiplier rest maxScore' alpha' beta nm' s4

/-- `findMoveNegaMaxAlphaBeta`, by structural recursion on depth.
`validMoves.sort(key=lambda move: -scoreMove(move, gs))` is Python's stable
ascending sort by key. -/
def alphaBetaAux : Nat → GameState → List Move → ℚ → ℚ → ℚ → Option Move →
    SearchResult
  | 0, gs, _validMoves, _alpha, _beta, tm, nm => ⟨tm * scoreBoard gs, nm, gs⟩
  | d + 1, gs, validMoves, alpha, beta, tm, nm =>
    let sorted := sortByKey (fun move => -(scoreMove move gs)) validMoves
    alphaBetaLoop
      (fun gs2 mv2 a2 b2 tm2 nm2 => alphaBetaAux d gs2 mv2 a2 b2 tm2 nm2)
      d tm sorted (-CHECKMATE) alpha beta nm gs

/-- `findMoveNegaMaxAlphaBeta(gs, validMoves, depth, alpha, beta,
turnMultiplier)`. -/
def findMoveNegaMaxAlphaBeta (gs : GameState) (validMoves : List Move)
    (depth : Nat) (alpha beta : ℚ) (turnMultiplier : ℚ) (nm : Option Move) :
    SearchResult :=
  alphaBetaAux depth gs validMoves alpha beta turnMultiplier nm

/-- `findBestMove(gs, validMoves)`: runs the alpha-beta search from the full
window and returns the recorded `nextMove` (with the state after the call). -/
def findBestMove (gs : GameState) (validMoves : List Move) :
    Option Move × GameState :=
  let r := findMoveNegaMaxAlphaBeta gs validMoves DEPTH (-CHECKMATE) CHECKMATE
    (if gs.whiteToMove then 1 else -1) none
  (r.nextMove, r.state)

/-- `findRandomMove(validMoves)`: `validMoves[k]` for the random index
`k = random.randint(0, len(validMoves) - 1)`, which the random source draws
uniformly from `[0, len - 1]`. -/
def findRandomMove (validMoves : List Move) (k : Nat) : Move :=
  validMoves.getD k default

/-- The AI-turn fallback of `chessMain.main`: use `findBestMove`, and if it
returned `None`, fall back to `findRandomMove` on the current legal moves. -/
def aiSelectMove (gs : GameState) (validMoves : List Move) (k : Nat) : Move :=
  match (findBestMove gs validMoves).1 with
  | some m => m
  | none => findRandomMove validMoves k

/-! ## Reachability and play invariants -/

/-- States reachable from the initial state by applying generated legal
moves. -/
inductive Reachable : GameState → Prop where
  | init : Reachable initialGameState
  | step {s : GameState} {m : Move} : Reachable s → m ∈ (getValidMoves s).1 →
      Reachable (makeMove s m)

/-- States reachable from the initial state by any interleaving of legal
`makeMove` and `undoMove` calls. -/
inductive ReachableMU : GameState → Prop where
  | init : ReachableMU initialGameState
  | step {s : GameState} {m : Move} : ReachableMU s → m ∈ (getValidMoves s).1 →
      ReachableMU (makeMove s m)
  | undo {s : GameState} : ReachableMU s → ReachableMU (undoMove s)

/-- The board is the 8×8 grid the program creates. -/
def WF8 (b : Board) : Prop := b.length = 8 ∧ ∀ row ∈ b, row.length = 8

/-- A move was a two-square pawn advance. -/
def isDoublePawn (m : Move) : Prop :=
  m.pieceMoved.kind = some Kind.pawn ∧ absDiff m.startRow m.endRow = 2

/-- Geometry of a set en-passant target: it was produced by the two-square
advance just played, sits on an empty square, and the advanced pawn stands
right behind it. -/
def epGeom (s : GameState) : Prop :=
  match s.enpassantPossible with
  | none => True
  | some (er, ec) =>
      ec < 8 ∧
      ((er = 5 ∧ s.whiteToMove = false ∧ bget s.board 4 ec = .mk .white .pawn ∧
        bget s.board 5 ec = .empty) ∨
       (er = 2 ∧ s.whiteToMove = true ∧ bget s.board 3 ec = .mk .black .pawn ∧
        bget s.board 2 ec = .empty))

/-- The cached king locations point at the unique king of each color. -/
def KingPlace (s : GameState) : Prop :=
  s.whiteKingLocation.1 < 8 ∧ s.whiteKingLocation.2 < 8 ∧
  s.blackKingLocation.1 < 8 ∧ s.blackKingLocation.2 < 8 ∧
  bget s.board s.whiteKingLocation.1 s.whiteKingLocation.2 = .mk .white .king ∧
  bget s.board s.blackKingLocation.1 s.blackKingLocation.2 = .mk .black .king ∧
  (∀ r c, r < 8 → c < 8 → bget s.board r c = .mk .white .king →
    (r, c) = s.whiteKingLocation) ∧
  (∀ r c, r < 8 → c < 8 → bget s.board r c = .mk .black .king →
    (r, c) = s.blackKingLocation)

/-- A still-set castling right has the corresponding rook on its home
square. -/
def RookHome (s : GameState) : Prop :=
  (s.currentCastlingRights.wks = true → bget s.board 7 7 = .mk .white .rook) ∧
  (s.currentCastlingRights.wqs = true → bget s.board 7 0 = .mk .white .rook) ∧
  (s.currentCastlingRights.bks = true → bget s.board 0 7 = .mk .black .rook) ∧
  (s.currentCastlingRights.bqs = true → bget s.board 0 0 = .mk .black .rook)

/-- A still-set castling right has the king on its home square. -/
def KingHome (s : GameState) : Prop :=
  ((s.currentCastlingRights.wks = true ∨ s.currentCastlingRights.wqs = true) →
    s.whiteKingLocation = (7, 4)) ∧
  ((s.currentCastlingRights.bks = true ∨ s.currentCastlingRights.bqs = true) →
    s.blackKingLocation = (0, 4))

/-- The composite invariant of states produced by legal play. -/
structure Inv (s : GameState) : Prop where
  wf : WF8 s.board
  flagC : s.checkMate = false
  flagS : s.staleMate = false
  rsync : s.CastleRightLog.getLast? = some s.currentCastlingRights
  epg : epGeom s
  kings : KingPlace s
  rook : RookHome s
  khome : KingHome s
  safe : inCheck { s with whiteToMove := !s.whiteToMove } = false
  prows : ∀ c, c < 8 →
    bget s.board 0 c ≠ Piece.mk .white .pawn ∧
    bget s.board 7 c ≠ Piece.mk .black .pawn

/-- Facts about a move that make `undoMove` after `makeMove` an exact
inverse on the board and the cached king locations. -/
structure MoveOK (s : GameState) (m : Move) : Prop where
  sr : m.startRow < 8
  sc : m.startCol < 8
  er : m.endRow < 8
  ec : m.endCol < 8
  moved : m.pieceMoved = bget s.board m.startRow m.startCol
  ne : (m.startRow, m.startCol) ≠ (m.endRow, m.endCol)
  capF : m.isEnPassantMove = false → m.pieceCaptured = bget s.board m.endRow m.endCol
  wkloc : m.pieceMoved = .mk .white .king → s.whiteKingLocation = (m.startRow, m.startCol)
  bkloc : m.pieceMoved = .mk .black .king → s.blackKingLocation = (m.startRow, m.startCol)
  epc : m.isEnPassantMove = true →
      m.isCastleMove = false ∧ m.isPawnPromotion = false ∧ m.startCol ≠ m.endCol ∧
      ((m.pieceMoved = .mk .white .pawn ∧ m.startRow = 3 ∧ m.endRow = 2 ∧
        m.pieceCaptured = .mk .black .pawn ∧
        bget s.board 2 m.endCol = .empty ∧ bget s.board 3 m.endCol = .mk .black .pawn) ∨
       (m.pieceMoved = .mk .black .pawn ∧ m.startRow = 4 ∧ m.endRow = 5 ∧
        m.pieceCaptured = .mk .white .pawn ∧
        bget s.board 5 m.endCol = .empty ∧ bget s.board 4 m.endCol = .mk .white .pawn))
  cas : m.isCastleMove = true →
      m.isEnPassantMove = false ∧ m.isPawnPromotion = false ∧
      m.endRow = m.startRow ∧ m.startCol = 4 ∧ m.pieceCaptured = .empty ∧
      ((m.endCol = 6 ∧ bget s.board m.startRow 5 = .empty ∧
        bget s.board m.startRow 6 = .empty) ∨
       (m.endCol = 2 ∧ bget s.board m.startRow 1 = .empty ∧
        bget s.board m.startRow 2 = .empty ∧ bget s.board m.startRow 3 = .empty))

/-- The board written back by `undoMove` when the last logged move is `m`. -/
def undoBoard (b : Board) (m : Move) : Board :=
  let b1 := bset b m.startRow m.startCol m.pieceMoved
  let b2 := bset b1 m.endRow m.endCol m.pieceCaptured
  let b3 :=
    if m.isEnPassantMove then
      let t := bset b2 m.endRow m.endCol .empty
      (if m.pieceMoved = .mk .white .pawn then
        bset t (m.endRow + 1) m.endCol (.mk .black .pawn)
       else bset t (m.endRow - 1) m.endCol (.mk .white .pawn))
    else b2
  if m.isCastleMove then
    (if m.endCol - m.startCol = 2 then
      bset (bset b3 m.endRow (m.endCol + 1) (bget b3 m.endRow (m.endCol - 1)))
        m.endRow (m.endCol - 1) .empty
    else
      bset (bset b3 m.endRow (m.endCol - 2) (bget b3 m.endRow (m.endCol + 1)))
        m.endRow (m.endCol + 1) .empty)
  else b3

/-- The full candidate list built by `getValidMoves` before the legality
filter: all pseudo-legal moves plus the castling moves. -/
def candidateMoves (s : GameState) : List Move :=
  getAllPossibleMovees s ++
    (if s.whiteToMove then
      getCastleMoves s s.whiteKingLocation.1 s.whiteKingLocation.2
     else getCastleMoves s s.blackKingLocation.1 s.blackKingLocation.2)

/-- The self-check test `getValidMoves` applies to each candidate move. -/
def badAfter (s : GameState) (m : Move) : Bool :=
  inCheck { makeMove s m with whiteToMove := !(makeMove s m).whiteToMove }

/-! ## Concrete states used as test inputs -/

def emptyBoard : Board := List.replicate 8 (List.replicate 8 Piece.empty)

def placeAll (l : List (Nat × Nat × Piece)) : Board :=
  l.foldl (fun b x => bset b x.1 x.2.1 x.2.2) emptyBoard

/-- White's e2-e4 from the initial position. -/
def moveE4 : Move := mkMove (6, 4) (4, 4) initialGameState.board none false false

/-- The state after 1. e4. -/
def stateE4 : GameState := makeMove initialGameState moveE4

/-- Black's Nb8-a6 in `stateE4`. -/
def moveNa6 : Move := mkMove (0, 1) (2, 0) stateE4.board none false false

/-- Position refuting C2's best-move equality: white to move, in check from
the pawn on b7; the legal replies Qxb7, Kb5 and Nxb7 all end the game at
once, so they score alike, but the move-ordering sort makes the alpha-beta
search record a different one than plain negamax. -/
def abTieState : GameState :=
  ⟨placeAll
    [(0, 0, .mk .black .king), (1, 1, .mk .black .pawn),
     (1, 2, .mk .white .queen), (2, 1, .mk .white .pawn),
     (2, 0, .mk .white .king), (3, 0, .mk .white .knight)],
   true, [], (2, 0), (0, 0), false, false, none,
   ⟨false, false, false, false⟩, [⟨false, false, false, false⟩]⟩

/-- The legal moves of `abTieState`. -/
def abTieMoves : List Move := (getValidMoves abTieState).1

/-- Position refuting C3's "none only on empty list": black to move, the only
legal move is h3-h2, after which every white line wins at once, so every root
score stays at `-CHECKMATE` and no move is ever recorded. -/
def noMoveState : GameState :=
  ⟨placeAll
    [(0, 0, .mk .black .king), (1, 1, .mk .black .pawn), (5, 7, .mk .black .pawn),
     (1, 2, .mk .white .queen), (2, 1, .mk .white .pawn),
     (7, 7, .mk .white .king), (3, 0, .mk .white .knight)],
   false, [], (7, 7), (0, 0), false, false, none,
   ⟨false, false, false, false⟩, [⟨false, false, false, false⟩]⟩

/-- The single pawn push e2-e3 from the initial position (used as a witness
input). -/
def c5move : Move := mkMove (6, 4) (5, 4) initialGameState.board none false false

def GEq (a b : GameState) : Prop :=
  a.board = b.board ∧ a.whiteToMove = b.whiteToMove ∧ a.movelog = b.movelog ∧
  a.whiteKingLocation = b.whiteKingLocation ∧
  a.blackKingLocation = b.blackKingLocation ∧
  a.currentCastlingRights = b.currentCastlingRights ∧
  a.CastleRightLog = b.CastleRightLog

/-- The order-independent value the two searches compute: the `foldl` is
the `for move in validMoves` maximum, and the recursive state and move list
are exactly what the loops pass on (`getValidMoves` applied after
`makeMove`). -/
def bestScore : Nat → GameState → List Move → ℚ
  | 0, gs, _ => (if gs.whiteToMove then (1 : ℚ) else -1) * scoreBoard gs
  | d + 1, gs, mv =>
    mv.foldl
      (fun acc m =>
        max acc
          (-(bestScore d (getValidMoves (makeMove gs m)).2
              (getValidMoves (makeMove gs m)).1)))
      (-CHECKMATE)


/-- A plain diagonal pawn capture (white pawn takes black pawn), not a
promotion. -/
def c9move : Move :=
  ⟨4, 3, 3, 4, Piece.mk .white .pawn, Piece.mk .black .pawn, false, false,
   Kind.queen, false⟩

/-! ## Board access lemmas -/

theorem bget_bset_ne {b : Board} {r c r' c' : Nat} {p : Piece}
    (h : r ≠ r' ∨ c ≠ c') : bget (bset b r c p) r' c' = bget b r' c' := by
  unfold bget bset
  rcases h with h | h
  · simp [List.getD_eq_getElem?_getD, List.getElem?_set_ne h]
  · rcases eq_or_ne r r' with rfl | hr
    · simp only [List.getD_eq_getElem?_getD, List.getElem?_set]
      rcases Nat.lt_or_ge r (List.length b) with hlt | hge
      · simp [hlt, List.getElem?_set_ne h, List.getD_eq_getElem?_getD]
      · simp [Nat.not_lt.mpr hge, List.getElem?_eq_none hge]
    · simp [List.getD_eq_getElem?_getD, List.getElem?_set_ne hr]

theorem bget_bset_self {b : Board} {r c : Nat} {p : Piece}
    (hr : r < b.length) (hc : c < (b.getD r []).length) :
    bget (bset b r c p) r c = p := by
  unfold bget bset
  simp only [List.getD_eq_getElem?_getD]
  rw [List.getElem?_set_self hr]
  simp only [Option.getD_some]
  rw [List.getElem?_set_self (by simpa using hc)]
  rfl

theorem wf8_bset {b : Board} (h : WF8 b) (r c : Nat) (p : Piece) :
    WF8 (bset b r c p) := by
  obtain ⟨h1, h2⟩ := h
  refine ⟨by simpa [bset] using h1, ?_⟩
  intro row hrow
  rcases Nat.lt_or_ge r b.length with hlt | hge
  · rcases List.mem_or_eq_of_mem_set hrow with h | rfl
    · exact h2 _ h
    · have e : b.getD r [] = b[r] := List.getD_eq_getElem b [] hlt
      rw [e, List.length_set]
      exact h2 _ (List.getElem_mem hlt)
  · have e : bset b r c p = b := by
      unfold bset
      exact List.set_eq_of_length_le hge
    rw [e] at hrow
    exact h2 _ hrow

theorem board_ext {b b' : Board} (h : WF8 b) (h' : WF8 b')
    (hp : ∀ r, r < 8 → ∀ c, c < 8 → bget b r c = bget b' r c) : b = b' := by
  obtain ⟨hl, hr⟩ := h
  obtain ⟨hl', hr'⟩ := h'
  apply List.ext_getElem (by omega)
  intro r hrb hrb'
  have r8 : r < 8 := by omega
  apply List.ext_getElem
  · rw [hr _ (List.getElem_mem hrb), hr' _ (List.getElem_mem hrb')]
  · intro c hcb hcb'
    have c8 : c < 8 := by rw [hr _ (List.getElem_mem hrb)] at hcb; omega
    have e1 : bget b r c = b[r][c] := by
      unfold bget
      rw [List.getD_eq_getElem b [] hrb, List.getD_eq_getElem _ _ hcb]
    have e2 : bget b' r c = b'[r][c] := by
      unfold bget
      rw [List.getD_eq_getElem b' [] hrb', List.getD_eq_getElem _ _ hcb']
    rw [← e1, ← e2]
    exact hp r r8 c c8

theorem wf8_row_len {b : Board} (wf : WF8 b) {r : Nat} (hr : r < 8) :
    (b.getD r []).length = 8 := by
  have hr' : r < b.length := by rw [wf.1]; exact hr
  have : b.getD r [] = b[r] := List.getD_eq_getElem _ _ hr'
  rw [this]
  exact wf.2 _ (List.getElem_mem _)

theorem bget_bset_self8 {b : Board} (wf : WF8 b) {r c : Nat} (hr : r < 8)
    (hc : c < 8) (p : Piece) : bget (bset b r c p) r c = p :=
  bget_bset_self (by rw [wf.1]; exact hr)
    (by rw [wf8_row_len wf hr]; exact hc)

/-! ## `undoMove` after `makeMove` -/

@[simp] theorem makeMove_whiteToMove (s : GameState) (m : Move) :
    (makeMove s m).whiteToMove = !s.whiteToMove := rfl

@[simp] theorem makeMove_movelog (s : GameState) (m : Move) :
    (makeMove s m).movelog = s.movelog ++ [m] := rfl

@[simp] theorem makeMove_checkMate (s : GameState) (m : Move) :
    (makeMove s m).checkMate = s.checkMate := rfl

@[simp] theorem makeMove_staleMate (s : GameState) (m : Move) :
    (makeMove s m).staleMate = s.staleMate := rfl

@[simp] theorem makeMove_ep (s : GameState) (m : Move) :
    (makeMove s m).enpassantPossible =
      if m.pieceMoved.kind = some Kind.pawn ∧ absDiff m.startRow m.endRow = 2
      then some ((m.startRow + m.endRow) / 2, m.endCol) else none := rfl

@[simp] theorem makeMove_wk (s : GameState) (m : Move) :
    (makeMove s m).whiteKingLocation =
      if m.pieceMoved = .mk .white .king then (m.endRow, m.endCol)
      else s.whiteKingLocation := rfl

@[simp] theorem makeMove_bk (s : GameState) (m : Move) :
    (makeMove s m).blackKingLocation =
      if m.pieceMoved = .mk .black .king then (m.endRow, m.endCol)
      else s.blackKingLocation := rfl

@[simp] theorem makeMove_rights (s : GameState) (m : Move) :
    (makeMove s m).currentCastlingRights =
      updateCastleRights s.currentCastlingRights m := rfl

@[simp] theorem makeMove_rlog (s : GameState) (m : Move) :
    (makeMove s m).CastleRightLog =
      s.CastleRightLog ++ [updateCastleRights s.currentCastlingRights m] := rfl

theorem makeMove_board (s : GameState) (m : Move) :
    (makeMove s m).board =
      (let b1 := bset s.board m.startRow m.startCol .empty
       let b2 :=
         if m.isPawnPromotion then
           bset b1 m.endRow m.endCol (m.pieceMoved.promote m.promotionChoice)
         else bset b1 m.endRow m.endCol m.pieceMoved
       let b3 :=
         if m.isEnPassantMove then
           (if m.pieceMoved = .mk .white .pawn then
             bset b2 (m.endRow + 1) m.endCol .empty
            else bset b2 (m.endRow - 1) m.endCol .empty)
         else b2
       if m.isCastleMove then
         (if m.endCol - m.startCol = 2 then
           bset (bset b3 m.endRow (m.endCol - 1) (bget b3 m.endRow (m.endCol + 1)))
             m.endRow (m.endCol + 1) .empty
         else
           bset (bset b3 m.endRow (m.endCol + 1) (bget b3 m.endRow (m.endCol - 2)))
             m.endRow (m.endCol - 2) .empty)
       else b3) := rfl

theorem wf8_make (s : GameState) (m : Move) (wf : WF8 s.board) :
    WF8 (makeMove s m).board := by
  rw [makeMove_board]
  simp only []
  split_ifs <;>
    repeat
      first
        | exact wf
        | apply wf8_bset

theorem wf8_undoBoard (m : Move) {b : Board} (wf : WF8 b) :
    WF8 (undoBoard b m) := by
  unfold undoBoard
  repeat first | exact wf | apply wf8_bset | split

theorem undoMove_eq (s' : GameState) (m : Move)
    (h : s'.movelog.getLast? = some m) :
    undoMove s' =
      { board := undoBoard s'.board m
        whiteToMove := !s'.whiteToMove
        movelog := s'.movelog.dropLast
        whiteKingLocation :=
          if m.pieceMoved = .mk .white .king then (m.startRow, m.startCol)
          else s'.whiteKingLocation
        blackKingLocation :=
          if m.pieceMoved = .mk .black .king then (m.startRow, m.startCol)
          else s'.blackKingLocation
        checkMate := s'.checkMate
        staleMate := s'.staleMate
        enpassantPossible :=
          if m.pieceMoved.kind = some Kind.pawn ∧ absDiff m.startRow m.endRow = 2
          then none else s'.enpassantPossible
        currentCastlingRights :=
          ⟨((s'.CastleRightLog.dropLast.getLast?).getD default).wks,
           ((s'.CastleRightLog.dropLast.getLast?).getD default).bks,
           ((s'.CastleRightLog.dropLast.getLast?).getD default).wqs,
           ((s'.CastleRightLog.dropLast.getLast?).getD default).bqs⟩
        CastleRightLog := s'.CastleRightLog.dropLast } := by
  unfold undoMove
  rw [h]
  rfl

@[simp] theorem mkMove_startRow (a b c d : Nat) (B : Board) (pc : Option Kind)
    (e f : Bool) : (mkMove (a, b) (c, d) B pc e f).startRow = a := rfl

@[simp] theorem mkMove_startCol (a b c d : Nat) (B : Board) (pc : Option Kind)
    (e f : Bool) : (mkMove (a, b) (c, d) B pc e f).startCol = b := rfl

@[simp] theorem mkMove_endRow (a b c d : Nat) (B : Board) (pc : Option Kind)
    (e f : Bool) : (mkMove (a, b) (c, d) B pc e f).endRow = c := rfl

@[simp] theorem mkMove_endCol (a b c d : Nat) (B : Board) (pc : Option Kind)
    (e f : Bool) : (mkMove (a, b) (c, d) B pc e f).endCol = d := rfl

@[simp] theorem mkMove_pieceMoved (a b c d : Nat) (B : Board) (pc : Option Kind)
    (e f : Bool) : (mkMove (a, b) (c, d) B pc e f).pieceMoved = bget B a b := rfl

@[simp] theorem mkMove_isEnPassant (a b c d : Nat) (B : Board) (pc : Option Kind)
    (e f : Bool) : (mkMove (a, b) (c, d) B pc e f).isEnPassantMove = e := rfl

@[simp] theorem mkMove_isCastle (a b c d : Nat) (B : Board) (pc : Option Kind)
    (e f : Bool) : (mkMove (a, b) (c, d) B pc e f).isCastleMove = f := rfl

theorem mkMove_pieceCaptured_plain (a b c d : Nat) (B : Board)
    (pc : Option Kind) (f : Bool) :
    (mkMove (a, b) (c, d) B pc false f).pieceCaptured = bget B c d := rfl

theorem mkMove_isPawnPromotion (a b c d : Nat) (B : Board) (pc : Option Kind)
    (e f : Bool) :
    (mkMove (a, b) (c, d) B pc e f).isPawnPromotion =
      decide ((bget B a b).kind = some .pawn ∧ (c = 0 ∨ c = 7)) := rfl

/-! ## Inversion of the move generators -/

theorem rayMoves_mem {s : GameState} {r c : Nat} {dr dc : Int} :
    ∀ {fuel : Nat} {tr tc : Int} {m : Move},
      m ∈ rayMoves s r c dr dc fuel tr tc →
      ∃ (e1 e2 j : Nat), e1 < 8 ∧ e2 < 8 ∧
        (e1 : Int) = tr + j * dr ∧ (e2 : Int) = tc + j * dc ∧
        m = mkMove (r, c) (e1, e2) s.board none false false ∧
        (bget s.board e1 e2).col ≠ (bget s.board r c).col := by
  intro fuel
  induction fuel with
  | zero => intro tr tc m h; simp [rayMoves] at h
  | succ n ih =>
    intro tr tc m h
    unfold rayMoves at h
    split_ifs at h with hin hsame hene
    · simp at h
    · rcases List.mem_singleton.mp h with rfl
      refine ⟨tr.toNat, tc.toNat, 0, by omega, by omega, ?_, ?_, rfl, hsame⟩
      · simp [Int.toNat_of_nonneg hin.1]
      · simp [Int.toNat_of_nonneg hin.2.2.1]
    · rcases List.mem_cons.mp h with rfl | htail
      · refine ⟨tr.toNat, tc.toNat, 0, by omega, by omega, ?_, ?_, rfl, hsame⟩
        · simp [Int.toNat_of_nonneg hin.1]
        · simp [Int.toNat_of_nonneg hin.2.2.1]
      · obtain ⟨e1, e2, j, hb1, hb2, he1, he2, hm, hcol⟩ := ih htail
        refine ⟨e1, e2, j + 1, hb1, hb2, ?_, ?_, hm, hcol⟩
        · rw [he1]; push_cast; ring
        · rw [he2]; push_cast; ring
    · simp at h

theorem getKnightMoves_mem {s : GameState} {r c : Nat} {m : Move}
    (h : m ∈ getKnightMoves s r c) :
    ∃ d : Int × Int,
      d ∈ ([(-2, -1), (-2, 1), (-1, -2), (-1, 2),
            (1, -2), (1, 2), (2, -1), (2, 1)] : List (Int × Int)) ∧
      ∃ e1 e2 : Nat, e1 < 8 ∧ e2 < 8 ∧
        (e1 : Int) = r + d.1 ∧ (e2 : Int) = c + d.2 ∧
        m = mkMove (r, c) (e1, e2) s.board none false false ∧
        (bget s.board e1 e2).col ≠ some (allyColor s) := by
  simp only [getKnightMoves, List.mem_flatMap] at h
  obtain ⟨d, hd, hm⟩ := h
  refine ⟨d, hd, ?_⟩
  split_ifs at hm with h1 h2
  · rcases List.mem_singleton.mp hm with rfl
    exact ⟨((r : Int) + d.1).toNat, ((c : Int) + d.2).toNat, by omega, by omega,
      by rw [Int.toNat_of_nonneg h1.1], by rw [Int.toNat_of_nonneg h1.2.2.1],
      rfl, h2⟩
  · simp at hm
  · simp at hm

theorem getKingMoves_mem {s : GameState} {r c : Nat} {m : Move}
    (h : m ∈ getKingMoves s r c) :
    ∃ d : Int × Int,
      d ∈ ([(0, 1), (0, -1), (1, 0), (-1, 0),
            (1, 1), (-1, -1), (-1, 1), (1, -1)] : List (Int × Int)) ∧
      ∃ e1 e2 : Nat, e1 < 8 ∧ e2 < 8 ∧
        (e1 : Int) = r + d.1 ∧ (e2 : Int) = c + d.2 ∧
        m = mkMove (r, c) (e1, e2) s.board none false false ∧
        (bget s.board e1 e2).col ≠ some (allyColor s) := by
  simp only [getKingMoves, List.mem_flatMap] at h
  obtain ⟨d, hd, hm⟩ := h
  refine ⟨d, hd, ?_⟩
  split_ifs at hm with h1 h2
  · rcases List.mem_singleton.mp hm with rfl
    exact ⟨((r : Int) + d.1).toNat, ((c : Int) + d.2).toNat, by omega, by omega,
      by rw [Int.toNat_of_nonneg h1.1], by rw [Int.toNat_of_nonneg h1.2.2.1],
      rfl, h2⟩
  · simp at hm
  · simp at hm

theorem getPawnMoves_mem_white {s : GameState} {r c : Nat} {m : Move}
    (hw : s.whiteToMove = true) (h : m ∈ getPawnMoves s r c) :
    (bget s.board (r - 1) c = .empty ∧
      m = mkMove (r, c) (r - 1, c) s.board none false false) ∨
    (r = 6 ∧ bget s.board (r - 1) c = .empty ∧ bget s.board (r - 2) c = .empty ∧
      m = mkMove (r, c) (r - 2, c) s.board none false false) ∨
    (1 ≤ c ∧ (bget s.board (r - 1) (c - 1)).col = some .black ∧
      m = mkMove (r, c) (r - 1, c - 1) s.board none false false) ∨
    (1 ≤ c ∧ ¬(bget s.board (r - 1) (c - 1)).col = some .black ∧
      s.enpassantPossible = some (r - 1, c - 1) ∧
      m = mkMove (r, c) (r - 1, c - 1) s.board none true false) ∨
    (c + 1 ≤ 7 ∧ (bget s.board (r - 1) (c + 1)).col = some .black ∧
      m = mkMove (r, c) (r - 1, c + 1) s.board none false false) ∨
    (c + 1 ≤ 7 ∧ ¬(bget s.board (r - 1) (c + 1)).col = some .black ∧
      s.enpassantPossible = some (r - 1, c + 1) ∧
      m = mkMove (r, c) (r - 1, c + 1) s.board none true false) := by
  unfold getPawnMoves at h
  rw [if_pos hw] at h
  simp only [List.mem_append] at h
  rcases h with (h | h) | h
  · split_ifs at h with h1 h2
    · rcases List.mem_cons.mp h with rfl | h
      · exact Or.inl ⟨h1, rfl⟩
      · rcases List.mem_singleton.mp h with rfl
        exact Or.inr (Or.inl ⟨h2.1, h1, h2.2, rfl⟩)
    · rcases List.mem_singleton.mp h with rfl
      exact Or.inl ⟨h1, rfl⟩
    · simp at h
  · split_ifs at h with h1 h2 h3
    · rcases List.mem_singleton.mp h with rfl
      exact Or.inr (Or.inr (Or.inl ⟨h1, h2, rfl⟩))
    · rcases List.mem_singleton.mp h with rfl
      exact Or.inr (Or.inr (Or.inr (Or.inl ⟨h1, h2, h3, rfl⟩)))
    · simp at h
    · simp at h
  · split_ifs at h with h1 h2 h3
    · rcases List.mem_singleton.mp h with rfl
      exact Or.inr (Or.inr (Or.inr (Or.inr (Or.inl ⟨h1, h2, rfl⟩))))
    · rcases List.mem_singleton.mp h with rfl
      exact Or.inr (Or.inr (Or.inr (Or.inr (Or.inr ⟨h1, h2, h3, rfl⟩))))
    · simp at h
    · simp at h

theorem getPawnMoves_mem_black {s : GameState} {r c : Nat} {m : Move}
    (hw : s.whiteToMove = false) (h : m ∈ getPawnMoves s r c) :
    (bget s.board (r + 1) c = .empty ∧
      m = mkMove (r, c) (r + 1, c) s.board none false false) ∨
    (r = 1 ∧ bget s.board (r + 1) c = .empty ∧ bget s.board (r + 2) c = .empty ∧
      m = mkMove (r, c) (r + 2, c) s.board none false false) ∨
    (1 ≤ c ∧ (bget s.board (r + 1) (c - 1)).col = some .white ∧
      m = mkMove (r, c) (r + 1, c - 1) s.board none false false) ∨
    (1 ≤ c ∧ ¬(bget s.board (r + 1) (c - 1)).col = some .white ∧
      s.enpassantPossible = some (r + 1, c - 1) ∧
      m = mkMove (r, c) (r + 1, c - 1) s.board none true false) ∨
    (c + 1 ≤ 7 ∧ (bget s.board (r + 1) (c + 1)).col = some .white ∧
      m = mkMove (r, c) (r + 1, c + 1) s.board none false false) ∨
    (c + 1 ≤ 7 ∧ ¬(bget s.board (r + 1) (c + 1)).col = some .white ∧
      s.enpassantPossible = some (r + 1, c + 1) ∧
      m = mkMove (r, c) (r + 1, c + 1) s.board none true false) := by
  unfold getPawnMoves at h
  rw [if_neg (by rw [hw]; exact Bool.false_ne_true)] at h
  simp only [List.mem_append] at h
  rcases h with (h | h) | h
  · split_ifs at h with h1 h2
    · rcases List.mem_cons.mp h with rfl | h
      · exact Or.inl ⟨h1, rfl⟩
      · rcases List.mem_singleton.mp h with rfl
        exact Or.inr (Or.inl ⟨h2.1, h1, h2.2, rfl⟩)
    · rcases List.mem_singleton.mp h with rfl
      exact Or.inl ⟨h1, rfl⟩
    · simp at h
  · split_ifs at h with h1 h2 h3
    · rcases List.mem_singleton.mp h with rfl
      exact Or.inr (Or.inr (Or.inl ⟨h1, h2, rfl⟩))
    · rcases List.mem_singleton.mp h with rfl
      exact Or.inr (Or.inr (Or.inr (Or.inl ⟨h1, h2, h3, rfl⟩)))
    · simp at h
    · simp at h
  · split_ifs at h with h1 h2 h3
    · rcases List.mem_singleton.mp h with rfl
      exact Or.inr (Or.inr (Or.inr (Or.inr (Or.inl ⟨h1, h2, rfl⟩))))
    · rcases List.mem_singleton.mp h with rfl
      exact Or.inr (Or.inr (Or.inr (Or.inr (Or.inr ⟨h1, h2, h3, rfl⟩))))
    · simp at h
    · simp at h

theorem kingSideCastleMoves_mem {s : GameState} {r c : Nat} {m : Move}
    (h : m ∈ kingSideCastleMoves s r c) :
    bget s.board r (c + 1) = .empty ∧ bget s.board r (c + 2) = .empty ∧
    m = mkMove (r, c) (r, c + 2) s.board none false true := by
  unfold kingSideCastleMoves at h
  split_ifs at h with h1 h2
  · rcases List.mem_singleton.mp h with rfl
    exact ⟨h1.1, h1.2, rfl⟩
  · simp at h
  · simp at h

theorem queenSideCastleMoves_mem {s : GameState} {r c : Nat} {m : Move}
    (h : m ∈ queenSideCastleMoves s r c) :
    bget s.board r (c - 1) = .empty ∧ bget s.board r (c - 2) = .empty ∧
    bget s.board r (c - 3) = .empty ∧
    m = mkMove (r, c) (r, c - 2) s.board none false true := by
  unfold queenSideCastleMoves at h
  split_ifs at h with h1 h2
  · rcases List.mem_singleton.mp h with rfl
    exact ⟨h1.1, h1.2.1, h1.2.2, rfl⟩
  · simp at h
  · simp at h

theorem getCastleMoves_mem {s : GameState} {r c : Nat} {m : Move}
    (h : m ∈ getCastleMoves s r c) :
    SquareUnderAttack s r c = false ∧
    ((((s.whiteToMove = true ∧ s.currentCastlingRights.wks = true) ∨
       (s.whiteToMove = false ∧ s.currentCastlingRights.bks = true)) ∧
      m ∈ kingSideCastleMoves s r c) ∨
     (((s.whiteToMove = true ∧ s.currentCastlingRights.wqs = true) ∨
       (s.whiteToMove = false ∧ s.currentCastlingRights.bqs = true)) ∧
      m ∈ queenSideCastleMoves s r c)) := by
  unfold getCastleMoves at h
  by_cases h1 : SquareUnderAttack s r c = true
  · rw [if_pos h1] at h
    simp at h
  · rw [if_neg h1] at h
    refine ⟨by simpa using h1, ?_⟩
    rcases List.mem_append.mp h with h | h
    · split_ifs at h with h2
      · refine Or.inl ⟨?_, h⟩
        rcases h2 with ⟨a, b⟩ | ⟨a, b⟩
        · exact Or.inl ⟨a, b⟩
        · exact Or.inr ⟨by simpa using a, b⟩
      · simp at h
    · split_ifs at h with h2
      · refine Or.inr ⟨?_, h⟩
        rcases h2 with ⟨a, b⟩ | ⟨a, b⟩
        · exact Or.inl ⟨a, b⟩
        · exact Or.inr ⟨by simpa using a, b⟩
      · simp at h

theorem getAllPossibleMovees_mem {s : GameState} {m : Move}
    (h : m ∈ getAllPossibleMovees s) :
    ∃ r c, r < s.board.length ∧ c < (s.board.getD r []).length ∧
      ∃ col k, bget s.board r c = .mk col k ∧
        ((col = .white ∧ s.whiteToMove = true) ∨
         (col = .black ∧ s.whiteToMove = false)) ∧
        m ∈ pieceMoves s k r c := by
  unfold getAllPossibleMovees at h
  simp only [List.mem_flatMap, List.mem_range] at h
  obtain ⟨r, hr, c, hc, hm⟩ := h
  refine ⟨r, c, hr, hc, ?_⟩
  rcases hq : bget s.board r c with _ | ⟨col, k⟩
  · rw [hq] at hm
    exact absurd (show m ∈ ([] : List Move) from hm) (by simp)
  · rw [hq] at hm
    have hm' : m ∈ (if (col = Color.white ∧ s.whiteToMove = true) ∨
        (col = Color.black ∧ ¬(s.whiteToMove = true)) then pieceMoves s k r c
        else []) := hm
    split_ifs at hm' with hturn
    · refine ⟨col, k, rfl, ?_, hm'⟩
      rcases hturn with ⟨h1, h2⟩ | ⟨h1, h2⟩
      · exact Or.inl ⟨h1, h2⟩
      · exact Or.inr ⟨h1, by simpa using h2⟩
    · simp at hm'

/-- Undoing a just-made compatible move restores every component of the
state except the en-passant target, which always comes back empty. -/
theorem undo_make (s : GameState) (m : Move) (wf : WF8 s.board)
    (ok : MoveOK s m)
    (rs : s.CastleRightLog.getLast? = some s.currentCastlingRights) :
    undoMove (makeMove s m) = { s with enpassantPossible := none } := by
  have hlog : (makeMove s m).movelog.getLast? = some m := by
    show (s.movelog ++ [m]).getLast? = some m
    exact List.getLast?_concat _
  rw [undoMove_eq _ m hlog]
  have hboard : undoBoard (makeMove s m).board m = s.board := by
    apply board_ext (wf8_undoBoard m (wf8_make s m wf)) wf
    intro r hr8 c hc8
    cases hep : m.isEnPassantMove
    · cases hca : m.isCastleMove
      · -- plain or promotion move
        have hpc : m.pieceCaptured = bget s.board m.endRow m.endCol := ok.capF hep
        simp only [undoBoard, makeMove_board, hep, hca, Bool.false_eq_true,
          if_false]
        by_cases hB : m.endRow = r ∧ m.endCol = c
        · obtain ⟨rfl, rfl⟩ := hB
          rw [bget_bset_self8 (by repeat first | exact wf | apply wf8_bset | split)
            ok.er ok.ec]
          exact hpc
        · rw [bget_bset_ne (not_and_or.mp hB)]
          by_cases hA : m.startRow = r ∧ m.startCol = c
          · obtain ⟨rfl, rfl⟩ := hA
            rw [bget_bset_self8
              (by repeat first | exact wf | apply wf8_bset | split) ok.sr ok.sc]
            exact ok.moved
          · rw [bget_bset_ne (not_and_or.mp hA)]
            split
            · rw [bget_bset_ne (not_and_or.mp hB),
                bget_bset_ne (not_and_or.mp hA)]
            · rw [bget_bset_ne (not_and_or.mp hB),
                bget_bset_ne (not_and_or.mp hA)]
      · -- castling move
        obtain ⟨hepf, hprf, hrow, hcol4, hpce, hside⟩ := ok.cas hca
        have hmoved := ok.moved
        rw [hcol4] at hmoved
        rcases hside with ⟨hc6, he5, he6⟩ | ⟨hc2, he1, he2, he3⟩
        · -- kingside: columns 4 → 6, rook from 7 to 5
          simp only [undoBoard, makeMove_board, hep, hca, hprf, hrow, hcol4, hc6,
            Bool.false_eq_true, if_false, if_true]
          norm_num
          have hR : bget (bset (bset s.board m.startRow 4 .empty) m.startRow 6
              m.pieceMoved) m.startRow 7 = bget s.board m.startRow 7 := by
            rw [bget_bset_ne (Or.inr (by omega)), bget_bset_ne (Or.inr (by omega))]
          rw [hR]
          have hRu : bget (bset (bset (bset (bset (bset (bset s.board m.startRow 4
              Piece.empty) m.startRow 6 m.pieceMoved) m.startRow 5
              (bget s.board m.startRow 7)) m.startRow 7 Piece.empty) m.startRow 4
              m.pieceMoved) m.startRow 6 m.pieceCaptured) m.startRow 5 =
              bget s.board m.startRow 7 := by
            rw [bget_bset_ne (Or.inr (by omega)), bget_bset_ne (Or.inr (by omega)),
              bget_bset_ne (Or.inr (by omega)),
              bget_bset_self8 (by repeat first | exact wf | apply wf8_bset) ok.sr
                (by omega)]
          rw [hRu]
          by_cases h5 : m.startRow = r ∧ 5 = c
          · obtain ⟨rfl, rfl⟩ := h5
            rw [bget_bset_self8 (by repeat first | exact wf | apply wf8_bset)
              ok.sr (by omega)]
            exact he5.symm
          · rw [bget_bset_ne (not_and_or.mp h5)]
            by_cases h7 : m.startRow = r ∧ 7 = c
            · obtain ⟨rfl, rfl⟩ := h7
              rw [bget_bset_self8 (by repeat first | exact wf | apply wf8_bset)
                ok.sr (by omega)]
            · rw [bget_bset_ne (not_and_or.mp h7)]
              by_cases h6 : m.startRow = r ∧ 6 = c
              · obtain ⟨rfl, rfl⟩ := h6
                rw [bget_bset_self8 (by repeat first | exact wf | apply wf8_bset)
                  ok.sr (by omega), hpce]
                exact he6.symm
              · rw [bget_bset_ne (not_and_or.mp h6)]
                by_cases h4 : m.startRow = r ∧ 4 = c
                · obtain ⟨rfl, rfl⟩ := h4
                  rw [bget_bset_self8 (by repeat first | exact wf | apply wf8_bset)
                    ok.sr (by omega)]
                  exact hmoved
                · rw [bget_bset_ne (not_and_or.mp h4),
                    bget_bset_ne (not_and_or.mp h7),
                    bget_bset_ne (not_and_or.mp h5),
                    bget_bset_ne (not_and_or.mp h6),
                    bget_bset_ne (not_and_or.mp h4)]
        · -- queenside: columns 4 → 2, rook from 0 to 3
          simp only [undoBoard, makeMove_board, hep, hca, hprf, hrow, hcol4, hc2,
            Bool.false_eq_true, if_false, if_true]
          norm_num
          have hR : bget (bset (bset s.board m.startRow 4 .empty) m.startRow 2
              m.pieceMoved) m.startRow 0 = bget s.board m.startRow 0 := by
            rw [bget_bset_ne (Or.inr (by omega)), bget_bset_ne (Or.inr (by omega))]
          rw [hR]
          have hRu : bget (bset (bset (bset (bset (bset (bset s.board m.startRow 4
              Piece.empty) m.startRow 2 m.pieceMoved) m.startRow 3
              (bget s.board m.startRow 0)) m.startRow 0 Piece.empty) m.startRow 4
              m.pieceMoved) m.startRow 2 m.pieceCaptured) m.startRow 3 =
              bget s.board m.startRow 0 := by
            rw [bget_bset_ne (Or.inr (by omega)), bget_bset_ne (Or.inr (by omega)),
              bget_bset_ne (Or.inr (by omega)),
              bget_bset_self8 (by repeat first | exact wf | apply wf8_bset) ok.sr
                (by omega)]
          rw [hRu]
          by_cases h3 : m.startRow = r ∧ 3 = c
          · obtain ⟨rfl, rfl⟩ := h3
            rw [bget_bset_self8 (by repeat first | exact wf | apply wf8_bset)
              ok.sr (by omega)]
            exact he3.symm
          · rw [bget_bset_ne (not_and_or.mp h3)]
            by_cases h0 : m.startRow = r ∧ 0 = c
            · obtain ⟨rfl, rfl⟩ := h0
              rw [bget_bset_self8 (by repeat first | exact wf | apply wf8_bset)
                ok.sr (by omega)]
            · rw [bget_bset_ne (not_and_or.mp h0)]
              by_cases h2 : m.startRow = r ∧ 2 = c
              · obtain ⟨rfl, rfl⟩ := h2
                rw [bget_bset_self8 (by repeat first | exact wf | apply wf8_bset)
                  ok.sr (by omega), hpce]
                exact he2.symm
              · rw [bget_bset_ne (not_and_or.mp h2)]
                by_cases h4 : m.startRow = r ∧ 4 = c
                · obtain ⟨rfl, rfl⟩ := h4
                  rw [bget_bset_self8 (by repeat first | exact wf | apply wf8_bset)
                    ok.sr (by omega)]
                  exact hmoved
                · rw [bget_bset_ne (not_and_or.mp h4),
                    bget_bset_ne (not_and_or.mp h0),
                    bget_bset_ne (not_and_or.mp h3),
                    bget_bset_ne (not_and_or.mp h2),
                    bget_bset_ne (not_and_or.mp h4)]
    · -- en passant
      obtain ⟨hcaf, hprf, hcne, hgeo⟩ := ok.epc hep
      rcases hgeo with ⟨hwp, hsr3, her2, hpcbp, hbe2, hbp3⟩ |
        ⟨hbp, hsr4, her5, hpcwp, hbe5, hwp4⟩
      · -- white pawn captures en passant: rows 3 → 2, captured pawn on row 3
        have hmoved := ok.moved
        rw [hsr3] at hmoved
        have hnbp : ¬(m.pieceMoved = Piece.mk Color.black Kind.pawn) := by
          rw [hwp]; intro h; cases h
        simp only [undoBoard, makeMove_board, hep, hcaf, hprf, hwp, hsr3, her2,
          Bool.false_eq_true, if_false, if_true]
        norm_num
        by_cases hP1 : 3 = r ∧ m.endCol = c
        · obtain ⟨rfl, rfl⟩ := hP1
          rw [bget_bset_self8 (by repeat first | exact wf | apply wf8_bset)
            (by omega) ok.ec]
          exact hbp3.symm
        · rw [bget_bset_ne (not_and_or.mp hP1)]
          by_cases hP2 : 2 = r ∧ m.endCol = c
          · obtain ⟨rfl, rfl⟩ := hP2
            rw [bget_bset_self8 (by repeat first | exact wf | apply wf8_bset)
              (by omega) ok.ec]
            exact hbe2.symm
          · rw [bget_bset_ne (not_and_or.mp hP2),
              bget_bset_ne (not_and_or.mp hP2)]
            by_cases hP3 : 3 = r ∧ m.startCol = c
            · obtain ⟨rfl, rfl⟩ := hP3
              rw [bget_bset_self8 (by repeat first | exact wf | apply wf8_bset)
                (by omega) ok.sc]
              rw [← hwp]
              exact hmoved
            · rw [bget_bset_ne (not_and_or.mp hP3),
                bget_bset_ne (not_and_or.mp hP1),
                bget_bset_ne (not_and_or.mp hP2),
                bget_bset_ne (not_and_or.mp hP3)]
      · -- black pawn captures en passant: rows 4 → 5, captured pawn on row 4
        have hmoved := ok.moved
        rw [hsr4] at hmoved
        have hnbp : ¬(m.pieceMoved = Piece.mk Color.white Kind.pawn) := by
          rw [hbp]; intro h; cases h
        simp only [undoBoard, makeMove_board, hep, hcaf, hprf, hsr4, her5,
          hnbp, Bool.false_eq_true, if_false, if_true, ite_false]
        norm_num
        by_cases hP1 : 4 = r ∧ m.endCol = c
        · obtain ⟨rfl, rfl⟩ := hP1
          rw [bget_bset_self8 (by repeat first | exact wf | apply wf8_bset)
            (by omega) ok.ec]
          exact hwp4.symm
        · rw [bget_bset_ne (not_and_or.mp hP1)]
          by_cases hP2 : 5 = r ∧ m.endCol = c
          · obtain ⟨rfl, rfl⟩ := hP2
            rw [bget_bset_self8 (by repeat first | exact wf | apply wf8_bset)
              (by omega) ok.ec]
            exact hbe5.symm
          · rw [bget_bset_ne (not_and_or.mp hP2),
              bget_bset_ne (not_and_or.mp hP2)]
            by_cases hP3 : 4 = r ∧ m.startCol = c
            · obtain ⟨rfl, rfl⟩ := hP3
              rw [bget_bset_self8 (by repeat first | exact wf | apply wf8_bset)
                (by omega) ok.sc]
              exact hmoved
            · rw [bget_bset_ne (not_and_or.mp hP3),
                bget_bset_ne (not_and_or.mp hP1),
                bget_bset_ne (not_and_or.mp hP2),
                bget_bset_ne (not_and_or.mp hP3)]
  have hrest : ∀ bb wt ml wk bk cm sm ep cr lg,
      bb = s.board → wt = s.whiteToMove → ml = s.movelog →
      wk = s.whiteKingLocation → bk = s.blackKingLocation →
      cm = s.checkMate → sm = s.staleMate →
      ep = (none : Option (Nat × Nat)) →
      cr = s.currentCastlingRights → lg = s.CastleRightLog →
      (⟨bb, wt, ml, wk, bk, cm, sm, ep, cr, lg⟩ : GameState) =
        { s with enpassantPossible := none } := by
    intro bb wt ml wk bk cm sm ep cr lg h1 h2 h3 h4 h5 h6 h7 h8 h9 h10
    subst h1 h2 h3 h4 h5 h6 h7 h8 h9 h10
    rfl
  apply hrest
  · exact hboard
  · show (!(!s.whiteToMove)) = s.whiteToMove
    exact Bool.not_not _
  · show (s.movelog ++ [m]).dropLast = s.movelog
    exact List.dropLast_concat
  · by_cases h : m.pieceMoved = .mk .white .king
    · rw [if_pos h, ok.wkloc h]
    · rw [if_neg h, makeMove_wk, if_neg h]
  · by_cases h : m.pieceMoved = .mk .black .king
    · rw [if_pos h, ok.bkloc h]
    · rw [if_neg h, makeMove_bk, if_neg h]
  · rfl
  · rfl
  · by_cases h : m.pieceMoved.kind = some Kind.pawn ∧ absDiff m.startRow m.endRow = 2
    · rw [if_pos h]
    · rw [if_neg h, makeMove_ep, if_neg h]
  · rw [makeMove_rlog, List.dropLast_concat, rs]
    rfl
  · rw [makeMove_rlog]
    exact List.dropLast_concat

/-! ## Candidate moves satisfy `MoveOK` -/

theorem moveOK_plain (s : GameState) (hInv : Inv s) {r c e1 e2 : Nat}
    (hr : r < 8) (hc : c < 8) (he1 : e1 < 8) (he2 : e2 < 8)
    (hne : (r, c) ≠ (e1, e2)) :
    MoveOK s (mkMove (r, c) (e1, e2) s.board none false false) := by
  refine ⟨hr, hc, he1, he2, rfl, by simpa using hne, fun _ => rfl, ?_, ?_,
    ?_, ?_⟩
  · intro h
    rw [mkMove_pieceMoved] at h
    exact (hInv.kings.2.2.2.2.2.2.1 r c hr hc h).symm
  · intro h
    rw [mkMove_pieceMoved] at h
    exact (hInv.kings.2.2.2.2.2.2.2 r c hr hc h).symm
  · intro h
    rw [mkMove_isEnPassant] at h
    cases h
  · intro h
    rw [mkMove_isCastle] at h
    cases h

theorem epGeom_some (s : GameState) (hInv : Inv s) {er ec : Nat}
    (h : s.enpassantPossible = some (er, ec)) :
    ec < 8 ∧
    ((er = 5 ∧ s.whiteToMove = false ∧ bget s.board 4 ec = .mk .white .pawn ∧
      bget s.board 5 ec = .empty) ∨
     (er = 2 ∧ s.whiteToMove = true ∧ bget s.board 3 ec = .mk .black .pawn ∧
      bget s.board 2 ec = .empty)) := by
  have hg := hInv.epg
  unfold epGeom at hg
  rw [h] at hg
  exact hg

theorem moveOK_of_ray (s : GameState) (hInv : Inv s) {r c : Nat}
    (hr : r < 8) (hc : c < 8) {m : Move} {dr dc : Int} {fuel : Nat}
    {tr tc : Int} (h : m ∈ rayMoves s r c dr dc fuel tr tc) : MoveOK s m := by
  obtain ⟨e1, e2, j, hb1, hb2, _, _, rfl, hcol⟩ := rayMoves_mem h
  refine moveOK_plain s hInv hr hc hb1 hb2 ?_
  intro hx
  rw [Prod.mk.injEq] at hx
  obtain ⟨h1, h2⟩ := hx
  rw [← h1, ← h2] at hcol
  exact hcol rfl

theorem moveOK_of_rook (s : GameState) (hInv : Inv s) {r c : Nat}
    (hr : r < 8) (hc : c < 8) {m : Move} (h : m ∈ getRookMoves s r c) :
    MoveOK s m := by
  unfold getRookMoves at h
  rw [List.mem_flatMap] at h
  obtain ⟨d, _, h⟩ := h
  exact moveOK_of_ray s hInv hr hc h

theorem moveOK_of_bishop (s : GameState) (hInv : Inv s) {r c : Nat}
    (hr : r < 8) (hc : c < 8) {m : Move} (h : m ∈ getBishopMoves s r c) :
    MoveOK s m := by
  unfold getBishopMoves at h
  rw [List.mem_flatMap] at h
  obtain ⟨d, _, h⟩ := h
  exact moveOK_of_ray s hInv hr hc h

theorem moveOK_of_leaper (s : GameState) (hInv : Inv s) {r c e1 e2 : Nat}
    (hr : r < 8) (hc : c < 8) (he1 : e1 < 8) (he2 : e2 < 8)
    (hstart : (bget s.board r c).col = some (allyColor s))
    (hcol : (bget s.board e1 e2).col ≠ some (allyColor s)) :
    MoveOK s (mkMove (r, c) (e1, e2) s.board none false false) := by
  refine moveOK_plain s hInv hr hc he1 he2 ?_
  intro hx
  rw [Prod.mk.injEq] at hx
  obtain ⟨h1, h2⟩ := hx
  rw [← h1, ← h2] at hcol
  exact hcol hstart

theorem moveOK_epw (s : GameState) {c d : Nat}
    (hc : c < 8) (hd : d < 8) (hcd : c ≠ d)
    (hq : bget s.board 3 c = Piece.mk .white .pawn)
    (hbp : bget s.board 3 d = Piece.mk .black .pawn)
    (hemp : bget s.board 2 d = Piece.empty) :
    MoveOK s (mkMove (3, c) (2, d) s.board none true false) := by
  refine ⟨?_, ?_, ?_, ?_, rfl, ?_, ?_, ?_, ?_, ?_, ?_⟩
  · simp only [mkMove_startRow]; omega
  · simp only [mkMove_startCol]; omega
  · simp only [mkMove_endRow]; omega
  · simp only [mkMove_endCol]; omega
  · intro hx
    simp only [mkMove_startRow, mkMove_startCol, mkMove_endRow, mkMove_endCol,
      Prod.mk.injEq] at hx
    omega
  · intro hx; rw [mkMove_isEnPassant] at hx; cases hx
  · intro hx
    rw [mkMove_pieceMoved, hq] at hx
    exact absurd hx (by decide)
  · intro hx
    rw [mkMove_pieceMoved, hq] at hx
    exact absurd hx (by decide)
  · intro _
    refine ⟨rfl, ?_, ?_, Or.inl ⟨by rw [mkMove_pieceMoved]; exact hq, rfl, rfl,
      ?_, ?_, ?_⟩⟩
    · rw [mkMove_isPawnPromotion]
      apply decide_eq_false
      rintro ⟨-, h2 | h2⟩
      · exact absurd h2 (by decide)
      · exact absurd h2 (by decide)
    · simp only [mkMove_startCol, mkMove_endCol]
      omega
    · show (if bget s.board 3 c = Piece.mk .white .pawn then
        Piece.mk .black .pawn else Piece.mk .white .pawn) = Piece.mk .black .pawn
      rw [hq, if_pos rfl]
    · simpa using hemp
    · simpa using hbp
  · intro hx; rw [mkMove_isCastle] at hx; cases hx

theorem moveOK_epb (s : GameState) {c d : Nat}
    (hc : c < 8) (hd : d < 8) (hcd : c ≠ d)
    (hq : bget s.board 4 c = Piece.mk .black .pawn)
    (hwp : bget s.board 4 d = Piece.mk .white .pawn)
    (hemp : bget s.board 5 d = Piece.empty) :
    MoveOK s (mkMove (4, c) (5, d) s.board none true false) := by
  refine ⟨?_, ?_, ?_, ?_, rfl, ?_, ?_, ?_, ?_, ?_, ?_⟩
  · simp only [mkMove_startRow]; omega
  · simp only [mkMove_startCol]; omega
  · simp only [mkMove_endRow]; omega
  · simp only [mkMove_endCol]; omega
  · intro hx
    simp only [mkMove_startRow, mkMove_startCol, mkMove_endRow, mkMove_endCol,
      Prod.mk.injEq] at hx
    omega
  · intro hx; rw [mkMove_isEnPassant] at hx; cases hx
  · intro hx
    rw [mkMove_pieceMoved, hq] at hx
    exact absurd hx (by decide)
  · intro hx
    rw [mkMove_pieceMoved, hq] at hx
    exact absurd hx (by decide)
  · intro _
    refine ⟨rfl, ?_, ?_, Or.inr ⟨by rw [mkMove_pieceMoved]; exact hq, rfl, rfl,
      ?_, ?_, ?_⟩⟩
    · rw [mkMove_isPawnPromotion]
      apply decide_eq_false
      rintro ⟨-, h2 | h2⟩
      · exact absurd h2 (by decide)
      · exact absurd h2 (by decide)
    · simp only [mkMove_startCol, mkMove_endCol]
      omega
    · show (if bget s.board 4 c = Piece.mk .white .pawn then
        Piece.mk .black .pawn else Piece.mk .white .pawn) = Piece.mk .white .pawn
      rw [hq, if_neg (by decide)]
    · simpa using hemp
    · simpa using hwp
  · intro hx; rw [mkMove_isCastle] at hx; cases hx

theorem moveOK_castle (s : GameState) {r e2 : Nat} (hr : r < 8) (he2 : e2 < 8)
    (hwk : (bget s.board r 4).kind = some Kind.king)
    (hwkl : bget s.board r 4 = Piece.mk .white .king →
      s.whiteKingLocation = (r, 4))
    (hbkl : bget s.board r 4 = Piece.mk .black .king →
      s.blackKingLocation = (r, 4))
    (hcap : bget s.board r e2 = Piece.empty)
    (hne : e2 ≠ 4)
    (hdisj : (e2 = 6 ∧ bget s.board r 5 = Piece.empty ∧
        bget s.board r 6 = Piece.empty) ∨
      (e2 = 2 ∧ bget s.board r 1 = Piece.empty ∧
        bget s.board r 2 = Piece.empty ∧ bget s.board r 3 = Piece.empty)) :
    MoveOK s (mkMove (r, 4) (r, e2) s.board none false true) := by
  refine ⟨?_, ?_, ?_, ?_, rfl, ?_, fun _ => rfl, ?_, ?_, ?_, ?_⟩
  · simp only [mkMove_startRow]; omega
  · simp only [mkMove_startCol]; omega
  · simp only [mkMove_endRow]; omega
  · simp only [mkMove_endCol]; omega
  · intro hx
    simp only [mkMove_startRow, mkMove_startCol, mkMove_endRow, mkMove_endCol,
      Prod.mk.injEq] at hx
    omega
  · intro hx
    rw [mkMove_pieceMoved] at hx
    exact hwkl hx
  · intro hx
    rw [mkMove_pieceMoved] at hx
    exact hbkl hx
  · intro hx; rw [mkMove_isEnPassant] at hx; cases hx
  · intro _
    refine ⟨rfl, ?_, rfl, rfl, hcap, hdisj⟩
    rw [mkMove_isPawnPromotion]
    apply decide_eq_false
    rintro ⟨h1, -⟩
    rw [hwk] at h1
    exact absurd h1 (by decide)

theorem candidate_moveOK (s : GameState) (hInv : Inv s) {m : Move}
    (hm : m ∈ candidateMoves s) : MoveOK s m := by
  have wf := hInv.wf
  rcases List.mem_append.mp hm with hp | hcas
  · obtain ⟨r, c, hr0, hc0, col, k, hq, hturn, hgen⟩ := getAllPossibleMovees_mem hp
    have hr : r < 8 := by rw [wf.1] at hr0; exact hr0
    have hc : c < 8 := by rw [wf8_row_len wf hr] at hc0; exact hc0
    have hally : allyColor s = col := by
      rcases hturn with ⟨rfl, hw⟩ | ⟨rfl, hw⟩
      · unfold allyColor; rw [hw]; rfl
      · unfold allyColor; rw [hw]; rfl
    have hstart : (bget s.board r c).col = some (allyColor s) := by
      rw [hq, hally]; rfl
    cases k
    case rook => exact moveOK_of_rook s hInv hr hc hgen
    case bishop => exact moveOK_of_bishop s hInv hr hc hgen
    case queen =>
      rcases List.mem_append.mp hgen with h | h
      · exact moveOK_of_bishop s hInv hr hc h
      · exact moveOK_of_rook s hInv hr hc h
    case knight =>
      obtain ⟨d, _, e1, e2, hb1, hb2, _, _, rfl, hcol⟩ := getKnightMoves_mem hgen
      exact moveOK_of_leaper s hInv hr hc hb1 hb2 hstart hcol
    case king =>
      obtain ⟨d, _, e1, e2, hb1, hb2, _, _, rfl, hcol⟩ := getKingMoves_mem hgen
      exact moveOK_of_leaper s hInv hr hc hb1 hb2 hstart hcol
    case pawn =>
      rcases hturn with ⟨rfl, hw⟩ | ⟨rfl, hw⟩
      · -- white pawn
        rcases getPawnMoves_mem_white hw hgen with
          ⟨h1, rfl⟩ | ⟨hr6, h1, h2, rfl⟩ | ⟨hc1, h1, rfl⟩ | ⟨hc1, h1, hep, rfl⟩ |
          ⟨hc7, h1, rfl⟩ | ⟨hc7, h1, hep, rfl⟩
        · have hr1 : 1 ≤ r := by
            rcases Nat.eq_zero_or_pos r with rfl | h
            · rw [show (0 : Nat) - 1 = 0 from rfl, hq] at h1; cases h1
            · exact h
          refine moveOK_plain s hInv hr hc (by omega) hc ?_
          intro hx; rw [Prod.mk.injEq] at hx; omega
        · subst hr6
          refine moveOK_plain s hInv hr hc (by omega) hc ?_
          intro hx; rw [Prod.mk.injEq] at hx; omega
        · refine moveOK_plain s hInv hr hc (by omega) (by omega) ?_
          intro hx; rw [Prod.mk.injEq] at hx; omega
        · -- en passant towards column c - 1
          obtain ⟨hec8, hgeo⟩ := epGeom_some s hInv hep
          rcases hgeo with ⟨_, hwf, _, _⟩ | ⟨her, _, hbp, hemp⟩
          · rw [hw] at hwf; cases hwf
          · have hr3 : r = 3 := by omega
            subst hr3
            exact moveOK_epw s hc hec8 (by omega) hq hbp hemp
        · refine moveOK_plain s hInv hr hc (by omega) (by omega) ?_
          intro hx; rw [Prod.mk.injEq] at hx; omega
        · -- en passant towards column c + 1
          obtain ⟨hec8, hgeo⟩ := epGeom_some s hInv hep
          rcases hgeo with ⟨_, hwf, _, _⟩ | ⟨her, _, hbp, hemp⟩
          · rw [hw] at hwf; cases hwf
          · have hr3 : r = 3 := by omega
            subst hr3
            exact moveOK_epw s hc hec8 (by omega) hq hbp hemp
      · -- black pawn
        rcases getPawnMoves_mem_black hw hgen with
          ⟨h1, rfl⟩ | ⟨hr6, h1, h2, rfl⟩ | ⟨hc1, h1, rfl⟩ | ⟨hc1, h1, hep, rfl⟩ |
          ⟨hc7, h1, rfl⟩ | ⟨hc7, h1, hep, rfl⟩
        · have hr7 : r ≠ 7 := by
            intro hx
            exact (hInv.prows c hc).2 (hx ▸ hq)
          refine moveOK_plain s hInv hr hc (by omega) hc ?_
          intro hx; rw [Prod.mk.injEq] at hx; omega
        · subst hr6
          refine moveOK_plain s hInv hr hc (by omega) hc ?_
          intro hx; rw [Prod.mk.injEq] at hx; omega
        · have hr7 : r ≠ 7 := by
            intro hx
            exact (hInv.prows c hc).2 (hx ▸ hq)
          refine moveOK_plain s hInv hr hc (by omega) (by omega) ?_
          intro hx; rw [Prod.mk.injEq] at hx; omega
        · -- en passant towards column c - 1
          obtain ⟨hec8, hgeo⟩ := epGeom_some s hInv hep
          rcases hgeo with ⟨her, _, hwp, hemp⟩ | ⟨_, hwt, _, _⟩
          · have hr4 : r = 4 := by omega
            subst hr4
            exact moveOK_epb s hc hec8 (by omega) hq hwp hemp
          · rw [hw] at hwt; cases hwt
        · have hr7 : r ≠ 7 := by
            intro hx
            exact (hInv.prows c hc).2 (hx ▸ hq)
          refine moveOK_plain s hInv hr hc (by omega) (by omega) ?_
          intro hx; rw [Prod.mk.injEq] at hx; omega
        · -- en passant towards column c + 1
          obtain ⟨hec8, hgeo⟩ := epGeom_some s hInv hep
          rcases hgeo with ⟨her, _, hwp, hemp⟩ | ⟨_, hwt, _, _⟩
          · have hr4 : r = 4 := by omega
            subst hr4
            exact moveOK_epb s hc hec8 (by omega) hq hwp hemp
          · rw [hw] at hwt; cases hwt
  · by_cases hw : s.whiteToMove = true
    · rw [if_pos hw] at hcas
      obtain ⟨hsua, hd⟩ := getCastleMoves_mem hcas
      rcases hd with ⟨hrights, hside⟩ | ⟨hrights, hside⟩
      · have hwks : s.currentCastlingRights.wks = true := by
          rcases hrights with ⟨-, h⟩ | ⟨h, -⟩
          · exact h
          · rw [hw] at h; cases h
        have hkl : s.whiteKingLocation = (7, 4) := hInv.khome.1 (Or.inl hwks)
        have h1 : s.whiteKingLocation.1 = 7 := by rw [hkl]
        have h2 : s.whiteKingLocation.2 = 4 := by rw [hkl]
        rw [h1, h2] at hside
        obtain ⟨h5, h6, rfl⟩ := kingSideCastleMoves_mem hside
        have hK : bget s.board 7 4 = Piece.mk .white .king := by
          have h := hInv.kings.2.2.2.2.1
          rw [h1, h2] at h
          exact h
        refine moveOK_castle s (by omega) (by omega) ?_ ?_ ?_ h6 (by omega)
          (Or.inl ⟨rfl, h5, h6⟩)
        · rw [hK]; rfl
        · intro _; exact hkl
        · intro hx; rw [hK] at hx; exact absurd hx (by decide)
      · have hwqs : s.currentCastlingRights.wqs = true := by
          rcases hrights with ⟨-, h⟩ | ⟨h, -⟩
          · exact h
          · rw [hw] at h; cases h
        have hkl : s.whiteKingLocation = (7, 4) := hInv.khome.1 (Or.inr hwqs)
        have h1 : s.whiteKingLocation.1 = 7 := by rw [hkl]
        have h2 : s.whiteKingLocation.2 = 4 := by rw [hkl]
        rw [h1, h2] at hside
        obtain ⟨hq1, hq2, hq3, rfl⟩ := queenSideCastleMoves_mem hside
        have hK : bget s.board 7 4 = Piece.mk .white .king := by
          have h := hInv.kings.2.2.2.2.1
          rw [h1, h2] at h
          exact h
        refine moveOK_castle s (by omega) (by omega) ?_ ?_ ?_ hq2 (by omega)
          (Or.inr ⟨rfl, hq3, hq2, hq1⟩)
        · rw [hK]; rfl
        · intro _; exact hkl
        · intro hx; rw [hK] at hx; exact absurd hx (by decide)
    · rw [if_neg hw] at hcas
      have hwf : s.whiteToMove = false := by
        cases hb : s.whiteToMove
        · rfl
        · exact absurd hb hw
      obtain ⟨hsua, hd⟩ := getCastleMoves_mem hcas
      rcases hd with ⟨hrights, hside⟩ | ⟨hrights, hside⟩
      · have hbks : s.currentCastlingRights.bks = true := by
          rcases hrights with ⟨h, -⟩ | ⟨-, h⟩
          · rw [hwf] at h; cases h
          · exact h
        have hkl : s.blackKingLocation = (0, 4) := hInv.khome.2 (Or.inl hbks)
        have h1 : s.blackKingLocation.1 = 0 := by rw [hkl]
        have h2 : s.blackKingLocation.2 = 4 := by rw [hkl]
        rw [h1, h2] at hside
        obtain ⟨h5, h6, rfl⟩ := kingSideCastleMoves_mem hside
        have hK : bget s.board 0 4 = Piece.mk .black .king := by
          have h := hInv.kings.2.2.2.2.2.1
          rw [h1, h2] at h
          exact h
        refine moveOK_castle s (by omega) (by omega) ?_ ?_ ?_ h6 (by omega)
          (Or.inl ⟨rfl, h5, h6⟩)
        · rw [hK]; rfl
        · intro hx; rw [hK] at hx; exact absurd hx (by decide)
        · intro _; exact hkl
      · have hbqs : s.currentCastlingRights.bqs = true := by
          rcases hrights with ⟨h, -⟩ | ⟨-, h⟩
          · rw [hwf] at h; cases h
          · exact h
        have hkl : s.blackKingLocation = (0, 4) := hInv.khome.2 (Or.inr hbqs)
        have h1 : s.blackKingLocation.1 = 0 := by rw [hkl]
        have h2 : s.blackKingLocation.2 = 4 := by rw [hkl]
        rw [h1, h2] at hside
        obtain ⟨hq1, hq2, hq3, rfl⟩ := queenSideCastleMoves_mem hside
        have hK : bget s.board 0 4 = Piece.mk .black .king := by
          have h := hInv.kings.2.2.2.2.2.1
          rw [h1, h2] at h
          exact h
        refine moveOK_castle s (by omega) (by omega) ?_ ?_ ?_ hq2 (by omega)
          (Or.inr ⟨rfl, hq3, hq2, hq1⟩)
        · rw [hK]; rfl
        · intro hx; rw [hK] at hx; exact absurd hx (by decide)
        · intro _; exact hkl

/-! ## The probing loop of `getValidMoves` -/

theorem makeMove_ep_irrel (s : GameState) (e : Option (Nat × Nat)) (m : Move) :
    makeMove { s with enpassantPossible := e } m = makeMove s m := rfl

theorem moveOK_ep_irrel {s : GameState} {m : Move} (e : Option (Nat × Nat))
    (h : MoveOK s m) : MoveOK { s with enpassantPossible := e } m :=
  ⟨h.sr, h.sc, h.er, h.ec, h.moved, h.ne, h.capF, h.wkloc, h.bkloc, h.epc, h.cas⟩

theorem flip_flip (u : GameState) :
    ({ { u with whiteToMove := !u.whiteToMove } with
        whiteToMove := !(!u.whiteToMove) } : GameState) = u := by
  rw [Bool.not_not]

theorem badAfter_ep_irrel (s : GameState) (e : Option (Nat × Nat)) (m : Move) :
    badAfter { s with enpassantPossible := e } m = badAfter s m := by
  unfold badAfter
  rw [makeMove_ep_irrel]

theorem removeFirstByID_sublist (l : List Move) (m : Move) :
    List.Sublist (removeFirstByID l m) l := by
  induction l with
  | nil => exact List.Sublist.refl _
  | cons x xs ih =>
    rw [removeFirstByID]
    split_ifs
    · exact List.sublist_cons_self x xs
    · exact List.Sublist.cons₂ x ih

theorem removeFirstByID_eq_eraseIdx (l : List Move) (n : Nat)
    (hn : n < l.length) (hnd : (l.map Move.moveID).Nodup) :
    removeFirstByID l (l.getD n default) = l.eraseIdx n := by
  induction l generalizing n with
  | nil => cases hn
  | cons x xs ih =>
    cases n with
    | zero =>
      rw [removeFirstByID, List.getD_cons_zero]
      rw [if_pos rfl]
      rfl
    | succ n =>
      have hn' : n < xs.length := by
        rw [List.length_cons] at hn
        omega
      have hgd : (x :: xs).getD (n + 1) default = xs.getD n default := rfl
      rw [hgd, removeFirstByID]
      rw [List.map_cons, List.nodup_cons] at hnd
      have hmem : xs.getD n default ∈ xs := by
        rw [List.getD_eq_getElem?_getD, List.getElem?_eq_getElem hn']
        exact List.getElem_mem hn'
      rw [if_neg ?hne]
      case hne =>
        intro hid
        exact hnd.1 (hid ▸ List.mem_map_of_mem Move.moveID hmem)
      rw [ih n hn' hnd.2]
      rfl

theorem checkFilterLoop_fst_sublist :
    ∀ (n : Nat) (mv : List Move) (t : GameState),
      List.Sublist (checkFilterLoop mv t n).1 mv := by
  intro n
  induction n with
  | zero => intro mv t; exact List.Sublist.refl mv
  | succ n ih =>
    intro mv t
    simp only [checkFilterLoop]
    refine List.Sublist.trans (ih _ _) ?_
    split_ifs
    · exact removeFirstByID_sublist _ _
    · exact List.Sublist.refl _

theorem checkFilterLoop_spec (s : GameState) (wf : WF8 s.board)
    (rs : s.CastleRightLog.getLast? = some s.currentCastlingRights) :
    ∀ (n : Nat) (mv : List Move) (t : GameState),
      (t = s ∨ t = { s with enpassantPossible := none }) →
      n ≤ mv.length →
      (∀ m ∈ mv, MoveOK s m) →
      (mv.map Move.moveID).Nodup →
      checkFilterLoop mv t n =
        ((mv.take n).filter (fun m => !badAfter s m) ++ mv.drop n,
         if n = 0 then t else { s with enpassantPossible := none }) := by
  intro n
  induction n with
  | zero =>
    intro mv t ht hn hok hnd
    simp [checkFilterLoop]
  | succ n ih =>
    intro mv t ht hn hok hnd
    have hlt : n < mv.length := hn
    have hmem : mv.getD n default ∈ mv := by
      rw [List.getD_eq_getElem?_getD, List.getElem?_eq_getElem hlt]
      exact List.getElem_mem hlt
    have hmk : makeMove t (mv.getD n default) = makeMove s (mv.getD n default) := by
      rcases ht with rfl | rfl
      · rfl
      · exact makeMove_ep_irrel s none _
    have hundo : undoMove (makeMove t (mv.getD n default)) =
        { s with enpassantPossible := none } := by
      rw [hmk]
      exact undo_make s _ wf (hok _ hmem) rs
    have hbadt : badAfter t (mv.getD n default) = badAfter s (mv.getD n default) := by
      rcases ht with rfl | rfl
      · rfl
      · exact badAfter_ep_irrel s none _
    have step : checkFilterLoop mv t (n + 1) =
        checkFilterLoop
          (if badAfter t (mv.getD n default) then
            removeFirstByID mv (mv.getD n default)
           else mv)
          (undoMove (makeMove t (mv.getD n default))) n := by
      simp only [checkFilterLoop]
      rw [flip_flip]
      rfl
    rw [step, hbadt, hundo]
    have hgd : mv.getD n default = mv[n] := by
      rw [List.getD_eq_getElem?_getD, List.getElem?_eq_getElem hlt]
      rfl
    have htake : mv.take (n + 1) = mv.take n ++ [mv[n]] := by
      rw [List.take_succ, List.getElem?_eq_getElem hlt]
      rfl
    have hdrop : mv.drop n = mv[n] :: mv.drop (n + 1) :=
      List.drop_eq_getElem_cons hlt
    by_cases hbad : badAfter s (mv.getD n default) = true
    · rw [if_pos hbad]
      rw [removeFirstByID_eq_eraseIdx mv n hlt hnd]
      have hlen : (mv.eraseIdx n).length = mv.length - 1 := by
        rw [List.eraseIdx_eq_take_drop_succ, List.length_append,
          List.length_take, List.length_drop]
        omega
      rw [ih (mv.eraseIdx n) _ (Or.inr rfl) (by omega)
        (fun m hm => hok m ((List.eraseIdx_sublist mv n).subset hm))
        (hnd.sublist ((List.eraseIdx_sublist mv n).map Move.moveID))]
      have hts : (mv.eraseIdx n).take n = mv.take n := by
        rw [List.eraseIdx_eq_take_drop_succ]
        rw [List.take_append_of_le_length (by rw [List.length_take]; omega)]
        rw [List.take_take, Nat.min_self]
      have hds : (mv.eraseIdx n).drop n = mv.drop (n + 1) := by
        rw [List.eraseIdx_eq_take_drop_succ]
        rw [List.drop_append_of_le_length (by rw [List.length_take]; omega)]
        rw [List.drop_eq_nil_of_le (List.length_take_le n mv)]
        rfl
      rw [hts, hds]
      refine Prod.ext ?_ (by simp)
      show (mv.take n).filter (fun m => !badAfter s m) ++ mv.drop (n + 1) =
        (mv.take (n + 1)).filter (fun m => !badAfter s m) ++ mv.drop (n + 1)
      rw [htake, List.filter_append]
      rw [hgd] at hbad
      simp [List.filter_cons, hbad]
    · rw [if_neg hbad]
      rw [ih mv _ (Or.inr rfl) (by omega) hok hnd]
      refine Prod.ext ?_ (by simp)
      show (mv.take n).filter (fun m => !badAfter s m) ++ mv.drop n =
        (mv.take (n + 1)).filter (fun m => !badAfter s m) ++ mv.drop (n + 1)
      rw [htake, List.filter_append, hdrop]
      rw [hgd] at hbad
      simp [List.filter_cons, Bool.not_eq_true] at hbad ⊢
      simp [hbad]

/-! ## Distinctness of the `moveID` keys of candidate moves

`list.remove` compares moves by `moveID` only, so the probing loop of
`getValidMoves` removes exactly the probed index only when the ids of the
candidate list are pairwise distinct. -/

theorem mkMove_moveID (a b c d : Nat) (B : Board) (pc : Option Kind)
    (e f : Bool) :
    (mkMove (a, b) (c, d) B pc e f).moveID = a * 1000 + b * 100 + c * 10 + d :=
  rfl

theorem nodupID_append (l1 l2 : List Move)
    (h1 : (l1.map Move.moveID).Nodup) (h2 : (l2.map Move.moveID).Nodup)
    (hd : ∀ x ∈ l1, ∀ y ∈ l2, x.moveID ≠ y.moveID) :
    ((l1 ++ l2).map Move.moveID).Nodup := by
  rw [List.map_append]
  refine List.Nodup.append h1 h2 ?_
  intro a ha hb
  rw [List.mem_map] at ha hb
  obtain ⟨x, hx, rfl⟩ := ha
  obtain ⟨y, hy, he⟩ := hb
  exact hd x hx y hy he.symm

theorem nodupID_flatMap {α : Type} (l : List α) (f : α → List Move)
    (h1 : ∀ a ∈ l, ((f a).map Move.moveID).Nodup)
    (h2 : l.Pairwise (fun a b => ∀ x ∈ f a, ∀ y ∈ f b, x.moveID ≠ y.moveID)) :
    ((l.flatMap f).map Move.moveID).Nodup := by
  induction l with
  | nil => simp
  | cons a l ih =>
    rw [List.flatMap_cons]
    rw [List.pairwise_cons] at h2
    refine nodupID_append _ _ (h1 a (by simp))
      (ih (fun b hb => h1 b (by simp [hb])) h2.2) ?_
    intro x hx y hy
    rw [List.mem_flatMap] at hy
    obtain ⟨b, hb, hyb⟩ := hy
    exact h2.1 b hb x hx y hyb

theorem getPawnMoves_nodupID (s : GameState) (r c : Nat) :
    ((getPawnMoves s r c).map Move.moveID).Nodup := by
  unfold getPawnMoves
  split_ifs <;> simp [mkMove_moveID] <;> omega

theorem rayMoves_nodupID (s : GameState) (r c : Nat) (dr dc : Int)
    (hd : ¬(dr = 0 ∧ dc = 0)) :
    ∀ (fuel : Nat) (tr tc : Int),
      ((rayMoves s r c dr dc fuel tr tc).map Move.moveID).Nodup := by
  intro fuel
  induction fuel with
  | zero => intro tr tc; simp [rayMoves]
  | succ n ih =>
    intro tr tc
    unfold rayMoves
    split_ifs with h1 h2 h3
    · simp
    · simp
    · rw [List.map_cons, List.nodup_cons]
      refine ⟨?_, ih _ _⟩
      intro hmem
      rw [List.mem_map] at hmem
      obtain ⟨y, hy, hid⟩ := hmem
      obtain ⟨e1, e2, j, hb1, hb2, he1, he2, rfl, _⟩ := rayMoves_mem hy
      rw [mkMove_moveID, mkMove_moveID] at hid
      have hE1 : (e1 : Int) = tr := by omega
      have hE2 : (e2 : Int) = tc := by omega
      have hz1 : dr + (j : Int) * dr = 0 := by omega
      have hz2 : dc + (j : Int) * dc = 0 := by omega
      have h01 : ((j : Int) + 1) * dr = 0 := by
        have hh : ((j : Int) + 1) * dr = dr + (j : Int) * dr := by ring
        rw [hh]; exact hz1
      have h02 : ((j : Int) + 1) * dc = 0 := by
        have hh : ((j : Int) + 1) * dc = dc + (j : Int) * dc := by ring
        rw [hh]; exact hz2
      have hdr : dr = 0 := by
        rcases mul_eq_zero.mp h01 with h | h
        · exfalso; omega
        · exact h
      have hdc : dc = 0 := by
        rcases mul_eq_zero.mp h02 with h | h
        · exfalso; omega
        · exact h
      exact hd ⟨hdr, hdc⟩
    · simp

theorem ray_ID_ne (s : GameState) (r c : Nat) {d d' : Int × Int}
    (hd1 : -1 ≤ d.1 ∧ d.1 ≤ 1 ∧ -1 ≤ d.2 ∧ d.2 ≤ 1)
    (hd2 : -1 ≤ d'.1 ∧ d'.1 ≤ 1 ∧ -1 ≤ d'.2 ∧ d'.2 ≤ 1)
    (hdd : d ≠ d') {x y : Move} {f1 f2 : Nat}
    (hx : x ∈ rayMoves s r c d.1 d.2 f1 ((r : Int) + d.1) ((c : Int) + d.2))
    (hy : y ∈ rayMoves s r c d'.1 d'.2 f2 ((r : Int) + d'.1) ((c : Int) + d'.2)) :
    x.moveID ≠ y.moveID := by
  obtain ⟨e1, e2, j, hb1, hb2, he1, he2, rfl, _⟩ := rayMoves_mem hx
  obtain ⟨g1, g2, k, hc1, hc2, hf1, hf2, rfl, _⟩ := rayMoves_mem hy
  intro hid
  rw [mkMove_moveID, mkMove_moveID] at hid
  obtain ⟨d1, d2⟩ := d
  obtain ⟨d3, d4⟩ := d'
  rw [Ne, Prod.mk.injEq] at hdd
  obtain ⟨ha1, ha2, ha3, ha4⟩ := hd1
  obtain ⟨hb1', hb2', hb3', hb4'⟩ := hd2
  have hE1 : e1 = g1 := by omega
  have hE2 : e2 = g2 := by omega
  rw [hE1] at he1
  rw [hE2] at he2
  interval_cases d1 <;> interval_cases d2 <;> interval_cases d3 <;>
    interval_cases d4 <;> omega

theorem getRookMoves_nodupID (s : GameState) (r c : Nat) :
    ((getRookMoves s r c).map Move.moveID).Nodup := by
  unfold getRookMoves
  refine nodupID_flatMap _ _ ?_ ?_
  · intro d hd
    fin_cases hd <;> exact rayMoves_nodupID s r c _ _ (by decide) 16 _ _
  · refine List.Pairwise.imp_of_mem ?_
      ((by decide : ([((1 : Int), (0 : Int)), (-1, 0), (0, 1), (0, -1)] :
        List (Int × Int)).Nodup))
    intro a b ha hb hne x hx y hy
    have hbnd : ∀ z ∈ ([((1 : Int), (0 : Int)), (-1, 0), (0, 1), (0, -1)] :
        List (Int × Int)), -1 ≤ z.1 ∧ z.1 ≤ 1 ∧ -1 ≤ z.2 ∧ z.2 ≤ 1 := by decide
    exact ray_ID_ne s r c (hbnd a ha) (hbnd b hb) hne hx hy

theorem getBishopMoves_nodupID (s : GameState) (r c : Nat) :
    ((getBishopMoves s r c).map Move.moveID).Nodup := by
  unfold getBishopMoves
  refine nodupID_flatMap _ _ ?_ ?_
  · intro d hd
    fin_cases hd <;> exact rayMoves_nodupID s r c _ _ (by decide) 16 _ _
  · refine List.Pairwise.imp_of_mem ?_
      ((by decide : ([((1 : Int), (1 : Int)), (1, -1), (-1, 1), (-1, -1)] :
        List (Int × Int)).Nodup))
    intro a b ha hb hne x hx y hy
    have hbnd : ∀ z ∈ ([((1 : Int), (1 : Int)), (1, -1), (-1, 1), (-1, -1)] :
        List (Int × Int)), -1 ≤ z.1 ∧ z.1 ≤ 1 ∧ -1 ≤ z.2 ∧ z.2 ≤ 1 := by decide
    exact ray_ID_ne s r c (hbnd a ha) (hbnd b hb) hne hx hy

theorem getQueenMoves_nodupID (s : GameState) (r c : Nat) :
    ((getQueenMoves s r c).map Move.moveID).Nodup := by
  unfold getQueenMoves
  refine nodupID_append _ _ (getBishopMoves_nodupID s r c)
    (getRookMoves_nodupID s r c) ?_
  intro x hx y hy
  unfold getBishopMoves at hx
  unfold getRookMoves at hy
  rw [List.mem_flatMap] at hx hy
  obtain ⟨d, hd, hx'⟩ := hx
  obtain ⟨d', hd', hy'⟩ := hy
  have hbndB : ∀ z ∈ ([((1 : Int), (1 : Int)), (1, -1), (-1, 1), (-1, -1)] :
      List (Int × Int)), -1 ≤ z.1 ∧ z.1 ≤ 1 ∧ -1 ≤ z.2 ∧ z.2 ≤ 1 := by decide
  have hbndR : ∀ z ∈ ([((1 : Int), (0 : Int)), (-1, 0), (0, 1), (0, -1)] :
      List (Int × Int)), -1 ≤ z.1 ∧ z.1 ≤ 1 ∧ -1 ≤ z.2 ∧ z.2 ≤ 1 := by decide
  have hne : d ≠ d' := by
    have hdisj : ∀ a ∈ ([((1 : Int), (1 : Int)), (1, -1), (-1, 1), (-1, -1)] :
        List (Int × Int)),
        ∀ b ∈ ([((1 : Int), (0 : Int)), (-1, 0), (0, 1), (0, -1)] :
          List (Int × Int)), a ≠ b := by decide
    exact hdisj d hd d' hd'
  exact ray_ID_ne s r c (hbndB d hd) (hbndR d' hd') hne hx' hy'

theorem offset_ID_ne (s : GameState) (r c : Nat)
    (d d' : Int × Int) (hdd : d ≠ d') {x y : Move}
    (hx : x ∈ (if 0 ≤ (r : Int) + d.1 ∧ (r : Int) + d.1 < 8 ∧
        0 ≤ (c : Int) + d.2 ∧ (c : Int) + d.2 < 8 then
        (if (bget s.board ((r : Int) + d.1).toNat
              ((c : Int) + d.2).toNat).col ≠ some (allyColor s) then
          [mkMove (r, c) (((r : Int) + d.1).toNat, ((c : Int) + d.2).toNat)
            s.board none false false]
         else [])
       else []))
    (hy : y ∈ (if 0 ≤ (r : Int) + d'.1 ∧ (r : Int) + d'.1 < 8 ∧
        0 ≤ (c : Int) + d'.2 ∧ (c : Int) + d'.2 < 8 then
        (if (bget s.board ((r : Int) + d'.1).toNat
              ((c : Int) + d'.2).toNat).col ≠ some (allyColor s) then
          [mkMove (r, c) (((r : Int) + d'.1).toNat, ((c : Int) + d'.2).toNat)
            s.board none false false]
         else [])
       else [])) :
    x.moveID ≠ y.moveID := by
  split_ifs at hx hy
  all_goals try exact absurd hx (List.not_mem_nil x)
  all_goals try exact absurd hy (List.not_mem_nil y)
  rcases List.mem_singleton.mp hx with rfl
  rcases List.mem_singleton.mp hy with rfl
  intro hid
  rw [mkMove_moveID, mkMove_moveID] at hid
  obtain ⟨d1, d2⟩ := d
  obtain ⟨d3, d4⟩ := d'
  rw [Ne, Prod.mk.injEq] at hdd
  simp only at hid
  omega

theorem getKnightMoves_nodupID (s : GameState) (r c : Nat) :
    ((getKnightMoves s r c).map Move.moveID).Nodup := by
  unfold getKnightMoves
  refine nodupID_flatMap _ _ ?_ ?_
  · intro d _
    dsimp only
    split_ifs <;> simp
  · refine List.Pairwise.imp_of_mem ?_
      ((by decide : ([((-2 : Int), (-1 : Int)), (-2, 1), (-1, -2), (-1, 2),
        (1, -2), (1, 2), (2, -1), (2, 1)] : List (Int × Int)).Nodup))
    intro a b ha hb hne x hx y hy
    exact offset_ID_ne s r c a b hne hx hy

theorem getKingMoves_nodupID (s : GameState) (r c : Nat) :
    ((getKingMoves s r c).map Move.moveID).Nodup := by
  unfold getKingMoves
  refine nodupID_flatMap _ _ ?_ ?_
  · intro d _
    dsimp only
    split_ifs <;> simp
  · refine List.Pairwise.imp_of_mem ?_
      ((by decide : ([((0 : Int), (1 : Int)), (0, -1), (1, 0), (-1, 0),
        (1, 1), (-1, -1), (-1, 1), (1, -1)] : List (Int × Int)).Nodup))
    intro a b ha hb hne x hx y hy
    exact offset_ID_ne s r c a b hne hx hy

theorem pieceMoves_nodupID (s : GameState) (k : Kind) (r c : Nat) :
    ((pieceMoves s k r c).map Move.moveID).Nodup := by
  cases k
  case pawn => exact getPawnMoves_nodupID s r c
  case rook => exact getRookMoves_nodupID s r c
  case bishop => exact getBishopMoves_nodupID s r c
  case knight => exact getKnightMoves_nodupID s r c
  case king => exact getKingMoves_nodupID s r c
  case queen => exact getQueenMoves_nodupID s r c

theorem pieceMoves_shape (s : GameState) (k : Kind) (r c : Nat) (hr : r < 8)
    (hc : c < 8) {m : Move} (hm : m ∈ pieceMoves s k r c) :
    m.startRow = r ∧ m.startCol = c ∧ m.endRow ≤ 8 ∧ m.endCol ≤ 8 := by
  cases k
  case pawn =>
    by_cases hw : s.whiteToMove = true
    · rcases getPawnMoves_mem_white hw hm with
        ⟨_, rfl⟩ | ⟨h6, _, _, rfl⟩ | ⟨h1, _, rfl⟩ | ⟨h1, _, _, rfl⟩ |
        ⟨h7, _, rfl⟩ | ⟨h7, _, _, rfl⟩ <;>
      exact ⟨rfl, rfl, by simp only [mkMove_endRow]; omega,
        by simp only [mkMove_endCol]; omega⟩
    · have hw' : s.whiteToMove = false := by
        cases hb : s.whiteToMove
        · rfl
        · exact absurd hb hw
      rcases getPawnMoves_mem_black hw' hm with
        ⟨_, rfl⟩ | ⟨h6, _, _, rfl⟩ | ⟨h1, _, rfl⟩ | ⟨h1, _, _, rfl⟩ |
        ⟨h7, _, rfl⟩ | ⟨h7, _, _, rfl⟩ <;>
      exact ⟨rfl, rfl, by simp only [mkMove_endRow]; omega,
        by simp only [mkMove_endCol]; omega⟩
  case rook =>
    have hm2 : m ∈ getRookMoves s r c := hm
    unfold getRookMoves at hm2
    rw [List.mem_flatMap] at hm2
    obtain ⟨d, _, hm'⟩ := hm2
    obtain ⟨e1, e2, j, hb1, hb2, _, _, rfl, _⟩ := rayMoves_mem hm'
    exact ⟨rfl, rfl, by simp only [mkMove_endRow]; omega,
      by simp only [mkMove_endCol]; omega⟩
  case bishop =>
    have hm2 : m ∈ getBishopMoves s r c := hm
    unfold getBishopMoves at hm2
    rw [List.mem_flatMap] at hm2
    obtain ⟨d, _, hm'⟩ := hm2
    obtain ⟨e1, e2, j, hb1, hb2, _, _, rfl, _⟩ := rayMoves_mem hm'
    exact ⟨rfl, rfl, by simp only [mkMove_endRow]; omega,
      by simp only [mkMove_endCol]; omega⟩
  case queen =>
    rcases List.mem_append.mp hm with h | h
    · unfold getBishopMoves at h
      rw [List.mem_flatMap] at h
      obtain ⟨d, _, hm'⟩ := h
      obtain ⟨e1, e2, j, hb1, hb2, _, _, rfl, _⟩ := rayMoves_mem hm'
      exact ⟨rfl, rfl, by simp only [mkMove_endRow]; omega,
        by simp only [mkMove_endCol]; omega⟩
    · unfold getRookMoves at h
      rw [List.mem_flatMap] at h
      obtain ⟨d, _, hm'⟩ := h
      obtain ⟨e1, e2, j, hb1, hb2, _, _, rfl, _⟩ := rayMoves_mem hm'
      exact ⟨rfl, rfl, by simp only [mkMove_endRow]; omega,
        by simp only [mkMove_endCol]; omega⟩
  case knight =>
    obtain ⟨d, _, e1, e2, hb1, hb2, _, _, rfl, _⟩ := getKnightMoves_mem hm
    exact ⟨rfl, rfl, by simp only [mkMove_endRow]; omega,
      by simp only [mkMove_endCol]; omega⟩
  case king =>
    obtain ⟨d, _, e1, e2, hb1, hb2, _, _, rfl, _⟩ := getKingMoves_mem hm
    exact ⟨rfl, rfl, by simp only [mkMove_endRow]; omega,
      by simp only [mkMove_endCol]; omega⟩

theorem squareMoves_sub {s : GameState} {r c : Nat} {m : Move}
    (hm : m ∈ ((match bget s.board r c with
      | .empty => []
      | .mk col k =>
        if (col = .white ∧ s.whiteToMove) ∨ (col = .black ∧ ¬s.whiteToMove) then
          pieceMoves s k r c
        else []) : List Move)) :
    ∃ k, m ∈ pieceMoves s k r c := by
  cases hq : bget s.board r c with
  | empty =>
    rw [hq] at hm
    exact absurd hm (List.not_mem_nil m)
  | mk col k =>
    rw [hq] at hm
    have hm' : m ∈ (if (col = Color.white ∧ s.whiteToMove = true) ∨
        (col = Color.black ∧ ¬s.whiteToMove = true) then
        pieceMoves s k r c else []) := hm
    split_ifs at hm'
    · exact ⟨k, hm'⟩
    · exact absurd hm' (List.not_mem_nil m)

theorem squareMoves_nodupID (s : GameState) (r c : Nat) :
    (((match bget s.board r c with
      | .empty => []
      | .mk col k =>
        if (col = .white ∧ s.whiteToMove) ∨ (col = .black ∧ ¬s.whiteToMove) then
          pieceMoves s k r c
        else []) : List Move).map Move.moveID).Nodup := by
  cases hq : bget s.board r c with
  | empty => simp
  | mk col k =>
    show (((if (col = Color.white ∧ s.whiteToMove = true) ∨
        (col = Color.black ∧ ¬s.whiteToMove = true) then
        pieceMoves s k r c else []) : List Move).map Move.moveID).Nodup
    split_ifs
    · exact pieceMoves_nodupID s k r c
    · simp

theorem getAllPossibleMovees_nodupID (s : GameState) (wf : WF8 s.board) :
    ((getAllPossibleMovees s).map Move.moveID).Nodup := by
  unfold getAllPossibleMovees
  refine nodupID_flatMap _ _ ?_ ?_
  · intro r hr
    have hr' : r < 8 := by rw [List.mem_range, wf.1] at hr; exact hr
    refine nodupID_flatMap _ _ ?_ ?_
    · intro c hc
      exact squareMoves_nodupID s r c
    · refine List.Pairwise.imp_of_mem ?_ (List.nodup_range _)
      intro c1 c2 hc1 hc2 hne x hx y hy
      obtain ⟨k1, hx'⟩ := squareMoves_sub hx
      obtain ⟨k2, hy'⟩ := squareMoves_sub hy
      have hc1' : c1 < 8 := by
        rw [List.mem_range, wf8_row_len wf hr'] at hc1
        exact hc1
      have hc2' : c2 < 8 := by
        rw [List.mem_range, wf8_row_len wf hr'] at hc2
        exact hc2
      obtain ⟨hs1, hs2, he1, he2⟩ := pieceMoves_shape s k1 r c1 hr' hc1' hx'
      obtain ⟨ht1, ht2, hf1, hf2⟩ := pieceMoves_shape s k2 r c2 hr' hc2' hy'
      intro hid
      unfold Move.moveID at hid
      rw [hs1, hs2, ht1, ht2] at hid
      omega
  · refine List.Pairwise.imp_of_mem ?_ (List.nodup_range _)
    intro r1 r2 hr1 hr2 hne x hx y hy
    have hr1' : r1 < 8 := by rw [List.mem_range, wf.1] at hr1; exact hr1
    have hr2' : r2 < 8 := by rw [List.mem_range, wf.1] at hr2; exact hr2
    rw [List.mem_flatMap] at hx hy
    obtain ⟨c1, hc1, hx'⟩ := hx
    obtain ⟨c2, hc2, hy'⟩ := hy
    obtain ⟨k1, hx''⟩ := squareMoves_sub hx'
    obtain ⟨k2, hy''⟩ := squareMoves_sub hy'
    have hc1' : c1 < 8 := by
      rw [List.mem_range, wf8_row_len wf hr1'] at hc1
      exact hc1
    have hc2' : c2 < 8 := by
      rw [List.mem_range, wf8_row_len wf hr2'] at hc2
      exact hc2
    obtain ⟨hs1, hs2, he1, he2⟩ := pieceMoves_shape s k1 r1 c1 hr1' hc1' hx''
    obtain ⟨ht1, ht2, hf1, hf2⟩ := pieceMoves_shape s k2 r2 c2 hr2' hc2' hy''
    intro hid
    unfold Move.moveID at hid
    rw [hs1, hs2, ht1, ht2] at hid
    omega

theorem kingSideCastleMoves_nodupID (s : GameState) (r c : Nat) :
    ((kingSideCastleMoves s r c).map Move.moveID).Nodup := by
  unfold kingSideCastleMoves
  split_ifs <;> simp

theorem queenSideCastleMoves_nodupID (s : GameState) (r c : Nat) :
    ((queenSideCastleMoves s r c).map Move.moveID).Nodup := by
  unfold queenSideCastleMoves
  split_ifs <;> simp

theorem getCastleMoves_nodupID (s : GameState) (r c : Nat) :
    ((getCastleMoves s r c).map Move.moveID).Nodup := by
  unfold getCastleMoves
  split_ifs with h1 h2 h3
  · simp
  · refine nodupID_append _ _ (kingSideCastleMoves_nodupID s r c)
      (queenSideCastleMoves_nodupID s r c) ?_
    intro x hx y hy
    obtain ⟨_, _, rfl⟩ := kingSideCastleMoves_mem hx
    obtain ⟨_, _, _, rfl⟩ := queenSideCastleMoves_mem hy
    intro hid
    rw [mkMove_moveID, mkMove_moveID] at hid
    omega
  · rw [List.append_nil]
    exact kingSideCastleMoves_nodupID s r c
  · rw [List.nil_append]
    exact queenSideCastleMoves_nodupID s r c
  · simp

theorem getCastleMoves_shape {s : GameState} {r c : Nat} {y : Move}
    (hy : y ∈ getCastleMoves s r c) :
    ∃ e2 : Nat, (e2 = c + 2 ∨ e2 = c - 2) ∧
      y = mkMove (r, c) (r, e2) s.board none false true := by
  obtain ⟨_, hd⟩ := getCastleMoves_mem hy
  rcases hd with ⟨_, hks⟩ | ⟨_, hqs⟩
  · obtain ⟨_, _, rfl⟩ := kingSideCastleMoves_mem hks
    exact ⟨c + 2, Or.inl rfl, rfl⟩
  · obtain ⟨_, _, _, rfl⟩ := queenSideCastleMoves_mem hqs
    exact ⟨c - 2, Or.inr rfl, rfl⟩

theorem candidates_nodupID (s : GameState) (hInv : Inv s) :
    ((candidateMoves s).map Move.moveID).Nodup := by
  have wf := hInv.wf
  unfold candidateMoves
  refine nodupID_append _ _ (getAllPossibleMovees_nodupID s wf) ?_ ?_
  · split_ifs
    · exact getCastleMoves_nodupID s _ _
    · exact getCastleMoves_nodupID s _ _
  · intro x hx y hy
    have hy' : ∃ kr, kr < 8 ∧
        bget s.board kr 4 = Piece.mk (allyColor s) Kind.king ∧
        y ∈ getCastleMoves s kr 4 := by
      by_cases hw : s.whiteToMove = true
      · rw [if_pos hw] at hy
        obtain ⟨_, hd⟩ := getCastleMoves_mem hy
        have hkl : s.whiteKingLocation = (7, 4) := by
          rcases hd with ⟨hrights, _⟩ | ⟨hrights, _⟩
          · refine hInv.khome.1 (Or.inl ?_)
            rcases hrights with ⟨-, h⟩ | ⟨h, -⟩
            · exact h
            · rw [hw] at h; cases h
          · refine hInv.khome.1 (Or.inr ?_)
            rcases hrights with ⟨-, h⟩ | ⟨h, -⟩
            · exact h
            · rw [hw] at h; cases h
        have h1 : s.whiteKingLocation.1 = 7 := by rw [hkl]
        have h2 : s.whiteKingLocation.2 = 4 := by rw [hkl]
        rw [h1, h2] at hy
        refine ⟨7, by omega, ?_, hy⟩
        have hK := hInv.kings.2.2.2.2.1
        rw [h1, h2] at hK
        rw [hK]
        unfold allyColor
        rw [hw]
        rfl
      · rw [if_neg hw] at hy
        have hwf : s.whiteToMove = false := by
          cases hb : s.whiteToMove
          · rfl
          · exact absurd hb hw
        obtain ⟨_, hd⟩ := getCastleMoves_mem hy
        have hkl : s.blackKingLocation = (0, 4) := by
          rcases hd with ⟨hrights, _⟩ | ⟨hrights, _⟩
          · refine hInv.khome.2 (Or.inl ?_)
            rcases hrights with ⟨h, -⟩ | ⟨-, h⟩
            · rw [hwf] at h; cases h
            · exact h
          · refine hInv.khome.2 (Or.inr ?_)
            rcases hrights with ⟨h, -⟩ | ⟨-, h⟩
            · rw [hwf] at h; cases h
            · exact h
        have h1 : s.blackKingLocation.1 = 0 := by rw [hkl]
        have h2 : s.blackKingLocation.2 = 4 := by rw [hkl]
        rw [h1, h2] at hy
        refine ⟨0, by omega, ?_, hy⟩
        have hK := hInv.kings.2.2.2.2.2.1
        rw [h1, h2] at hK
        rw [hK]
        unfold allyColor
        rw [hwf]
        rfl
    obtain ⟨kr, hkr, hK, hyc⟩ := hy'
    obtain ⟨e2, he2or, rfl⟩ := getCastleMoves_shape hyc
    obtain ⟨r, c, hr0, hc0, col, k, hq, hturn, hgen⟩ := getAllPossibleMovees_mem hx
    have hr : r < 8 := by rw [wf.1] at hr0; exact hr0
    have hc : c < 8 := by rw [wf8_row_len wf hr] at hc0; exact hc0
    by_cases hrc : r = kr ∧ c = 4
    · obtain ⟨rfl, rfl⟩ := hrc
      rw [hq] at hK
      injection hK with hcol hk
      subst hk
      obtain ⟨d, hd, e1x, e2x, hbx1, hbx2, hex1, hex2, rfl, _⟩ :=
        getKingMoves_mem hgen
      intro hid
      rw [mkMove_moveID, mkMove_moveID] at hid
      have hdb : -1 ≤ d.1 ∧ d.1 ≤ 1 ∧ -1 ≤ d.2 ∧ d.2 ≤ 1 := by
        have hall : ∀ z ∈ ([((0 : Int), (1 : Int)), (0, -1), (1, 0), (-1, 0),
            (1, 1), (-1, -1), (-1, 1), (1, -1)] : List (Int × Int)),
            -1 ≤ z.1 ∧ z.1 ≤ 1 ∧ -1 ≤ z.2 ∧ z.2 ≤ 1 := by decide
        exact hall d hd
      rcases he2or with rfl | rfl <;> omega
    · obtain ⟨hs1, hs2, he1, he2⟩ := pieceMoves_shape s k r c hr hc hgen
      intro hid
      rw [mkMove_moveID] at hid
      unfold Move.moveID at hid
      rw [hs1, hs2] at hid
      rw [Classical.not_and_iff_or_not_not] at hrc
      have hA : x.endRow * 10 + x.endCol ≤ 88 := by omega
      have hB : kr * 10 + e2 ≤ 76 := by
        rcases he2or with rfl | rfl <;> omega
      by_cases hh1 : r = kr <;> by_cases hh2 : c = 4 <;>
        rcases hrc with h | h <;> omega

/-! ## The en-passant field does not affect the check test

`inCheck` asks whether any generated move of the attacking side ends on the
king's square.  Clearing the en-passant target only removes en-passant
captures from the generated list, and those end on the (empty) en-passant
target square, never on an (occupied) king square. -/

theorem getRookMoves_ep (s : GameState) (e : Option (Nat × Nat)) (r c : Nat) :
    getRookMoves { s with enpassantPossible := e } r c = getRookMoves s r c :=
  rfl

theorem getBishopMoves_ep (s : GameState) (e : Option (Nat × Nat)) (r c : Nat) :
    getBishopMoves { s with enpassantPossible := e } r c =
      getBishopMoves s r c := rfl

theorem getKnightMoves_ep (s : GameState) (e : Option (Nat × Nat)) (r c : Nat) :
    getKnightMoves { s with enpassantPossible := e } r c =
      getKnightMoves s r c := rfl

theorem getKingMoves_ep (s : GameState) (e : Option (Nat × Nat)) (r c : Nat) :
    getKingMoves { s with enpassantPossible := e } r c =
      getKingMoves s r c := rfl

theorem pieceMoves_flags {s : GameState} {k : Kind} {r c : Nat} {m : Move}
    (hm : m ∈ pieceMoves s k r c) :
    m.isCastleMove = false ∧ (k ≠ Kind.pawn → m.isEnPassantMove = false) := by
  cases k
  case pawn =>
    refine ⟨?_, fun h => absurd rfl h⟩
    by_cases hw : s.whiteToMove = true
    · rcases getPawnMoves_mem_white hw hm with
        ⟨_, rfl⟩ | ⟨_, _, _, rfl⟩ | ⟨_, _, rfl⟩ | ⟨_, _, _, rfl⟩ |
        ⟨_, _, rfl⟩ | ⟨_, _, _, rfl⟩ <;> rfl
    · have hw' : s.whiteToMove = false := by
        cases hb : s.whiteToMove
        · rfl
        · exact absurd hb hw
      rcases getPawnMoves_mem_black hw' hm with
        ⟨_, rfl⟩ | ⟨_, _, _, rfl⟩ | ⟨_, _, rfl⟩ | ⟨_, _, _, rfl⟩ |
        ⟨_, _, rfl⟩ | ⟨_, _, _, rfl⟩ <;> rfl
  case rook =>
    have hm2 : m ∈ getRookMoves s r c := hm
    unfold getRookMoves at hm2
    rw [List.mem_flatMap] at hm2
    obtain ⟨d, _, hm'⟩ := hm2
    obtain ⟨e1, e2, j, _, _, _, _, rfl, _⟩ := rayMoves_mem hm'
    exact ⟨rfl, fun _ => rfl⟩
  case bishop =>
    have hm2 : m ∈ getBishopMoves s r c := hm
    unfold getBishopMoves at hm2
    rw [List.mem_flatMap] at hm2
    obtain ⟨d, _, hm'⟩ := hm2
    obtain ⟨e1, e2, j, _, _, _, _, rfl, _⟩ := rayMoves_mem hm'
    exact ⟨rfl, fun _ => rfl⟩
  case queen =>
    rcases List.mem_append.mp hm with h | h
    · unfold getBishopMoves at h
      rw [List.mem_flatMap] at h
      obtain ⟨d, _, hm'⟩ := h
      obtain ⟨e1, e2, j, _, _, _, _, rfl, _⟩ := rayMoves_mem hm'
      exact ⟨rfl, fun _ => rfl⟩
    · unfold getRookMoves at h
      rw [List.mem_flatMap] at h
      obtain ⟨d, _, hm'⟩ := h
      obtain ⟨e1, e2, j, _, _, _, _, rfl, _⟩ := rayMoves_mem hm'
      exact ⟨rfl, fun _ => rfl⟩
  case knight =>
    obtain ⟨d, _, e1, e2, _, _, _, _, rfl, _⟩ := getKnightMoves_mem hm
    exact ⟨rfl, fun _ => rfl⟩
  case king =>
    obtain ⟨d, _, e1, e2, _, _, _, _, rfl, _⟩ := getKingMoves_mem hm
    exact ⟨rfl, fun _ => rfl⟩

theorem getPawnMoves_strip (s : GameState) (r c : Nat) :
    getPawnMoves { s with enpassantPossible := none } r c =
      (getPawnMoves s r c).filter (fun m => !m.isEnPassantMove) := by
  unfold getPawnMoves
  simp only []
  split_ifs <;>
    simp_all [List.filter_append, List.filter_cons, mkMove_isEnPassant]

theorem pieceMoves_strip (s : GameState) (k : Kind) (r c : Nat) :
    pieceMoves { s with enpassantPossible := none } k r c =
      (pieceMoves s k r c).filter (fun m => !m.isEnPassantMove) := by
  have hself : ∀ (l : List Move), (∀ m ∈ l, m.isEnPassantMove = false) →
      l = l.filter (fun m => !m.isEnPassantMove) := by
    intro l hl
    refine (List.filter_eq_self.mpr ?_).symm
    intro a ha
    rw [hl a ha]
    rfl
  cases k
  case pawn => exact getPawnMoves_strip s r c
  case rook =>
    show getRookMoves { s with enpassantPossible := none } r c = _
    rw [getRookMoves_ep]
    exact hself _ (fun m hm => (pieceMoves_flags (k := Kind.rook) hm).2
      (by intro h; cases h))
  case bishop =>
    show getBishopMoves { s with enpassantPossible := none } r c = _
    rw [getBishopMoves_ep]
    exact hself _ (fun m hm => (pieceMoves_flags (k := Kind.bishop) hm).2
      (by intro h; cases h))
  case queen =>
    show getQueenMoves { s with enpassantPossible := none } r c = _
    unfold getQueenMoves
    rw [getBishopMoves_ep, getRookMoves_ep]
    exact hself _ (fun m hm => (pieceMoves_flags (k := Kind.queen) hm).2
      (by intro h; cases h))
  case knight =>
    show getKnightMoves { s with enpassantPossible := none } r c = _
    rw [getKnightMoves_ep]
    exact hself _ (fun m hm => (pieceMoves_flags (k := Kind.knight) hm).2
      (by intro h; cases h))
  case king =>
    show getKingMoves { s with enpassantPossible := none } r c = _
    rw [getKingMoves_ep]
    exact hself _ (fun m hm => (pieceMoves_flags (k := Kind.king) hm).2
      (by intro h; cases h))

theorem filter_flatMap {α β : Type} (l : List α) (f : α → List β)
    (p : β → Bool) :
    (l.flatMap f).filter p = l.flatMap fun a => (f a).filter p := by
  induction l with
  | nil => rfl
  | cons a l ih =>
    rw [List.flatMap_cons, List.flatMap_cons, List.filter_append, ih]

theorem squareMoves_strip (s : GameState) (r c : Nat) :
    ((match bget s.board r c with
      | .empty => []
      | .mk col k =>
        if (col = .white ∧ s.whiteToMove) ∨ (col = .black ∧ ¬s.whiteToMove) then
          pieceMoves { s with enpassantPossible := none } k r c
        else []) : List Move) =
    ((match bget s.board r c with
      | .empty => []
      | .mk col k =>
        if (col = .white ∧ s.whiteToMove) ∨ (col = .black ∧ ¬s.whiteToMove) then
          pieceMoves s k r c
        else []) : List Move).filter (fun m => !m.isEnPassantMove) := by
  cases hq : bget s.board r c with
  | empty => rfl
  | mk col k =>
    show (if (col = Color.white ∧ s.whiteToMove = true) ∨
        (col = Color.black ∧ ¬s.whiteToMove = true) then
        pieceMoves { s with enpassantPossible := none } k r c else []) =
      (if (col = Color.white ∧ s.whiteToMove = true) ∨
        (col = Color.black ∧ ¬s.whiteToMove = true) then
        pieceMoves s k r c else []).filter (fun m => !m.isEnPassantMove)
    split_ifs
    · exact pieceMoves_strip s k r c
    · rfl

theorem getAllPossibleMovees_strip (s : GameState) :
    getAllPossibleMovees { s with enpassantPossible := none } =
      (getAllPossibleMovees s).filter (fun m => !m.isEnPassantMove) := by
  unfold getAllPossibleMovees
  simp only []
  rw [filter_flatMap]
  simp only [filter_flatMap]
  simp only [squareMoves_strip]

theorem getAllPossibleMovees_ep_end {s : GameState} {m : Move}
    (hm : m ∈ getAllPossibleMovees s) (hflag : m.isEnPassantMove = true) :
    s.enpassantPossible = some (m.endRow, m.endCol) := by
  obtain ⟨r, c, _, _, col, k, hq, hturn, hgen⟩ := getAllPossibleMovees_mem hm
  by_cases hkp : k = Kind.pawn
  · subst hkp
    by_cases hw : s.whiteToMove = true
    · rcases getPawnMoves_mem_white hw hgen with
        ⟨_, rfl⟩ | ⟨_, _, _, rfl⟩ | ⟨_, _, rfl⟩ | ⟨_, _, hep, rfl⟩ |
        ⟨_, _, rfl⟩ | ⟨_, _, hep, rfl⟩
      · rw [mkMove_isEnPassant] at hflag; cases hflag
      · rw [mkMove_isEnPassant] at hflag; cases hflag
      · rw [mkMove_isEnPassant] at hflag; cases hflag
      · exact hep
      · rw [mkMove_isEnPassant] at hflag; cases hflag
      · exact hep
    · have hw' : s.whiteToMove = false := by
        cases hb : s.whiteToMove
        · rfl
        · exact absurd hb hw
      rcases getPawnMoves_mem_black hw' hgen with
        ⟨_, rfl⟩ | ⟨_, _, _, rfl⟩ | ⟨_, _, rfl⟩ | ⟨_, _, hep, rfl⟩ |
        ⟨_, _, rfl⟩ | ⟨_, _, hep, rfl⟩
      · rw [mkMove_isEnPassant] at hflag; cases hflag
      · rw [mkMove_isEnPassant] at hflag; cases hflag
      · rw [mkMove_isEnPassant] at hflag; cases hflag
      · exact hep
      · rw [mkMove_isEnPassant] at hflag; cases hflag
      · exact hep
  · have hf := (pieceMoves_flags hgen).2 hkp
    rw [hf] at hflag
    cases hflag

theorem any_filter_helper (l : List Move) (p q : Move → Bool) :
    (l.filter p).any q = l.any (fun a => p a && q a) := by
  induction l with
  | nil => rfl
  | cons a l ih =>
    rw [List.filter_cons]
    cases hpa : p a
    · simp [hpa, List.any_cons, ih]
    · simp [hpa, List.any_cons, ih]

theorem any_congr_helper (l : List Move) (p q : Move → Bool)
    (h : ∀ a ∈ l, p a = q a) : l.any p = l.any q := by
  induction l with
  | nil => rfl
  | cons a l ih =>
    rw [List.any_cons, List.any_cons, h a (by simp),
      ih (fun b hb => h b (by simp [hb]))]

theorem SquareUnderAttack_strip (u : GameState)
    (hept : ∀ t : Nat × Nat, u.enpassantPossible = some t →
      bget u.board t.1 t.2 = Piece.empty)
    (r c : Nat) (hocc : bget u.board r c ≠ Piece.empty) :
    SquareUnderAttack { u with enpassantPossible := none } r c =
      SquareUnderAttack u r c := by
  unfold SquareUnderAttack
  have hconv : ({ ({ u with enpassantPossible := none } : GameState) with
      whiteToMove :=
        !({ u with enpassantPossible := none } : GameState).whiteToMove } :
        GameState) =
      { ({ u with whiteToMove := !u.whiteToMove } : GameState) with
        enpassantPossible := none } := rfl
  rw [hconv]
  rw [getAllPossibleMovees_strip { u with whiteToMove := !u.whiteToMove }]
  rw [any_filter_helper]
  refine any_congr_helper _ _ _ ?_
  intro m hm
  cases hflag : m.isEnPassantMove
  · simp
  · have hend := getAllPossibleMovees_ep_end hm hflag
    have hend' : u.enpassantPossible = some (m.endRow, m.endCol) := hend
    have hempty : bget u.board m.endRow m.endCol = Piece.empty :=
      hept _ hend'
    have hq : (m.endRow == r && m.endCol == c) = false := by
      cases hqq : (m.endRow == r && m.endCol == c)
      · rfl
      · rw [Bool.and_eq_true, beq_iff_eq, beq_iff_eq] at hqq
        obtain ⟨rfl, rfl⟩ := hqq
        exact absurd hempty hocc
    rw [hq]
    rfl

theorem inCheck_strip (s : GameState) (hInv : Inv s) :
    inCheck { s with enpassantPossible := none } = inCheck s := by
  have hept : ∀ t : Nat × Nat, s.enpassantPossible = some t →
      bget s.board t.1 t.2 = Piece.empty := by
    intro t ht
    obtain ⟨er, ec⟩ := t
    obtain ⟨h8, hg⟩ := epGeom_some s hInv ht
    rcases hg with ⟨rfl, _, _, hemp⟩ | ⟨rfl, _, _, hemp⟩ <;> exact hemp
  unfold inCheck
  simp only []
  split_ifs with hw
  · refine SquareUnderAttack_strip s hept _ _ ?_
    rw [hInv.kings.2.2.2.2.1]
    intro h
    cases h
  · refine SquareUnderAttack_strip s hept _ _ ?_
    rw [hInv.kings.2.2.2.2.2.1]
    intro h
    cases h

/-! ## The full characterization of `getValidMoves` on invariant states -/

theorem getValidMoves_eq (s : GameState) (hInv : Inv s) :
    getValidMoves s =
      ((candidateMoves s).filter (fun m => !badAfter s m),
       if (candidateMoves s).filter (fun m => !badAfter s m) = [] then
         (if inCheck s then { s with checkMate := true }
          else { s with staleMate := true })
       else { s with checkMate := false, staleMate := false }) := by
  have hok : ∀ m ∈ candidateMoves s, MoveOK s m :=
    fun m hm => candidate_moveOK s hInv hm
  have hloop := checkFilterLoop_spec s hInv.wf hInv.rsync
    (candidateMoves s).length (candidateMoves s) s (Or.inl rfl)
    (le_refl _) hok (candidates_nodupID s hInv)
  rw [List.take_length, List.drop_length, List.append_nil] at hloop
  have h0 : getValidMoves s =
      ((checkFilterLoop (candidateMoves s) s (candidateMoves s).length).1,
       { (if (checkFilterLoop (candidateMoves s) s
              (candidateMoves s).length).1 = [] then
            (if inCheck (checkFilterLoop (candidateMoves s) s
                (candidateMoves s).length).2 then
              { (checkFilterLoop (candidateMoves s) s
                  (candidateMoves s).length).2 with checkMate := true }
             else
              { (checkFilterLoop (candidateMoves s) s
                  (candidateMoves s).length).2 with staleMate := true })
          else
            { (checkFilterLoop (candidateMoves s) s
                (candidateMoves s).length).2 with
                checkMate := false, staleMate := false }) with
          enpassantPossible := s.enpassantPossible,
          currentCastlingRights :=
            ⟨s.currentCastlingRights.wks, s.currentCastlingRights.bks,
             s.currentCastlingRights.wqs, s.currentCastlingRights.bqs⟩ }) :=
    rfl
  rw [h0, hloop]
  simp only []
  by_cases hn : (candidateMoves s).length = 0
  · rw [if_pos hn]
    rw [List.eq_nil_of_length_eq_zero hn, List.filter_nil]
    have hnil : (([] : List Move) = []) := rfl
    by_cases hchk : inCheck s = true
    · simp only [if_pos hnil, if_pos hchk]
      rfl
    · simp only [if_pos hnil, if_neg hchk]
      rfl
  · rw [if_neg hn]
    rw [inCheck_strip s hInv]
    by_cases hfe : (candidateMoves s).filter (fun m => !badAfter s m) = []
    · simp only [if_pos hfe]
      by_cases hchk : inCheck s = true
      · simp only [if_pos hchk]
      · simp only [if_neg hchk]
    · simp only [if_neg hfe]

/-! ## Further facts about generated candidate moves -/

theorem mkMove_promotionChoice_none (a b c d : Nat) (B : Board) (e f : Bool) :
    (mkMove (a, b) (c, d) B none e f).promotionChoice = Kind.queen := rfl

theorem mkMove_promoF (a b c d : Nat) (B : Board) (pc : Option Kind)
    (e f : Bool) :
    (mkMove (a, b) (c, d) B pc e f).isPawnPromotion =
      decide ((mkMove (a, b) (c, d) B pc e f).pieceMoved.kind = some .pawn ∧
        ((mkMove (a, b) (c, d) B pc e f).endRow = 0 ∨
         (mkMove (a, b) (c, d) B pc e f).endRow = 7)) := rfl

/-- Facts about a candidate move beyond `MoveOK`, read off the generator
that produced it. -/
structure CandFacts (s : GameState) (m : Move) : Prop where
  pc : m.promotionChoice = Kind.queen
  mcol : m.pieceMoved.col = some (allyColor s)
  noally : (bget s.board m.endRow m.endCol).col ≠ some (allyColor s)
  promoF : m.isPawnPromotion =
    decide (m.pieceMoved.kind = some .pawn ∧ (m.endRow = 0 ∨ m.endRow = 7))
  dbl : m.pieceMoved.kind = some Kind.pawn → absDiff m.startRow m.endRow = 2 →
    m.endCol = m.startCol ∧
    ((s.whiteToMove = true ∧ m.startRow = 6 ∧ m.endRow = 4 ∧
      bget s.board 5 m.endCol = Piece.empty) ∨
     (s.whiteToMove = false ∧ m.startRow = 1 ∧ m.endRow = 3 ∧
      bget s.board 2 m.endCol = Piece.empty))
  cas2 : m.isCastleMove = true →
    ((s.whiteToMove = true ∧ m.startRow = 7 ∧ s.whiteKingLocation = (7, 4) ∧
      (m.endCol = 6 → s.currentCastlingRights.wks = true) ∧
      (m.endCol = 2 → s.currentCastlingRights.wqs = true)) ∨
     (s.whiteToMove = false ∧ m.startRow = 0 ∧ s.blackKingLocation = (0, 4) ∧
      (m.endCol = 6 → s.currentCastlingRights.bks = true) ∧
      (m.endCol = 2 → s.currentCastlingRights.bqs = true)))

theorem candFacts_plain_ray (s : GameState) {r c : Nat} {m : Move}
    (hstart : (bget s.board r c).col = some (allyColor s))
    (hknp : (bget s.board r c).kind ≠ some Kind.pawn)
    {dr dc : Int} {fuel : Nat} {tr tc : Int}
    (h : m ∈ rayMoves s r c dr dc fuel tr tc) : CandFacts s m := by
  obtain ⟨e1, e2, j, hb1, hb2, _, _, rfl, hcol⟩ := rayMoves_mem h
  refine ⟨rfl, ?_, ?_, rfl, ?_, ?_⟩
  · rw [mkMove_pieceMoved]
    exact hstart
  · simp only [mkMove_endRow, mkMove_endCol]
    rw [← hstart]
    exact hcol
  · intro hkind _
    rw [mkMove_pieceMoved] at hkind
    exact absurd hkind hknp
  · intro hx
    rw [mkMove_isCastle] at hx
    cases hx

theorem candFacts_leaper (s : GameState) {r c e1 e2 : Nat}
    (hstart : (bget s.board r c).col = some (allyColor s))
    (hknp : (bget s.board r c).kind ≠ some Kind.pawn)
    (hcol : (bget s.board e1 e2).col ≠ some (allyColor s)) :
    CandFacts s (mkMove (r, c) (e1, e2) s.board none false false) := by
  refine ⟨rfl, ?_, ?_, rfl, ?_, ?_⟩
  · rw [mkMove_pieceMoved]
    exact hstart
  · simp only [mkMove_endRow, mkMove_endCol]
    exact hcol
  · intro hkind _
    rw [mkMove_pieceMoved] at hkind
    exact absurd hkind hknp
  · intro hx
    rw [mkMove_isCastle] at hx
    cases hx

theorem candidate_facts (s : GameState) (hInv : Inv s) {m : Move}
    (hm : m ∈ candidateMoves s) : CandFacts s m := by
  have wf := hInv.wf
  rcases List.mem_append.mp hm with hp | hcas
  · obtain ⟨r, c, hr0, hc0, col, k, hq, hturn, hgen⟩ := getAllPossibleMovees_mem hp
    have hr : r < 8 := by rw [wf.1] at hr0; exact hr0
    have hc : c < 8 := by rw [wf8_row_len wf hr] at hc0; exact hc0
    have hally : allyColor s = col := by
      rcases hturn with ⟨rfl, hw⟩ | ⟨rfl, hw⟩
      · unfold allyColor; rw [hw]; rfl
      · unfold allyColor; rw [hw]; rfl
    have hstart : (bget s.board r c).col = some (allyColor s) := by
      rw [hq, hally]; rfl
    cases k
    case rook =>
      have hm2 : m ∈ getRookMoves s r c := hgen
      unfold getRookMoves at hm2
      rw [List.mem_flatMap] at hm2
      obtain ⟨d, _, h⟩ := hm2
      exact candFacts_plain_ray s hstart
        (by rw [hq]; intro hx; simp [Piece.kind] at hx) h
    case bishop =>
      have hm2 : m ∈ getBishopMoves s r c := hgen
      unfold getBishopMoves at hm2
      rw [List.mem_flatMap] at hm2
      obtain ⟨d, _, h⟩ := hm2
      exact candFacts_plain_ray s hstart
        (by rw [hq]; intro hx; simp [Piece.kind] at hx) h
    case queen =>
      rcases List.mem_append.mp hgen with h | h
      · unfold getBishopMoves at h
        rw [List.mem_flatMap] at h
        obtain ⟨d, _, h'⟩ := h
        exact candFacts_plain_ray s hstart
          (by rw [hq]; intro hx; simp [Piece.kind] at hx) h'
      · unfold getRookMoves at h
        rw [List.mem_flatMap] at h
        obtain ⟨d, _, h'⟩ := h
        exact candFacts_plain_ray s hstart
          (by rw [hq]; intro hx; simp [Piece.kind] at hx) h'
    case knight =>
      obtain ⟨d, _, e1, e2, _, _, _, _, rfl, hcol⟩ := getKnightMoves_mem hgen
      exact candFacts_leaper s hstart
        (by rw [hq]; intro hx; simp [Piece.kind] at hx) hcol
    case king =>
      obtain ⟨d, _, e1, e2, _, _, _, _, rfl, hcol⟩ := getKingMoves_mem hgen
      exact candFacts_leaper s hstart
        (by rw [hq]; intro hx; simp [Piece.kind] at hx) hcol
    case pawn =>
      rcases hturn with ⟨rfl, hw⟩ | ⟨rfl, hw⟩
      · rcases getPawnMoves_mem_white hw hgen with
          ⟨h1, rfl⟩ | ⟨hr6, h1, h2, rfl⟩ | ⟨hc1, h1, rfl⟩ | ⟨hc1, h1, hep, rfl⟩ |
          ⟨hc7, h1, rfl⟩ | ⟨hc7, h1, hep, rfl⟩
        · refine ⟨rfl, by rw [mkMove_pieceMoved]; exact hstart, ?_, rfl, ?_, ?_⟩
          · simp only [mkMove_endRow, mkMove_endCol]
            rw [h1]
            intro hx
            simp [Piece.col] at hx
          · intro _ habs
            simp only [mkMove_startRow, mkMove_endRow] at habs
            unfold absDiff at habs
            split_ifs at habs <;> omega
          · intro hx; rw [mkMove_isCastle] at hx; cases hx
        · subst hr6
          refine ⟨rfl, by rw [mkMove_pieceMoved]; exact hstart, ?_, rfl, ?_, ?_⟩
          · simp only [mkMove_endRow, mkMove_endCol]
            rw [h2]
            intro hx
            simp [Piece.col] at hx
          · intro _ _
            exact ⟨rfl, Or.inl ⟨hw, rfl, rfl, h1⟩⟩
          · intro hx; rw [mkMove_isCastle] at hx; cases hx
        · refine ⟨rfl, by rw [mkMove_pieceMoved]; exact hstart, ?_, rfl, ?_, ?_⟩
          · simp only [mkMove_endRow, mkMove_endCol]
            rw [h1, hally]
            intro hx
            simp [Piece.col] at hx
          · intro _ habs
            simp only [mkMove_startRow, mkMove_endRow] at habs
            unfold absDiff at habs
            split_ifs at habs <;> omega
          · intro hx; rw [mkMove_isCastle] at hx; cases hx
        · obtain ⟨hec8, hgeo⟩ := epGeom_some s hInv hep
          rcases hgeo with ⟨_, hwf, _, _⟩ | ⟨her, _, hbp, hemp⟩
          · rw [hw] at hwf; cases hwf
          · have hr3 : r = 3 := by omega
            subst hr3
            refine ⟨rfl, by rw [mkMove_pieceMoved]; exact hstart, ?_, rfl, ?_,
              ?_⟩
            · have hemp' : bget s.board (3 - 1) (c - 1) = Piece.empty := hemp
              simp only [mkMove_endRow, mkMove_endCol]
              rw [hemp']
              intro hx
              simp [Piece.col] at hx
            · intro _ habs
              simp only [mkMove_startRow, mkMove_endRow] at habs
              unfold absDiff at habs
              split_ifs at habs <;> omega
            · intro hx; rw [mkMove_isCastle] at hx; cases hx
        · refine ⟨rfl, by rw [mkMove_pieceMoved]; exact hstart, ?_, rfl, ?_, ?_⟩
          · simp only [mkMove_endRow, mkMove_endCol]
            rw [h1, hally]
            intro hx
            simp [Piece.col] at hx
          · intro _ habs
            simp only [mkMove_startRow, mkMove_endRow] at habs
            unfold absDiff at habs
            split_ifs at habs <;> omega
          · intro hx; rw [mkMove_isCastle] at hx; cases hx
        · obtain ⟨hec8, hgeo⟩ := epGeom_some s hInv hep
          rcases hgeo with ⟨_, hwf, _, _⟩ | ⟨her, _, hbp, hemp⟩
          · rw [hw] at hwf; cases hwf
          · have hr3 : r = 3 := by omega
            subst hr3
            refine ⟨rfl, by rw [mkMove_pieceMoved]; exact hstart, ?_, rfl, ?_,
              ?_⟩
            · have hemp' : bget s.board (3 - 1) (c + 1) = Piece.empty := hemp
              simp only [mkMove_endRow, mkMove_endCol]
              rw [hemp']
              intro hx
              simp [Piece.col] at hx
            · intro _ habs
              simp only [mkMove_startRow, mkMove_endRow] at habs
              unfold absDiff at habs
              split_ifs at habs <;> omega
            · intro hx; rw [mkMove_isCastle] at hx; cases hx
      · rcases getPawnMoves_mem_black hw hgen with
          ⟨h1, rfl⟩ | ⟨hr6, h1, h2, rfl⟩ | ⟨hc1, h1, rfl⟩ | ⟨hc1, h1, hep, rfl⟩ |
          ⟨hc7, h1, rfl⟩ | ⟨hc7, h1, hep, rfl⟩
        · refine ⟨rfl, by rw [mkMove_pieceMoved]; exact hstart, ?_, rfl, ?_, ?_⟩
          · simp only [mkMove_endRow, mkMove_endCol]
            rw [h1]
            intro hx
            simp [Piece.col] at hx
          · intro _ habs
            simp only [mkMove_startRow, mkMove_endRow] at habs
            unfold absDiff at habs
            split_ifs at habs <;> omega
          · intro hx; rw [mkMove_isCastle] at hx; cases hx
        · subst hr6
          refine ⟨rfl, by rw [mkMove_pieceMoved]; exact hstart, ?_, rfl, ?_, ?_⟩
          · simp only [mkMove_endRow, mkMove_endCol]
            rw [h2]
            intro hx
            simp [Piece.col] at hx
          · intro _ _
            exact ⟨rfl, Or.inr ⟨hw, rfl, rfl, h1⟩⟩
          · intro hx; rw [mkMove_isCastle] at hx; cases hx
        · refine ⟨rfl, by rw [mkMove_pieceMoved]; exact hstart, ?_, rfl, ?_, ?_⟩
          · simp only [mkMove_endRow, mkMove_endCol]
            rw [h1, hally]
            intro hx
            simp [Piece.col] at hx
          · intro _ habs
            simp only [mkMove_startRow, mkMove_endRow] at habs
            unfold absDiff at habs
            split_ifs at habs <;> omega
          · intro hx; rw [mkMove_isCastle] at hx; cases hx
        · obtain ⟨hec8, hgeo⟩ := epGeom_some s hInv hep
          rcases hgeo with ⟨her, _, hwp, hemp⟩ | ⟨_, hwt, _, _⟩
          · have hr4 : r = 4 := by omega
            subst hr4
            refine ⟨rfl, by rw [mkMove_pieceMoved]; exact hstart, ?_, rfl, ?_,
              ?_⟩
            · have hemp' : bget s.board (4 + 1) (c - 1) = Piece.empty := hemp
              simp only [mkMove_endRow, mkMove_endCol]
              rw [hemp']
              intro hx
              simp [Piece.col] at hx
            · intro _ habs
              simp only [mkMove_startRow, mkMove_endRow] at habs
              unfold absDiff at habs
              split_ifs at habs <;> omega
            · intro hx; rw [mkMove_isCastle] at hx; cases hx
          · rw [hw] at hwt; cases hwt
        · refine ⟨rfl, by rw [mkMove_pieceMoved]; exact hstart, ?_, rfl, ?_, ?_⟩
          · simp only [mkMove_endRow, mkMove_endCol]
            rw [h1, hally]
            intro hx
            simp [Piece.col] at hx
          · intro _ habs
            simp only [mkMove_startRow, mkMove_endRow] at habs
            unfold absDiff at habs
            split_ifs at habs <;> omega
          · intro hx; rw [mkMove_isCastle] at hx; cases hx
        · obtain ⟨hec8, hgeo⟩ := epGeom_some s hInv hep
          rcases hgeo with ⟨her, _, hwp, hemp⟩ | ⟨_, hwt, _, _⟩
          · have hr4 : r = 4 := by omega
            subst hr4
            refine ⟨rfl, by rw [mkMove_pieceMoved]; exact hstart, ?_, rfl, ?_,
              ?_⟩
            · have hemp' : bget s.board (4 + 1) (c + 1) = Piece.empty := hemp
              simp only [mkMove_endRow, mkMove_endCol]
              rw [hemp']
              intro hx
              simp [Piece.col] at hx
            · intro _ habs
              simp only [mkMove_startRow, mkMove_endRow] at habs
              unfold absDiff at habs
              split_ifs at habs <;> omega
            · intro hx; rw [mkMove_isCastle] at hx; cases hx
          · rw [hw] at hwt; cases hwt
  · by_cases hw : s.whiteToMove = true
    · rw [if_pos hw] at hcas
      obtain ⟨hsua, hd⟩ := getCastleMoves_mem hcas
      rcases hd with ⟨hrights, hside⟩ | ⟨hrights, hside⟩
      · have hwks : s.currentCastlingRights.wks = true := by
          rcases hrights with ⟨-, h⟩ | ⟨h, -⟩
          · exact h
          · rw [hw] at h; cases h
        have hkl : s.whiteKingLocation = (7, 4) := hInv.khome.1 (Or.inl hwks)
        have h1 : s.whiteKingLocation.1 = 7 := by rw [hkl]
        have h2 : s.whiteKingLocation.2 = 4 := by rw [hkl]
        rw [h1, h2] at hside
        obtain ⟨h5, h6, rfl⟩ := kingSideCastleMoves_mem hside
        have hK : bget s.board 7 4 = Piece.mk .white .king := by
          have h := hInv.kings.2.2.2.2.1
          rw [h1, h2] at h
          exact h
        refine ⟨rfl, ?_, ?_, rfl, ?_, ?_⟩
        · rw [mkMove_pieceMoved, hK]
          unfold allyColor
          rw [hw]
          rfl
        · simp only [mkMove_endRow, mkMove_endCol]
          rw [h6]
          intro hx
          simp [Piece.col] at hx
        · intro hkind _
          rw [mkMove_pieceMoved, hK] at hkind
          exact absurd hkind (by decide)
        · intro _
          refine Or.inl ⟨hw, rfl, hkl, fun _ => hwks, ?_⟩
          intro hx
          simp only [mkMove_endCol] at hx
          exact absurd hx (by decide)
      · have hwqs : s.currentCastlingRights.wqs = true := by
          rcases hrights with ⟨-, h⟩ | ⟨h, -⟩
          · exact h
          · rw [hw] at h; cases h
        have hkl : s.whiteKingLocation = (7, 4) := hInv.khome.1 (Or.inr hwqs)
        have h1 : s.whiteKingLocation.1 = 7 := by rw [hkl]
        have h2 : s.whiteKingLocation.2 = 4 := by rw [hkl]
        rw [h1, h2] at hside
        obtain ⟨hq1, hq2, hq3, rfl⟩ := queenSideCastleMoves_mem hside
        have hK : bget s.board 7 4 = Piece.mk .white .king := by
          have h := hInv.kings.2.2.2.2.1
          rw [h1, h2] at h
          exact h
        refine ⟨rfl, ?_, ?_, rfl, ?_, ?_⟩
        · rw [mkMove_pieceMoved, hK]
          unfold allyColor
          rw [hw]
          rfl
        · simp only [mkMove_endRow, mkMove_endCol]
          rw [hq2]
          intro hx
          simp [Piece.col] at hx
        · intro hkind _
          rw [mkMove_pieceMoved, hK] at hkind
          exact absurd hkind (by decide)
        · intro _
          refine Or.inl ⟨hw, rfl, hkl, ?_, fun _ => hwqs⟩
          intro hx
          simp only [mkMove_endCol] at hx
          exact absurd hx (by decide)
    · rw [if_neg hw] at hcas
      have hwf : s.whiteToMove = false := by
        cases hb : s.whiteToMove
        · rfl
        · exact absurd hb hw
      obtain ⟨hsua, hd⟩ := getCastleMoves_mem hcas
      rcases hd with ⟨hrights, hside⟩ | ⟨hrights, hside⟩
      · have hbks : s.currentCastlingRights.bks = true := by
          rcases hrights with ⟨h, -⟩ | ⟨-, h⟩
          · rw [hwf] at h; cases h
          · exact h
        have hkl : s.blackKingLocation = (0, 4) := hInv.khome.2 (Or.inl hbks)
        have h1 : s.blackKingLocation.1 = 0 := by rw [hkl]
        have h2 : s.blackKingLocation.2 = 4 := by rw [hkl]
        rw [h1, h2] at hside
        obtain ⟨h5, h6, rfl⟩ := kingSideCastleMoves_mem hside
        have hK : bget s.board 0 4 = Piece.mk .black .king := by
          have h := hInv.kings.2.2.2.2.2.1
          rw [h1, h2] at h
          exact h
        refine ⟨rfl, ?_, ?_, rfl, ?_, ?_⟩
        · rw [mkMove_pieceMoved, hK]
          unfold allyColor
          rw [hwf]
          rfl
        · simp only [mkMove_endRow, mkMove_endCol]
          rw [h6]
          intro hx
          simp [Piece.col] at hx
        · intro hkind _
          rw [mkMove_pieceMoved, hK] at hkind
          exact absurd hkind (by decide)
        · intro _
          refine Or.inr ⟨hwf, rfl, hkl, fun _ => hbks, ?_⟩
          intro hx
          simp only [mkMove_endCol] at hx
          exact absurd hx (by decide)
      · have hbqs : s.currentCastlingRights.bqs = true := by
          rcases hrights with ⟨h, -⟩ | ⟨-, h⟩
          · rw [hwf] at h; cases h
          · exact h
        have hkl : s.blackKingLocation = (0, 4) := hInv.khome.2 (Or.inr hbqs)
        have h1 : s.blackKingLocation.1 = 0 := by rw [hkl]
        have h2 : s.blackKingLocation.2 = 4 := by rw [hkl]
        rw [h1, h2] at hside
        obtain ⟨hq1, hq2, hq3, rfl⟩ := queenSideCastleMoves_mem hside
        have hK : bget s.board 0 4 = Piece.mk .black .king := by
          have h := hInv.kings.2.2.2.2.2.1
          rw [h1, h2] at h
          exact h
        refine ⟨rfl, ?_, ?_, rfl, ?_, ?_⟩
        · rw [mkMove_pieceMoved, hK]
          unfold allyColor
          rw [hwf]
          rfl
        · simp only [mkMove_endRow, mkMove_endCol]
          rw [hq2]
          intro hx
          simp [Piece.col] at hx
        · intro hkind _
          rw [mkMove_pieceMoved, hK] at hkind
          exact absurd hkind (by decide)
        · intro _
          refine Or.inr ⟨hwf, rfl, hkl, ?_, fun _ => hbqs⟩
          intro hx
          simp only [mkMove_endCol] at hx
          exact absurd hx (by decide)

/-! ## Pointwise reads of the board after `makeMove` -/

theorem pne {a b x y : Nat} (h : (a, b) ≠ (x, y)) : x ≠ a ∨ y ≠ b := by
  rcases eq_or_ne a x with rfl | hax
  · rcases eq_or_ne b y with rfl | hby
    · exact absurd rfl h
    · exact Or.inr (Ne.symm hby)
  · exact Or.inl (Ne.symm hax)

theorem makeMove_bget_other (s : GameState) (m : Move) {a b : Nat}
    (h1 : (a, b) ≠ (m.startRow, m.startCol))
    (h2 : (a, b) ≠ (m.endRow, m.endCol))
    (h3 : (a, b) ≠ (m.endRow + 1, m.endCol))
    (h4 : (a, b) ≠ (m.endRow - 1, m.endCol))
    (h5 : (a, b) ≠ (m.endRow, m.endCol - 1))
    (h6 : (a, b) ≠ (m.endRow, m.endCol + 1))
    (h7 : (a, b) ≠ (m.endRow, m.endCol - 2)) :
    bget (makeMove s m).board a b = bget s.board a b := by
  rw [makeMove_board]
  simp only []
  split_ifs <;>
    simp only [bget_bset_ne (pne h1), bget_bset_ne (pne h2),
      bget_bset_ne (pne h3), bget_bset_ne (pne h4), bget_bset_ne (pne h5),
      bget_bset_ne (pne h6), bget_bset_ne (pne h7)]

theorem makeMove_bget_end (s : GameState) (m : Move) (wf : WF8 s.board)
    (ok : MoveOK s m) :
    bget (makeMove s m).board m.endRow m.endCol =
      (if m.isPawnPromotion = true then m.pieceMoved.promote m.promotionChoice
       else m.pieceMoved) := by
  rw [makeMove_board]
  simp only []
  by_cases hcas : m.isCastleMove = true
  · obtain ⟨hepf, hprf, her, hsc, -, hd⟩ := ok.cas hcas
    rw [if_pos hcas]
    rw [if_neg (show ¬m.isPawnPromotion = true by
      rw [hprf]; exact Bool.false_ne_true)]
    rcases hd with ⟨hec, -, -⟩ | ⟨hec, -, -, -⟩
    · rw [if_pos (show m.endCol - m.startCol = 2 by omega)]
      rw [bget_bset_ne (Or.inr (show m.endCol + 1 ≠ m.endCol by omega))]
      rw [bget_bset_ne (Or.inr (show m.endCol - 1 ≠ m.endCol by omega))]
      rw [if_neg (show ¬m.isEnPassantMove = true by
        rw [hepf]; exact Bool.false_ne_true)]
      rw [if_neg (show ¬m.isPawnPromotion = true by
        rw [hprf]; exact Bool.false_ne_true)]
      exact bget_bset_self8 (wf8_bset wf _ _ _) ok.er ok.ec _
    · rw [if_neg (show ¬m.endCol - m.startCol = 2 by omega)]
      rw [bget_bset_ne (Or.inr (show m.endCol - 2 ≠ m.endCol by omega))]
      rw [bget_bset_ne (Or.inr (show m.endCol + 1 ≠ m.endCol by omega))]
      rw [if_neg (show ¬m.isEnPassantMove = true by
        rw [hepf]; exact Bool.false_ne_true)]
      rw [if_neg (show ¬m.isPawnPromotion = true by
        rw [hprf]; exact Bool.false_ne_true)]
      exact bget_bset_self8 (wf8_bset wf _ _ _) ok.er ok.ec _
  · rw [if_neg hcas]
    by_cases hep : m.isEnPassantMove = true
    · obtain ⟨-, hprf, -, hd⟩ := ok.epc hep
      rw [if_pos hep]
      rw [if_neg (show ¬m.isPawnPromotion = true by
        rw [hprf]; exact Bool.false_ne_true)]
      rcases hd with ⟨hwp, -, her, -, -, -⟩ | ⟨hbp, -, her, -, -, -⟩
      · rw [if_pos hwp]
        rw [bget_bset_ne (Or.inl (show m.endRow + 1 ≠ m.endRow by omega))]
        rw [if_neg (show ¬m.isPawnPromotion = true by
          rw [hprf]; exact Bool.false_ne_true)]
        exact bget_bset_self8 (wf8_bset wf _ _ _) ok.er ok.ec _
      · rw [if_neg (show ¬m.pieceMoved = Piece.mk Color.white Kind.pawn by
          rw [hbp]; intro hx; cases hx)]
        rw [bget_bset_ne (Or.inl (show m.endRow - 1 ≠ m.endRow by omega))]
        rw [if_neg (show ¬m.isPawnPromotion = true by
          rw [hprf]; exact Bool.false_ne_true)]
        exact bget_bset_self8 (wf8_bset wf _ _ _) ok.er ok.ec _
    · rw [if_neg hep]
      by_cases hpromo : m.isPawnPromotion = true
      · rw [if_pos hpromo, if_pos hpromo]
        exact bget_bset_self8 (wf8_bset wf _ _ _) ok.er ok.ec _
      · rw [if_neg hpromo, if_neg hpromo]
        exact bget_bset_self8 (wf8_bset wf _ _ _) ok.er ok.ec _

theorem makeMove_bget_start (s : GameState) (m : Move) (wf : WF8 s.board)
    (ok : MoveOK s m) :
    bget (makeMove s m).board m.startRow m.startCol = Piece.empty := by
  rw [makeMove_board]
  simp only []
  by_cases hcas : m.isCastleMove = true
  · obtain ⟨hepf, hprf, her, hsc, -, hd⟩ := ok.cas hcas
    rcases hd with ⟨hec, -, -⟩ | ⟨hec, -, -, -⟩
    · rw [if_pos hcas, if_pos (show m.endCol - m.startCol = 2 by omega)]
      rw [bget_bset_ne (Or.inr (show m.endCol + 1 ≠ m.startCol by omega))]
      rw [bget_bset_ne (Or.inr (show m.endCol - 1 ≠ m.startCol by omega))]
      rw [if_neg (show ¬m.isEnPassantMove = true by
        rw [hepf]; exact Bool.false_ne_true)]
      rw [if_neg (show ¬m.isPawnPromotion = true by
        rw [hprf]; exact Bool.false_ne_true)]
      rw [bget_bset_ne (pne ok.ne)]
      exact bget_bset_self8 wf ok.sr ok.sc _
    · rw [if_pos hcas, if_neg (show ¬m.endCol - m.startCol = 2 by omega)]
      rw [bget_bset_ne (Or.inr (show m.endCol - 2 ≠ m.startCol by omega))]
      rw [bget_bset_ne (Or.inr (show m.endCol + 1 ≠ m.startCol by omega))]
      rw [if_neg (show ¬m.isEnPassantMove = true by
        rw [hepf]; exact Bool.false_ne_true)]
      rw [if_neg (show ¬m.isPawnPromotion = true by
        rw [hprf]; exact Bool.false_ne_true)]
      rw [bget_bset_ne (pne ok.ne)]
      exact bget_bset_self8 wf ok.sr ok.sc _
  · rw [if_neg hcas]
    by_cases hep : m.isEnPassantMove = true
    · obtain ⟨-, hprf, hcne, hd⟩ := ok.epc hep
      rw [if_pos hep]
      rcases hd with ⟨hwp, hsr, her, -, -, -⟩ | ⟨hbp, hsr, her, -, -, -⟩
      · rw [if_pos hwp]
        rw [bget_bset_ne (Or.inr (show m.endCol ≠ m.startCol from
          fun hx => hcne hx.symm))]
        rw [if_neg (show ¬m.isPawnPromotion = true by
          rw [hprf]; exact Bool.false_ne_true)]
        rw [bget_bset_ne (pne ok.ne)]
        exact bget_bset_self8 wf ok.sr ok.sc _
      · rw [if_neg (show ¬m.pieceMoved = Piece.mk Color.white Kind.pawn by
          rw [hbp]; intro hx; cases hx)]
        rw [bget_bset_ne (Or.inr (show m.endCol ≠ m.startCol from
          fun hx => hcne hx.symm))]
        rw [if_neg (show ¬m.isPawnPromotion = true by
          rw [hprf]; exact Bool.false_ne_true)]
        rw [bget_bset_ne (pne ok.ne)]
        exact bget_bset_self8 wf ok.sr ok.sc _
    · rw [if_neg hep]
      by_cases hpromo : m.isPawnPromotion = true
      · rw [if_pos hpromo]
        rw [bget_bset_ne (pne ok.ne)]
        exact bget_bset_self8 wf ok.sr ok.sc _
      · rw [if_neg hpromo]
        rw [bget_bset_ne (pne ok.ne)]
        exact bget_bset_self8 wf ok.sr ok.sc _

theorem makeMove_bget_epsq (s : GameState) (m : Move) (wf : WF8 s.board)
    (ok : MoveOK s m) (hep : m.isEnPassantMove = true) :
    bget (makeMove s m).board
      (if m.pieceMoved = Piece.mk .white .pawn then m.endRow + 1
       else m.endRow - 1) m.endCol = Piece.empty := by
  obtain ⟨hcasf, hprf, hcne, hd⟩ := ok.epc hep
  rw [makeMove_board]
  simp only []
  rw [if_neg (show ¬m.isCastleMove = true by
    rw [hcasf]; exact Bool.false_ne_true)]
  rw [if_pos hep]
  rcases hd with ⟨hwp, hsr, her, -, -, -⟩ | ⟨hbp, hsr, her, -, -, -⟩
  · rw [if_pos hwp, if_pos hwp]
    exact bget_bset_self8
      (by split_ifs <;> exact wf8_bset (wf8_bset wf _ _ _) _ _ _)
      (by omega) ok.ec _
  · rw [if_neg (show ¬m.pieceMoved = Piece.mk Color.white Kind.pawn by
        rw [hbp]; intro hx; cases hx),
      if_neg (show ¬m.pieceMoved = Piece.mk Color.white Kind.pawn by
        rw [hbp]; intro hx; cases hx)]
    exact bget_bset_self8
      (by split_ifs <;> exact wf8_bset (wf8_bset wf _ _ _) _ _ _)
      (by omega) ok.ec _

theorem makeMove_bget_castle (s : GameState) (m : Move) (wf : WF8 s.board)
    (ok : MoveOK s m) (hcas : m.isCastleMove = true) :
    (m.endCol = 6 →
      bget (makeMove s m).board m.startRow 5 = bget s.board m.startRow 7 ∧
      bget (makeMove s m).board m.startRow 7 = Piece.empty) ∧
    (m.endCol = 2 →
      bget (makeMove s m).board m.startRow 3 = bget s.board m.startRow 0 ∧
      bget (makeMove s m).board m.startRow 0 = Piece.empty) := by
  obtain ⟨hepf, hprf, her, hsc, -, hd⟩ := ok.cas hcas
  have hb2wf : WF8 (if m.isPawnPromotion = true then
      bset (bset s.board m.startRow m.startCol Piece.empty) m.endRow
        m.endCol (m.pieceMoved.promote m.promotionChoice)
    else
      bset (bset s.board m.startRow m.startCol Piece.empty) m.endRow
        m.endCol m.pieceMoved) := by
    split_ifs <;> exact wf8_bset (wf8_bset wf _ _ _) _ _ _
  have hb3 : ∀ y : Nat, y ≠ m.startCol → y ≠ m.endCol →
      bget (if m.isPawnPromotion = true then
          bset (bset s.board m.startRow m.startCol Piece.empty) m.endRow
            m.endCol (m.pieceMoved.promote m.promotionChoice)
        else
          bset (bset s.board m.startRow m.startCol Piece.empty) m.endRow
            m.endCol m.pieceMoved) m.endRow y = bget s.board m.endRow y := by
    intro y hy1 hy2
    split_ifs <;>
      rw [bget_bset_ne (Or.inr (Ne.symm hy2)),
        bget_bset_ne (Or.inr (fun hx => hy1 (by omega)))]
  rcases hd with ⟨hec, -, -⟩ | ⟨hec, -, -, -⟩
  · refine ⟨fun _ => ?_, fun hx => absurd hx (by omega)⟩
    rw [← her]
    constructor
    · rw [makeMove_board]
      simp only []
      rw [if_pos hcas, if_pos (show m.endCol - m.startCol = 2 by omega)]
      rw [if_neg (show ¬m.isEnPassantMove = true by
        rw [hepf]; exact Bool.false_ne_true)]
      rw [bget_bset_ne (Or.inr (show m.endCol + 1 ≠ 5 by omega))]
      rw [show m.endCol - 1 = 5 by omega, show m.endCol + 1 = 7 by omega]
      rw [bget_bset_self8 hb2wf ok.er (by omega) _]
      exact hb3 7 (by omega) (by omega)
    · rw [makeMove_board]
      simp only []
      rw [if_pos hcas, if_pos (show m.endCol - m.startCol = 2 by omega)]
      rw [if_neg (show ¬m.isEnPassantMove = true by
        rw [hepf]; exact Bool.false_ne_true)]
      rw [show m.endCol + 1 = 7 by omega]
      exact bget_bset_self8 (wf8_bset hb2wf _ _ _) ok.er (by omega) _
  · refine ⟨fun hx => absurd hx (by omega), fun _ => ?_⟩
    rw [← her]
    constructor
    · rw [makeMove_board]
      simp only []
      rw [if_pos hcas, if_neg (show ¬m.endCol - m.startCol = 2 by omega)]
      rw [if_neg (show ¬m.isEnPassantMove = true by
        rw [hepf]; exact Bool.false_ne_true)]
      rw [bget_bset_ne (Or.inr (show m.endCol - 2 ≠ 3 by omega))]
      rw [show m.endCol + 1 = 3 by omega, show m.endCol - 2 = 0 by omega]
      rw [bget_bset_self8 hb2wf ok.er (by omega) _]
      exact hb3 0 (by omega) (by omega)
    · rw [makeMove_board]
      simp only []
      rw [if_pos hcas, if_neg (show ¬m.endCol - m.startCol = 2 by omega)]
      rw [if_neg (show ¬m.isEnPassantMove = true by
        rw [hepf]; exact Bool.false_ne_true)]
      rw [show m.endCol - 2 = 0 by omega]
      exact bget_bset_self8 (wf8_bset hb2wf _ _ _) ok.er (by omega) _

/-! ## Behaviour of `updateCastleRights` -/

theorem ucr_decomp (cr : CastlingRights) (m : Move) :
    updateCastleRights cr m = ucrCap (ucrMove cr m) m := rfl

theorem contraB {a b : Bool} (h : a = true → b = true) (hb : b = false) :
    a = false := by
  cases ha : a
  · rfl
  · rw [h ha] at hb; cases hb

theorem ucrMove_mono (cr : CastlingRights) (m : Move) :
    (((ucrMove cr m).wks = true → cr.wks = true) ∧
     ((ucrMove cr m).wqs = true → cr.wqs = true)) ∧
    (((ucrMove cr m).bks = true → cr.bks = true) ∧
     ((ucrMove cr m).bqs = true → cr.bqs = true)) := by
  unfold ucrMove
  split_ifs <;> simp

theorem ucrCap_mono (cr : CastlingRights) (m : Move) :
    (((ucrCap cr m).wks = true → cr.wks = true) ∧
     ((ucrCap cr m).wqs = true → cr.wqs = true)) ∧
    (((ucrCap cr m).bks = true → cr.bks = true) ∧
     ((ucrCap cr m).bqs = true → cr.bqs = true)) := by
  unfold ucrCap
  split_ifs <;> simp

theorem ucr_mono (cr : CastlingRights) (m : Move) :
    (((updateCastleRights cr m).wks = true → cr.wks = true) ∧
     ((updateCastleRights cr m).wqs = true → cr.wqs = true)) ∧
    (((updateCastleRights cr m).bks = true → cr.bks = true) ∧
     ((updateCastleRights cr m).bqs = true → cr.bqs = true)) := by
  rw [ucr_decomp]
  refine ⟨⟨?_, ?_⟩, ⟨?_, ?_⟩⟩
  · exact fun h => (ucrMove_mono cr m).1.1 ((ucrCap_mono (ucrMove cr m) m).1.1 h)
  · exact fun h => (ucrMove_mono cr m).1.2 ((ucrCap_mono (ucrMove cr m) m).1.2 h)
  · exact fun h => (ucrMove_mono cr m).2.1 ((ucrCap_mono (ucrMove cr m) m).2.1 h)
  · exact fun h => (ucrMove_mono cr m).2.2 ((ucrCap_mono (ucrMove cr m) m).2.2 h)

theorem ucr_king_w (cr : CastlingRights) (m : Move)
    (h : m.pieceMoved = Piece.mk .white .king) :
    (updateCastleRights cr m).wks = false ∧
    (updateCastleRights cr m).wqs = false := by
  rw [ucr_decomp]
  have h1 : (ucrMove cr m).wks = false ∧ (ucrMove cr m).wqs = false := by
    unfold ucrMove
    rw [if_pos h]
    exact ⟨rfl, rfl⟩
  exact ⟨contraB (ucrCap_mono (ucrMove cr m) m).1.1 h1.1,
         contraB (ucrCap_mono (ucrMove cr m) m).1.2 h1.2⟩

theorem ucr_king_b (cr : CastlingRights) (m : Move)
    (h : m.pieceMoved = Piece.mk .black .king) :
    (updateCastleRights cr m).bks = false ∧
    (updateCastleRights cr m).bqs = false := by
  rw [ucr_decomp]
  have h1 : (ucrMove cr m).bks = false ∧ (ucrMove cr m).bqs = false := by
    unfold ucrMove
    rw [if_neg (show ¬m.pieceMoved = Piece.mk Color.white Kind.king by
      rw [h]; intro hx; cases hx)]
    rw [if_pos h]
    exact ⟨rfl, rfl⟩
  exact ⟨contraB (ucrCap_mono (ucrMove cr m) m).2.1 h1.1,
         contraB (ucrCap_mono (ucrMove cr m) m).2.2 h1.2⟩

theorem ucr_rook_w (cr : CastlingRights) (m : Move)
    (h : m.pieceMoved = Piece.mk .white .rook) (h7 : m.startRow = 7) :
    (m.startCol = 0 → (updateCastleRights cr m).wqs = false) ∧
    (m.startCol = 7 → (updateCastleRights cr m).wks = false) := by
  rw [ucr_decomp]
  have hne1 : ¬m.pieceMoved = Piece.mk Color.white Kind.king := by
    rw [h]; intro hx; cases hx
  have hne2 : ¬m.pieceMoved = Piece.mk Color.black Kind.king := by
    rw [h]; intro hx; cases hx
  constructor
  · intro h0
    have h1 : (ucrMove cr m).wqs = false := by
      unfold ucrMove
      rw [if_neg hne1, if_neg hne2, if_pos h, if_pos h7, if_pos h0]
    exact contraB (ucrCap_mono (ucrMove cr m) m).1.2 h1
  · intro h0
    have h1 : (ucrMove cr m).wks = false := by
      unfold ucrMove
      rw [if_neg hne1, if_neg hne2, if_pos h, if_pos h7,
        if_neg (show ¬m.startCol = 0 by omega), if_pos h0]
    exact contraB (ucrCap_mono (ucrMove cr m) m).1.1 h1

theorem ucr_rook_b (cr : CastlingRights) (m : Move)
    (h : m.pieceMoved = Piece.mk .black .rook) (h0r : m.startRow = 0) :
    (m.startCol = 0 → (updateCastleRights cr m).bqs = false) ∧
    (m.startCol = 7 → (updateCastleRights cr m).bks = false) := by
  rw [ucr_decomp]
  have hne1 : ¬m.pieceMoved = Piece.mk Color.white Kind.king := by
    rw [h]; intro hx; cases hx
  have hne2 : ¬m.pieceMoved = Piece.mk Color.black Kind.king := by
    rw [h]; intro hx; cases hx
  have hne3 : ¬m.pieceMoved = Piece.mk Color.white Kind.rook := by
    rw [h]; intro hx; cases hx
  constructor
  · intro h0
    have h1 : (ucrMove cr m).bqs = false := by
      unfold ucrMove
      rw [if_neg hne1, if_neg hne2, if_neg hne3, if_pos h, if_pos h0r, if_pos h0]
    exact contraB (ucrCap_mono (ucrMove cr m) m).2.2 h1
  · intro h0
    have h1 : (ucrMove cr m).bks = false := by
      unfold ucrMove
      rw [if_neg hne1, if_neg hne2, if_neg hne3, if_pos h, if_pos h0r,
        if_neg (show ¬m.startCol = 0 by omega), if_pos h0]
    exact contraB (ucrCap_mono (ucrMove cr m) m).2.1 h1

theorem ucr_cap_w (cr : CastlingRights) (m : Move)
    (h : m.pieceCaptured = Piece.mk .white .rook) (h7 : m.endRow = 7) :
    (m.endCol = 0 → (updateCastleRights cr m).wqs = false) ∧
    (m.endCol = 7 → (updateCastleRights cr m).wks = false) := by
  rw [ucr_decomp]
  unfold ucrCap
  rw [if_pos h, if_pos h7]
  constructor
  · intro h0
    rw [if_pos h0]
  · intro h0
    rw [if_neg (show ¬m.endCol = 0 by omega), if_pos h0]

theorem ucr_cap_b (cr : CastlingRights) (m : Move)
    (h : m.pieceCaptured = Piece.mk .black .rook) (h0r : m.endRow = 0) :
    (m.endCol = 0 → (updateCastleRights cr m).bqs = false) ∧
    (m.endCol = 7 → (updateCastleRights cr m).bks = false) := by
  rw [ucr_decomp]
  unfold ucrCap
  rw [if_neg (show ¬m.pieceCaptured = Piece.mk Color.white Kind.rook by
    rw [h]; intro hx; cases hx)]
  rw [if_pos h, if_pos h0r]
  constructor
  · intro h0
    rw [if_pos h0]
  · intro h0
    rw [if_neg (show ¬m.endCol = 0 by omega), if_pos h0]

/-! ## Flag-specific board reads and opponent-king facts -/

theorem makeMove_bget_plain (s : GameState) (m : Move)
    (hepf : m.isEnPassantMove = false) (hcasf : m.isCastleMove = false)
    {a b : Nat}
    (h1 : (a, b) ≠ (m.startRow, m.startCol))
    (h2 : (a, b) ≠ (m.endRow, m.endCol)) :
    bget (makeMove s m).board a b = bget s.board a b := by
  rw [makeMove_board]
  simp only []
  rw [if_neg (show ¬m.isCastleMove = true by
    rw [hcasf]; exact Bool.false_ne_true)]
  rw [if_neg (show ¬m.isEnPassantMove = true by
    rw [hepf]; exact Bool.false_ne_true)]
  split_ifs <;> rw [bget_bset_ne (pne h2), bget_bset_ne (pne h1)]

theorem makeMove_bget_ep3 (s : GameState) (m : Move)
    (hep : m.isEnPassantMove = true) (hcasf : m.isCastleMove = false)
    {a b : Nat}
    (h1 : (a, b) ≠ (m.startRow, m.startCol))
    (h2 : (a, b) ≠ (m.endRow, m.endCol))
    (h3 : (a, b) ≠ ((if m.pieceMoved = Piece.mk .white .pawn then m.endRow + 1
                     else m.endRow - 1), m.endCol)) :
    bget (makeMove s m).board a b = bget s.board a b := by
  rw [makeMove_board]
  simp only []
  rw [if_neg (show ¬m.isCastleMove = true by
    rw [hcasf]; exact Bool.false_ne_true)]
  rw [if_pos hep]
  by_cases hwp : m.pieceMoved = Piece.mk Color.white Kind.pawn
  · rw [if_pos hwp] at h3
    rw [if_pos hwp, bget_bset_ne (pne h3)]
    split_ifs <;> rw [bget_bset_ne (pne h2), bget_bset_ne (pne h1)]
  · rw [if_neg hwp] at h3
    rw [if_neg hwp, bget_bset_ne (pne h3)]
    split_ifs <;> rw [bget_bset_ne (pne h2), bget_bset_ne (pne h1)]

theorem makeMove_bget_cas (s : GameState) (m : Move) (ok : MoveOK s m)
    (hcas : m.isCastleMove = true) {a b : Nat}
    (h1 : (a, b) ≠ (m.startRow, m.startCol))
    (h2 : (a, b) ≠ (m.endRow, m.endCol))
    (hks : m.endCol = 6 → (a, b) ≠ (m.endRow, 5) ∧ (a, b) ≠ (m.endRow, 7))
    (hqs : m.endCol = 2 → (a, b) ≠ (m.endRow, 3) ∧ (a, b) ≠ (m.endRow, 0)) :
    bget (makeMove s m).board a b = bget s.board a b := by
  obtain ⟨hepf, hprf, her, hsc, -, hd⟩ := ok.cas hcas
  rw [makeMove_board]
  simp only []
  rw [if_pos hcas]
  rw [if_neg (show ¬m.isEnPassantMove = true by
    rw [hepf]; exact Bool.false_ne_true)]
  rw [if_neg (show ¬m.isPawnPromotion = true by
    rw [hprf]; exact Bool.false_ne_true)]
  rcases hd with ⟨hec, -, -⟩ | ⟨hec, -, -, -⟩
  · obtain ⟨hk1, hk2⟩ := hks hec
    rw [hec]
    rw [if_pos (show 6 - m.startCol = 2 by omega)]
    rw [bget_bset_ne (pne (show (a, b) ≠ (m.endRow, 6 + 1) by
      intro hx; exact hk2 (by rw [hx]))),
      bget_bset_ne (pne (show (a, b) ≠ (m.endRow, 6 - 1) by
      intro hx; exact hk1 (by rw [hx])))]
    rw [bget_bset_ne (pne (show (a, b) ≠ (m.endRow, 6) by
      intro hx; exact h2 (by rw [hx, hec]))), bget_bset_ne (pne h1)]
  · obtain ⟨hk1, hk2⟩ := hqs hec
    rw [hec]
    rw [if_neg (show ¬2 - m.startCol = 2 by omega)]
    rw [bget_bset_ne (pne (show (a, b) ≠ (m.endRow, 2 - 2) by
      intro hx; exact hk2 (by rw [hx]))),
      bget_bset_ne (pne (show (a, b) ≠ (m.endRow, 2 + 1) by
      intro hx; exact hk1 (by rw [hx])))]
    rw [bget_bset_ne (pne (show (a, b) ≠ (m.endRow, 2) by
      intro hx; exact h2 (by rw [hx, hec]))), bget_bset_ne (pne h1)]

theorem piece_of_col_kind {p : Piece} {c : Color} {k : Kind}
    (h1 : p.col = some c) (h2 : p.kind = some k) : p = Piece.mk c k := by
  cases p with
  | empty => cases h1
  | mk c0 k0 =>
    have hc : c0 = c := by
      have : some c0 = some c := h1
      exact Option.some.inj this
    have hk : k0 = k := by
      have : some k0 = some k := h2
      exact Option.some.inj this
    rw [hc, hk]

theorem pseudo_no_end_enemy_king (s : GameState) (hInv : Inv s) {m : Move}
    (hm : m ∈ getAllPossibleMovees s) :
    (s.whiteToMove = true → (m.endRow, m.endCol) ≠ s.blackKingLocation) ∧
    (s.whiteToMove = false → (m.endRow, m.endCol) ≠ s.whiteKingLocation) := by
  have hs := hInv.safe
  unfold inCheck at hs
  simp only [] at hs
  unfold SquareUnderAttack at hs
  rw [flip_flip] at hs
  constructor
  · intro hw heq
    rw [hw] at hs
    rw [if_neg (show ¬(!true) = true by decide)] at hs
    have h2 := List.any_eq_false.mp hs m hm
    apply h2
    have e1 : m.endRow = s.blackKingLocation.1 := by rw [← heq]
    have e2 : m.endCol = s.blackKingLocation.2 := by rw [← heq]
    rw [e1, e2]
    simp
  · intro hw heq
    rw [hw] at hs
    rw [if_pos (show (!false) = true by decide)] at hs
    have h2 := List.any_eq_false.mp hs m hm
    apply h2
    have e1 : m.endRow = s.whiteKingLocation.1 := by rw [← heq]
    have e2 : m.endCol = s.whiteKingLocation.2 := by rw [← heq]
    rw [e1, e2]
    simp

theorem candidate_end_ne_enemy_king (s : GameState) (hInv : Inv s) {m : Move}
    (hcand : m ∈ candidateMoves s) :
    (s.whiteToMove = true → (m.endRow, m.endCol) ≠ s.blackKingLocation) ∧
    (s.whiteToMove = false → (m.endRow, m.endCol) ≠ s.whiteKingLocation) := by
  rcases List.mem_append.mp hcand with hp | hcm
  · exact pseudo_no_end_enemy_king s hInv hp
  · have hkp := hInv.kings
    have hemp : bget s.board m.endRow m.endCol = Piece.empty := by
      by_cases hw : s.whiteToMove = true
      · rw [if_pos hw] at hcm
        obtain ⟨-, hd⟩ := getCastleMoves_mem hcm
        rcases hd with ⟨-, hk⟩ | ⟨-, hk⟩
        · obtain ⟨-, he, rfl⟩ := kingSideCastleMoves_mem hk
          exact he
        · obtain ⟨-, he, -, rfl⟩ := queenSideCastleMoves_mem hk
          exact he
      · rw [if_neg hw] at hcm
        obtain ⟨-, hd⟩ := getCastleMoves_mem hcm
        rcases hd with ⟨-, hk⟩ | ⟨-, hk⟩
        · obtain ⟨-, he, rfl⟩ := kingSideCastleMoves_mem hk
          exact he
        · obtain ⟨-, he, -, rfl⟩ := queenSideCastleMoves_mem hk
          exact he
    constructor
    · intro _ heq
      have e1 : m.endRow = s.blackKingLocation.1 := by rw [← heq]
      have e2 : m.endCol = s.blackKingLocation.2 := by rw [← heq]
      rw [e1, e2, hkp.2.2.2.2.2.1] at hemp
      cases hemp
    · intro _ heq
      have e1 : m.endRow = s.whiteKingLocation.1 := by rw [← heq]
      have e2 : m.endCol = s.whiteKingLocation.2 := by rw [← heq]
      rw [e1, e2, hkp.2.2.2.2.1] at hemp
      cases hemp

/-! ## Where the kings stand after `makeMove` -/

theorem makeMove_king_squares (s : GameState) (hInv : Inv s) {m : Move}
    (hcand : m ∈ candidateMoves s) (col : Color) (r c : Nat)
    (hr : r < 8) (hc : c < 8) :
    bget (makeMove s m).board r c = Piece.mk col Kind.king ↔
      (if m.pieceMoved = Piece.mk col Kind.king then (r, c) = (m.endRow, m.endCol)
       else bget s.board r c = Piece.mk col Kind.king) := by
  have wf := hInv.wf
  have ok := candidate_moveOK s hInv hcand
  have cf := candidate_facts s hInv hcand
  obtain ⟨wb1, wb2, bb1, bb2, hwg, hbg, hwu, hbu⟩ := hInv.kings
  have hendval := makeMove_bget_end s m wf ok
  have hstartval := makeMove_bget_start s m wf ok
  have hcolcase : col = allyColor s ∨ col = enemyColor s := by
    unfold allyColor enemyColor
    split_ifs <;> cases col
    · exact Or.inl rfl
    · exact Or.inr rfl
    · exact Or.inr rfl
    · exact Or.inl rfl
  have hrook7 : m.isCastleMove = true → m.endCol = 6 →
      bget s.board m.startRow 7 = Piece.mk (allyColor s) Kind.rook := by
    intro hcas hec
    rcases cf.cas2 hcas with ⟨hw, hsr, -, hks, -⟩ | ⟨hw, hsr, -, hks, -⟩
    · have hally : allyColor s = Color.white := by unfold allyColor; rw [hw]; rfl
      rw [hsr, hInv.rook.1 (hks hec), hally]
    · have hally : allyColor s = Color.black := by unfold allyColor; rw [hw]; rfl
      rw [hsr, hInv.rook.2.2.1 (hks hec), hally]
  have hrook0 : m.isCastleMove = true → m.endCol = 2 →
      bget s.board m.startRow 0 = Piece.mk (allyColor s) Kind.rook := by
    intro hcas hec
    rcases cf.cas2 hcas with ⟨hw, hsr, -, -, hqs⟩ | ⟨hw, hsr, -, -, hqs⟩
    · have hally : allyColor s = Color.white := by unfold allyColor; rw [hw]; rfl
      rw [hsr, hInv.rook.2.1 (hqs hec), hally]
    · have hally : allyColor s = Color.black := by unfold allyColor; rw [hw]; rfl
      rw [hsr, hInv.rook.2.2.2 (hqs hec), hally]
  have hend_s_ne : bget s.board m.endRow m.endCol ≠ Piece.mk col Kind.king := by
    rcases hcolcase with hcc | hcc
    · intro hx
      exact cf.noally (by rw [hx, hcc]; rfl)
    · intro hx
      have hcne := candidate_end_ne_enemy_king s hInv hcand
      by_cases hw : s.whiteToMove = true
      · have hcolb : col = Color.black := by rw [hcc]; unfold enemyColor; rw [hw]; rfl
        rw [hcolb] at hx
        exact hcne.1 hw (hbu m.endRow m.endCol ok.er ok.ec hx)
      · have hw2 : s.whiteToMove = false := Bool.eq_false_iff.mpr hw
        have hcolw : col = Color.white := by rw [hcc]; unfold enemyColor; rw [hw2]; rfl
        rw [hcolw] at hx
        exact hcne.2 hw2 (hwu m.endRow m.endCol ok.er ok.ec hx)
  have holdloc : ∀ a b, a < 8 → b < 8 → bget s.board a b = Piece.mk col Kind.king →
      m.pieceMoved = Piece.mk col Kind.king → (a, b) = (m.startRow, m.startCol) := by
    intro a b ha hb hcontent hpmk
    cases col with
    | white => rw [hwu a b ha hb hcontent, ok.wkloc hpmk]
    | black => rw [hbu a b ha hb hcontent, ok.bkloc hpmk]
  by_cases hpm : m.pieceMoved = Piece.mk col Kind.king
  · rw [if_pos hpm]
    have hprf : m.isPawnPromotion = false := by
      rw [cf.promoF]
      exact decide_eq_false (fun hco => by
        have hk2 := hco.1
        rw [hpm] at hk2
        simp [Piece.kind] at hk2)
    have hev : bget (makeMove s m).board m.endRow m.endCol =
        Piece.mk col Kind.king := by
      rw [hendval, if_neg (show ¬m.isPawnPromotion = true by
        rw [hprf]; exact Bool.false_ne_true), hpm]
    constructor
    · intro hq
      by_cases heq : (r, c) = (m.endRow, m.endCol)
      · exact heq
      exfalso
      by_cases heqs : (r, c) = (m.startRow, m.startCol)
      · rw [Prod.mk.injEq] at heqs
        rw [heqs.1, heqs.2, hstartval] at hq
        cases hq
      by_cases hcas : m.isCastleMove = true
      · obtain ⟨hepf, hprf2, her, hsc, hcap, hd⟩ := ok.cas hcas
        have hcasread := makeMove_bget_castle s m wf ok hcas
        rcases hd with ⟨hec, he5, he6⟩ | ⟨hec, he1, he2, he3⟩
        · obtain ⟨hv5, hv7⟩ := hcasread.1 hec
          by_cases h5 : (r, c) = (m.startRow, 5)
          · rw [Prod.mk.injEq] at h5
            rw [h5.1, h5.2, hv5, hrook7 hcas hec] at hq
            simp at hq
          by_cases h7 : (r, c) = (m.startRow, 7)
          · rw [Prod.mk.injEq] at h7
            rw [h7.1, h7.2, hv7] at hq
            cases hq
          have hun := makeMove_bget_cas s m ok hcas heqs heq
            (fun _ => ⟨by rw [her]; exact h5, by rw [her]; exact h7⟩)
            (fun hx => absurd hx (by omega))
          rw [hun] at hq
          exact heqs (holdloc r c hr hc hq hpm)
        · obtain ⟨hv3, hv0⟩ := hcasread.2 hec
          by_cases h3 : (r, c) = (m.startRow, 3)
          · rw [Prod.mk.injEq] at h3
            rw [h3.1, h3.2, hv3, hrook0 hcas hec] at hq
            simp at hq
          by_cases h0 : (r, c) = (m.startRow, 0)
          · rw [Prod.mk.injEq] at h0
            rw [h0.1, h0.2, hv0] at hq
            cases hq
          have hun := makeMove_bget_cas s m ok hcas heqs heq
            (fun hx => absurd hx (by omega))
            (fun _ => ⟨by rw [her]; exact h3, by rw [her]; exact h0⟩)
          rw [hun] at hq
          exact heqs (holdloc r c hr hc hq hpm)
      by_cases hep : m.isEnPassantMove = true
      · obtain ⟨-, -, -, hd⟩ := ok.epc hep
        rcases hd with ⟨hwp, -⟩ | ⟨hbp, -⟩
        · rw [hpm] at hwp
          simp [Piece.mk.injEq] at hwp
        · rw [hpm] at hbp
          simp [Piece.mk.injEq] at hbp
      · have hun := makeMove_bget_plain s m (Bool.eq_false_iff.mpr hep)
          (Bool.eq_false_iff.mpr hcas) heqs heq
        rw [hun] at hq
        exact heqs (holdloc r c hr hc hq hpm)
    · intro hq
      rw [Prod.mk.injEq] at hq
      rw [hq.1, hq.2]
      exact hev
  · rw [if_neg hpm]
    have hendne : bget (makeMove s m).board m.endRow m.endCol ≠
        Piece.mk col Kind.king := by
      rw [hendval]
      by_cases hpr : m.isPawnPromotion = true
      · rw [if_pos hpr]
        have hdec := cf.promoF
        rw [hpr] at hdec
        obtain ⟨hkp, -⟩ := of_decide_eq_true hdec.symm
        have hpmv : m.pieceMoved = Piece.mk (allyColor s) Kind.pawn :=
          piece_of_col_kind cf.mcol hkp
        rw [hpmv, cf.pc]
        intro hx
        simp [Piece.promote] at hx
      · rw [if_neg hpr]
        exact hpm
    have hstart_s_ne : bget s.board m.startRow m.startCol ≠
        Piece.mk col Kind.king := by
      rw [← ok.moved]
      exact hpm
    constructor
    · intro hq
      by_cases heqs : (r, c) = (m.startRow, m.startCol)
      · rw [Prod.mk.injEq] at heqs
        rw [heqs.1, heqs.2, hstartval] at hq
        cases hq
      by_cases heq : (r, c) = (m.endRow, m.endCol)
      · exfalso
        rw [Prod.mk.injEq] at heq
        rw [heq.1, heq.2] at hq
        exact hendne hq
      by_cases hcas : m.isCastleMove = true
      · obtain ⟨hepf, hprf2, her, hsc, hcap, hd⟩ := ok.cas hcas
        have hcasread := makeMove_bget_castle s m wf ok hcas
        rcases hd with ⟨hec, he5, he6⟩ | ⟨hec, he1, he2, he3⟩
        · obtain ⟨hv5, hv7⟩ := hcasread.1 hec
          by_cases h5 : (r, c) = (m.startRow, 5)
          · exfalso
            rw [Prod.mk.injEq] at h5
            rw [h5.1, h5.2, hv5, hrook7 hcas hec] at hq
            simp at hq
          by_cases h7 : (r, c) = (m.startRow, 7)
          · exfalso
            rw [Prod.mk.injEq] at h7
            rw [h7.1, h7.2, hv7] at hq
            cases hq
          have hun := makeMove_bget_cas s m ok hcas heqs heq
            (fun _ => ⟨by rw [her]; exact h5, by rw [her]; exact h7⟩)
            (fun hx => absurd hx (by omega))
          rw [hun] at hq
          exact hq
        · obtain ⟨hv3, hv0⟩ := hcasread.2 hec
          by_cases h3 : (r, c) = (m.startRow, 3)
          · exfalso
            rw [Prod.mk.injEq] at h3
            rw [h3.1, h3.2, hv3, hrook0 hcas hec] at hq
            simp at hq
          by_cases h0 : (r, c) = (m.startRow, 0)
          · exfalso
            rw [Prod.mk.injEq] at h0
            rw [h0.1, h0.2, hv0] at hq
            cases hq
          have hun := makeMove_bget_cas s m ok hcas heqs heq
            (fun hx => absurd hx (by omega))
            (fun _ => ⟨by rw [her]; exact h3, by rw [her]; exact h0⟩)
          rw [hun] at hq
          exact hq
      by_cases hep : m.isEnPassantMove = true
      · have hepsq := makeMove_bget_epsq s m wf ok hep
        by_cases heps : (r, c) =
            ((if m.pieceMoved = Piece.mk Color.white Kind.pawn then m.endRow + 1
              else m.endRow - 1), m.endCol)
        · exfalso
          rw [Prod.mk.injEq] at heps
          rw [heps.1, heps.2, hepsq] at hq
          cases hq
        have hun := makeMove_bget_ep3 s m hep (Bool.eq_false_iff.mpr hcas)
          heqs heq heps
        rw [hun] at hq
        exact hq
      · have hun := makeMove_bget_plain s m (Bool.eq_false_iff.mpr hep)
          (Bool.eq_false_iff.mpr hcas) heqs heq
        rw [hun] at hq
        exact hq
    · intro hq
      have heqs : (r, c) ≠ (m.startRow, m.startCol) := by
        intro hx
        rw [Prod.mk.injEq] at hx
        rw [hx.1, hx.2] at hq
        exact hstart_s_ne hq
      have heq : (r, c) ≠ (m.endRow, m.endCol) := by
        intro hx
        rw [Prod.mk.injEq] at hx
        rw [hx.1, hx.2] at hq
        exact hend_s_ne hq
      by_cases hcas : m.isCastleMove = true
      · obtain ⟨hepf, hprf2, her, hsc, hcap, hd⟩ := ok.cas hcas
        have hcasread := makeMove_bget_castle s m wf ok hcas
        rcases hd with ⟨hec, he5, he6⟩ | ⟨hec, he1, he2, he3⟩
        · have h5 : (r, c) ≠ (m.startRow, 5) := by
            intro hx
            rw [Prod.mk.injEq] at hx
            rw [hx.1, hx.2, he5] at hq
            cases hq
          have h7 : (r, c) ≠ (m.startRow, 7) := by
            intro hx
            rw [Prod.mk.injEq] at hx
            rw [hx.1, hx.2, hrook7 hcas hec] at hq
            simp at hq
          have hun := makeMove_bget_cas s m ok hcas heqs heq
            (fun _ => ⟨by rw [her]; exact h5, by rw [her]; exact h7⟩)
            (fun hx => absurd hx (by omega))
          rw [hun]
          exact hq
        · have h3 : (r, c) ≠ (m.startRow, 3) := by
            intro hx
            rw [Prod.mk.injEq] at hx
            rw [hx.1, hx.2, he3] at hq
            cases hq
          have h0 : (r, c) ≠ (m.startRow, 0) := by
            intro hx
            rw [Prod.mk.injEq] at hx
            rw [hx.1, hx.2, hrook0 hcas hec] at hq
            simp at hq
          have hun := makeMove_bget_cas s m ok hcas heqs heq
            (fun hx => absurd hx (by omega))
            (fun _ => ⟨by rw [her]; exact h3, by rw [her]; exact h0⟩)
          rw [hun]
          exact hq
      by_cases hep : m.isEnPassantMove = true
      · obtain ⟨-, -, -, hd⟩ := ok.epc hep
        have heps : (r, c) ≠
            ((if m.pieceMoved = Piece.mk Color.white Kind.pawn then m.endRow + 1
              else m.endRow - 1), m.endCol) := by
          rcases hd with ⟨hwp, hsr, herr, -, -, hpb⟩ | ⟨hbp, hsr, herr, -, -, hpb⟩
          · rw [if_pos hwp]
            intro hx
            rw [Prod.mk.injEq] at hx
            rw [hx.1, hx.2, herr] at hq
            rw [show (2 : Nat) + 1 = 3 from rfl, hpb] at hq
            simp at hq
          · rw [if_neg (show ¬m.pieceMoved = Piece.mk Color.white Kind.pawn by
              rw [hbp]; intro hy; cases hy)]
            intro hx
            rw [Prod.mk.injEq] at hx
            rw [hx.1, hx.2, herr] at hq
            rw [show (5 : Nat) - 1 = 4 from rfl, hpb] at hq
            simp at hq
        have hun := makeMove_bget_ep3 s m hep (Bool.eq_false_iff.mpr hcas)
          heqs heq heps
        rw [hun]
        exact hq
      · have hun := makeMove_bget_plain s m (Bool.eq_false_iff.mpr hep)
          (Bool.eq_false_iff.mpr hcas) heqs heq
        rw [hun]
        exact hq

/-! ## Preservation of the invariant under legal moves -/

theorem castle_mover_king (s : GameState) (hInv : Inv s) {m : Move}
    (hcand : m ∈ candidateMoves s) (hcas : m.isCastleMove = true) :
    (s.whiteToMove = true → m.pieceMoved = Piece.mk Color.white Kind.king) ∧
    (s.whiteToMove = false → m.pieceMoved = Piece.mk Color.black Kind.king) := by
  have ok := candidate_moveOK s hInv hcand
  have cf := candidate_facts s hInv hcand
  obtain ⟨-, -, her, hsc, -, -⟩ := ok.cas hcas
  obtain ⟨-, -, -, -, hwg, hbg, -, -⟩ := hInv.kings
  constructor
  · intro hw
    rcases cf.cas2 hcas with ⟨-, hsr, hloc, -, -⟩ | ⟨hw2, -, -, -, -⟩
    · rw [ok.moved, hsr, hsc]
      rw [hloc] at hwg
      exact hwg
    · rw [hw] at hw2
      cases hw2
  · intro hw
    rcases cf.cas2 hcas with ⟨hw2, -, -, -, -⟩ | ⟨-, hsr, hloc, -, -⟩
    · rw [hw] at hw2
      cases hw2
    · rw [ok.moved, hsr, hsc]
      rw [hloc] at hbg
      exact hbg

theorem castle_rook_corner (s : GameState) (hInv : Inv s) {m : Move}
    (hcand : m ∈ candidateMoves s) (hcas : m.isCastleMove = true) :
    (m.endCol = 6 →
      bget s.board m.startRow 7 = Piece.mk (allyColor s) Kind.rook) ∧
    (m.endCol = 2 →
      bget s.board m.startRow 0 = Piece.mk (allyColor s) Kind.rook) := by
  have cf := candidate_facts s hInv hcand
  constructor
  · intro hec
    rcases cf.cas2 hcas with ⟨hw, hsr, -, hks, -⟩ | ⟨hw, hsr, -, hks, -⟩
    · have hally : allyColor s = Color.white := by unfold allyColor; rw [hw]; rfl
      rw [hsr, hInv.rook.1 (hks hec), hally]
    · have hally : allyColor s = Color.black := by unfold allyColor; rw [hw]; rfl
      rw [hsr, hInv.rook.2.2.1 (hks hec), hally]
  · intro hec
    rcases cf.cas2 hcas with ⟨hw, hsr, -, -, hqs⟩ | ⟨hw, hsr, -, -, hqs⟩
    · have hally : allyColor s = Color.white := by unfold allyColor; rw [hw]; rfl
      rw [hsr, hInv.rook.2.1 (hqs hec), hally]
    · have hally : allyColor s = Color.black := by unfold allyColor; rw [hw]; rfl
      rw [hsr, hInv.rook.2.2.2 (hqs hec), hally]

theorem inv_step_epg (s : GameState) (hInv : Inv s) {m : Move}
    (hcand : m ∈ candidateMoves s) : epGeom (makeMove s m) := by
  have ok := candidate_moveOK s hInv hcand
  have cf := candidate_facts s hInv hcand
  by_cases hdp : m.pieceMoved.kind = some Kind.pawn ∧
      absDiff m.startRow m.endRow = 2
  · obtain ⟨hk, h2⟩ := hdp
    obtain ⟨hec, hd⟩ := cf.dbl hk h2
    have hepf : m.isEnPassantMove = false := by
      by_cases hep : m.isEnPassantMove = true
      · exact absurd hec.symm (ok.epc hep).2.2.1
      · exact Bool.eq_false_iff.mpr hep
    have hcasf : m.isCastleMove = false := by
      by_cases hcs : m.isCastleMove = true
      · obtain ⟨-, -, her, -, -, -⟩ := ok.cas hcs
        exfalso
        rw [her] at h2
        unfold absDiff at h2
        rw [if_pos (le_refl _)] at h2
        omega
      · exact Bool.eq_false_iff.mpr hcs
    have hendread := makeMove_bget_end s m hInv.wf ok
    unfold epGeom
    rw [makeMove_ep, if_pos (show m.pieceMoved.kind = some Kind.pawn ∧
      absDiff m.startRow m.endRow = 2 from ⟨hk, h2⟩)]
    refine ⟨ok.ec, ?_⟩
    rcases hd with ⟨hw, hsr, her, hemp⟩ | ⟨hw, hsr, her, hemp⟩
    · refine Or.inl ⟨by rw [hsr, her], ?_, ?_, ?_⟩
      · rw [makeMove_whiteToMove, hw]
        rfl
      · have hpm : m.pieceMoved = Piece.mk Color.white Kind.pawn :=
          piece_of_col_kind (by
            rw [cf.mcol, show allyColor s = Color.white from by
              unfold allyColor; rw [hw]; rfl]) hk
        have hprf : m.isPawnPromotion = false := by
          rw [cf.promoF]
          refine decide_eq_false ?_
          intro hco
          rcases hco.2 with h | h <;> omega
        rw [if_neg (show ¬m.isPawnPromotion = true by
          rw [hprf]; exact Bool.false_ne_true)] at hendread
        rw [← her, hendread, hpm]
      · have h1 : ((5 : Nat), m.endCol) ≠ (m.startRow, m.startCol) := by
          intro hx
          rw [Prod.mk.injEq] at hx
          omega
        have h2x : ((5 : Nat), m.endCol) ≠ (m.endRow, m.endCol) := by
          intro hx
          rw [Prod.mk.injEq] at hx
          omega
        rw [makeMove_bget_plain s m hepf hcasf h1 h2x]
        exact hemp
    · refine Or.inr ⟨by rw [hsr, her], ?_, ?_, ?_⟩
      · rw [makeMove_whiteToMove, hw]
        rfl
      · have hpm : m.pieceMoved = Piece.mk Color.black Kind.pawn :=
          piece_of_col_kind (by
            rw [cf.mcol, show allyColor s = Color.black from by
              unfold allyColor; rw [hw]; rfl]) hk
        have hprf : m.isPawnPromotion = false := by
          rw [cf.promoF]
          refine decide_eq_false ?_
          intro hco
          rcases hco.2 with h | h <;> omega
        rw [if_neg (show ¬m.isPawnPromotion = true by
          rw [hprf]; exact Bool.false_ne_true)] at hendread
        rw [← her, hendread, hpm]
      · have h1 : ((2 : Nat), m.endCol) ≠ (m.startRow, m.startCol) := by
          intro hx
          rw [Prod.mk.injEq] at hx
          omega
        have h2x : ((2 : Nat), m.endCol) ≠ (m.endRow, m.endCol) := by
          intro hx
          rw [Prod.mk.injEq] at hx
          omega
        rw [makeMove_bget_plain s m hepf hcasf h1 h2x]
        exact hemp
  · unfold epGeom
    rw [makeMove_ep, if_neg hdp]
    trivial

theorem inv_step_kings (s : GameState) (hInv : Inv s) {m : Move}
    (hcand : m ∈ candidateMoves s) : KingPlace (makeMove s m) := by
  have ok := candidate_moveOK s hInv hcand
  obtain ⟨wb1, wb2, bb1, bb2, hwg, hbg, hwu, hbu⟩ := hInv.kings
  have hwks := fun r c hr hc =>
    makeMove_king_squares s hInv hcand Color.white r c hr hc
  have hbks := fun r c hr hc =>
    makeMove_king_squares s hInv hcand Color.black r c hr hc
  unfold KingPlace
  rw [makeMove_wk, makeMove_bk]
  by_cases hpw : m.pieceMoved = Piece.mk Color.white Kind.king
  · have hpb : ¬m.pieceMoved = Piece.mk Color.black Kind.king := by
      rw [hpw]
      intro hx
      cases hx
    rw [if_pos hpw, if_neg hpb]
    refine ⟨ok.er, ok.ec, bb1, bb2, ?_, ?_, ?_, ?_⟩
    · exact (hwks m.endRow m.endCol ok.er ok.ec).mpr (by rw [if_pos hpw])
    · exact (hbks _ _ bb1 bb2).mpr (by rw [if_neg hpb]; exact hbg)
    · intro r c hr hc hcontent
      have hx := (hwks r c hr hc).mp hcontent
      rw [if_pos hpw] at hx
      exact hx
    · intro r c hr hc hcontent
      have hx := (hbks r c hr hc).mp hcontent
      rw [if_neg hpb] at hx
      exact hbu r c hr hc hx
  · by_cases hpb : m.pieceMoved = Piece.mk Color.black Kind.king
    · rw [if_neg hpw, if_pos hpb]
      refine ⟨wb1, wb2, ok.er, ok.ec, ?_, ?_, ?_, ?_⟩
      · exact (hwks _ _ wb1 wb2).mpr (by rw [if_neg hpw]; exact hwg)
      · exact (hbks m.endRow m.endCol ok.er ok.ec).mpr (by rw [if_pos hpb])
      · intro r c hr hc hcontent
        have hx := (hwks r c hr hc).mp hcontent
        rw [if_neg hpw] at hx
        exact hwu r c hr hc hx
      · intro r c hr hc hcontent
        have hx := (hbks r c hr hc).mp hcontent
        rw [if_pos hpb] at hx
        exact hx
    · rw [if_neg hpw, if_neg hpb]
      refine ⟨wb1, wb2, bb1, bb2, ?_, ?_, ?_, ?_⟩
      · exact (hwks _ _ wb1 wb2).mpr (by rw [if_neg hpw]; exact hwg)
      · exact (hbks _ _ bb1 bb2).mpr (by rw [if_neg hpb]; exact hbg)
      · intro r c hr hc hcontent
        have hx := (hwks r c hr hc).mp hcontent
        rw [if_neg hpw] at hx
        exact hwu r c hr hc hx
      · intro r c hr hc hcontent
        have hx := (hbks r c hr hc).mp hcontent
        rw [if_neg hpb] at hx
        exact hbu r c hr hc hx

theorem corner_untouched (s : GameState) (hInv : Inv s) {m : Move}
    (hcand : m ∈ candidateMoves s) {a b : Nat}
    (ha : a = 0 ∨ a = 7)
    (heqs : (a, b) ≠ (m.startRow, m.startCol))
    (heq : (a, b) ≠ (m.endRow, m.endCol))
    (hcasx : m.isCastleMove = true → a ≠ m.startRow) :
    bget (makeMove s m).board a b = bget s.board a b := by
  have ok := candidate_moveOK s hInv hcand
  by_cases hcas : m.isCastleMove = true
  · obtain ⟨-, -, her, -, -, -⟩ := ok.cas hcas
    have hane : a ≠ m.endRow := by
      rw [her]
      exact hcasx hcas
    exact makeMove_bget_cas s m ok hcas heqs heq
      (fun _ => ⟨by intro hx; rw [Prod.mk.injEq] at hx; exact hane hx.1,
                 by intro hx; rw [Prod.mk.injEq] at hx; exact hane hx.1⟩)
      (fun _ => ⟨by intro hx; rw [Prod.mk.injEq] at hx; exact hane hx.1,
                 by intro hx; rw [Prod.mk.injEq] at hx; exact hane hx.1⟩)
  by_cases hep : m.isEnPassantMove = true
  · obtain ⟨-, -, -, hd⟩ := ok.epc hep
    refine makeMove_bget_ep3 s m hep (Bool.eq_false_iff.mpr hcas) heqs heq ?_
    rcases hd with ⟨hwp, -, herr, -, -, -⟩ | ⟨hbp, -, herr, -, -, -⟩
    · rw [if_pos hwp]
      intro hx
      rw [Prod.mk.injEq] at hx
      omega
    · rw [if_neg (show ¬m.pieceMoved = Piece.mk Color.white Kind.pawn by
        rw [hbp]; intro hy; cases hy)]
      intro hx
      rw [Prod.mk.injEq] at hx
      omega
  · exact makeMove_bget_plain s m (Bool.eq_false_iff.mpr hep)
      (Bool.eq_false_iff.mpr hcas) heqs heq

theorem inv_step_rook (s : GameState) (hInv : Inv s) {m : Move}
    (hcand : m ∈ candidateMoves s) : RookHome (makeMove s m) := by
  have ok := candidate_moveOK s hInv hcand
  have cf := candidate_facts s hInv hcand
  unfold RookHome
  rw [makeMove_rights]
  refine ⟨?_, ?_, ?_, ?_⟩
  · intro hw'
    have hwold := ((ucr_mono s.currentCastlingRights m).1.1) hw'
    have hold := hInv.rook.1 hwold
    have heqs : ((7 : Nat), (7 : Nat)) ≠ (m.startRow, m.startCol) := by
      intro hx
      rw [Prod.mk.injEq] at hx
      have hpm : m.pieceMoved = Piece.mk Color.white Kind.rook := by
        rw [ok.moved, ← hx.1, ← hx.2]
        exact hold
      have hrv := (ucr_rook_w s.currentCastlingRights m hpm hx.1.symm).2 hx.2.symm
      rw [hrv] at hw'
      cases hw'
    have heq : ((7 : Nat), (7 : Nat)) ≠ (m.endRow, m.endCol) := by
      intro hx
      rw [Prod.mk.injEq] at hx
      by_cases hep : m.isEnPassantMove = true
      · obtain ⟨-, -, -, hd⟩ := ok.epc hep
        rcases hd with ⟨-, -, herr, -, -, -⟩ | ⟨-, -, herr, -, -, -⟩ <;> omega
      · have hcap : m.pieceCaptured = Piece.mk Color.white Kind.rook := by
          rw [ok.capF (Bool.eq_false_iff.mpr hep), ← hx.1, ← hx.2]
          exact hold
        have hrv := (ucr_cap_w s.currentCastlingRights m hcap hx.1.symm).2 hx.2.symm
        rw [hrv] at hw'
        cases hw'
    have hcasx : m.isCastleMove = true → (7 : Nat) ≠ m.startRow := by
      intro hcas
      rcases (candidate_facts s hInv hcand).cas2 hcas with
        ⟨hw, -, -, -, -⟩ | ⟨-, hsr, -, -, -⟩
      · exfalso
        obtain ⟨h1, -⟩ := ucr_king_w s.currentCastlingRights m
          ((castle_mover_king s hInv hcand hcas).1 hw)
        rw [h1] at hw'
        cases hw'
      · rw [hsr]
        omega
    rw [corner_untouched s hInv hcand (Or.inr rfl) heqs heq hcasx]
    exact hold
  · intro hw'
    have hwold := ((ucr_mono s.currentCastlingRights m).1.2) hw'
    have hold := hInv.rook.2.1 hwold
    have heqs : ((7 : Nat), (0 : Nat)) ≠ (m.startRow, m.startCol) := by
      intro hx
      rw [Prod.mk.injEq] at hx
      have hpm : m.pieceMoved = Piece.mk Color.white Kind.rook := by
        rw [ok.moved, ← hx.1, ← hx.2]
        exact hold
      have hrv := (ucr_rook_w s.currentCastlingRights m hpm hx.1.symm).1 hx.2.symm
      rw [hrv] at hw'
      cases hw'
    have heq : ((7 : Nat), (0 : Nat)) ≠ (m.endRow, m.endCol) := by
      intro hx
      rw [Prod.mk.injEq] at hx
      by_cases hep : m.isEnPassantMove = true
      · obtain ⟨-, -, -, hd⟩ := ok.epc hep
        rcases hd with ⟨-, -, herr, -, -, -⟩ | ⟨-, -, herr, -, -, -⟩ <;> omega
      · have hcap : m.pieceCaptured = Piece.mk Color.white Kind.rook := by
          rw [ok.capF (Bool.eq_false_iff.mpr hep), ← hx.1, ← hx.2]
          exact hold
        have hrv := (ucr_cap_w s.currentCastlingRights m hcap hx.1.symm).1 hx.2.symm
        rw [hrv] at hw'
        cases hw'
    have hcasx : m.isCastleMove = true → (7 : Nat) ≠ m.startRow := by
      intro hcas
      rcases (candidate_facts s hInv hcand).cas2 hcas with
        ⟨hw, -, -, -, -⟩ | ⟨-, hsr, -, -, -⟩
      · exfalso
        obtain ⟨-, h2⟩ := ucr_king_w s.currentCastlingRights m
          ((castle_mover_king s hInv hcand hcas).1 hw)
        rw [h2] at hw'
        cases hw'
      · rw [hsr]
        omega
    rw [corner_untouched s hInv hcand (Or.inr rfl) heqs heq hcasx]
    exact hold
  · intro hw'
    have hwold := ((ucr_mono s.currentCastlingRights m).2.1) hw'
    have hold := hInv.rook.2.2.1 hwold
    have heqs : ((0 : Nat), (7 : Nat)) ≠ (m.startRow, m.startCol) := by
      intro hx
      rw [Prod.mk.injEq] at hx
      have hpm : m.pieceMoved = Piece.mk Color.black Kind.rook := by
        rw [ok.moved, ← hx.1, ← hx.2]
        exact hold
      have hrv := (ucr_rook_b s.currentCastlingRights m hpm hx.1.symm).2 hx.2.symm
      rw [hrv] at hw'
      cases hw'
    have heq : ((0 : Nat), (7 : Nat)) ≠ (m.endRow, m.endCol) := by
      intro hx
      rw [Prod.mk.injEq] at hx
      by_cases hep : m.isEnPassantMove = true
      · obtain ⟨-, -, -, hd⟩ := ok.epc hep
        rcases hd with ⟨-, -, herr, -, -, -⟩ | ⟨-, -, herr, -, -, -⟩ <;> omega
      · have hcap : m.pieceCaptured = Piece.mk Color.black Kind.rook := by
          rw [ok.capF (Bool.eq_false_iff.mpr hep), ← hx.1, ← hx.2]
          exact hold
        have hrv := (ucr_cap_b s.currentCastlingRights m hcap hx.1.symm).2 hx.2.symm
        rw [hrv] at hw'
        cases hw'
    have hcasx : m.isCastleMove = true → (0 : Nat) ≠ m.startRow := by
      intro hcas
      rcases (candidate_facts s hInv hcand).cas2 hcas with
        ⟨-, hsr, -, -, -⟩ | ⟨hw, -, -, -, -⟩
      · rw [hsr]
        omega
      · exfalso
        obtain ⟨h1, -⟩ := ucr_king_b s.currentCastlingRights m
          ((castle_mover_king s hInv hcand hcas).2 hw)
        rw [h1] at hw'
        cases hw'
    rw [corner_untouched s hInv hcand (Or.inl rfl) heqs heq hcasx]
    exact hold
  · intro hw'
    have hwold := ((ucr_mono s.currentCastlingRights m).2.2) hw'
    have hold := hInv.rook.2.2.2 hwold
    have heqs : ((0 : Nat), (0 : Nat)) ≠ (m.startRow, m.startCol) := by
      intro hx
      rw [Prod.mk.injEq] at hx
      have hpm : m.pieceMoved = Piece.mk Color.black Kind.rook := by
        rw [ok.moved, ← hx.1, ← hx.2]
        exact hold
      have hrv := (ucr_rook_b s.currentCastlingRights m hpm hx.1.symm).1 hx.2.symm
      rw [hrv] at hw'
      cases hw'
    have heq : ((0 : Nat), (0 : Nat)) ≠ (m.endRow, m.endCol) := by
      intro hx
      rw [Prod.mk.injEq] at hx
      by_cases hep : m.isEnPassantMove = true
      · obtain ⟨-, -, -, hd⟩ := ok.epc hep
        rcases hd with ⟨-, -, herr, -, -, -⟩ | ⟨-, -, herr, -, -, -⟩ <;> omega
      · have hcap : m.pieceCaptured = Piece.mk Color.black Kind.rook := by
          rw [ok.capF (Bool.eq_false_iff.mpr hep), ← hx.1, ← hx.2]
          exact hold
        have hrv := (ucr_cap_b s.currentCastlingRights m hcap hx.1.symm).1 hx.2.symm
        rw [hrv] at hw'
        cases hw'
    have hcasx : m.isCastleMove = true → (0 : Nat) ≠ m.startRow := by
      intro hcas
      rcases (candidate_facts s hInv hcand).cas2 hcas with
        ⟨-, hsr, -, -, -⟩ | ⟨hw, -, -, -, -⟩
      · rw [hsr]
        omega
      · exfalso
        obtain ⟨-, h2⟩ := ucr_king_b s.currentCastlingRights m
          ((castle_mover_king s hInv hcand hcas).2 hw)
        rw [h2] at hw'
        cases hw'
    rw [corner_untouched s hInv hcand (Or.inl rfl) heqs heq hcasx]
    exact hold

theorem inv_step_khome (s : GameState) (hInv : Inv s) {m : Move}
    (hcand : m ∈ candidateMoves s) : KingHome (makeMove s m) := by
  unfold KingHome
  rw [makeMove_rights, makeMove_wk, makeMove_bk]
  constructor
  · intro hrt
    have hold : s.currentCastlingRights.wks = true ∨
        s.currentCastlingRights.wqs = true := by
      rcases hrt with h | h
      · exact Or.inl ((ucr_mono _ m).1.1 h)
      · exact Or.inr ((ucr_mono _ m).1.2 h)
    have hpm : ¬m.pieceMoved = Piece.mk Color.white Kind.king := by
      intro hx
      obtain ⟨h1, h2⟩ := ucr_king_w s.currentCastlingRights m hx
      rcases hrt with h | h
      · rw [h1] at h
        cases h
      · rw [h2] at h
        cases h
    rw [if_neg hpm]
    exact hInv.khome.1 hold
  · intro hrt
    have hold : s.currentCastlingRights.bks = true ∨
        s.currentCastlingRights.bqs = true := by
      rcases hrt with h | h
      · exact Or.inl ((ucr_mono _ m).2.1 h)
      · exact Or.inr ((ucr_mono _ m).2.2 h)
    have hpm : ¬m.pieceMoved = Piece.mk Color.black Kind.king := by
      intro hx
      obtain ⟨h1, h2⟩ := ucr_king_b s.currentCastlingRights m hx
      rcases hrt with h | h
      · rw [h1] at h
        cases h
      · rw [h2] at h
        cases h
    rw [if_neg hpm]
    exact hInv.khome.2 hold

theorem makeMove_backrank_nopawn (s : GameState) (hInv : Inv s) {m : Move}
    (hcand : m ∈ candidateMoves s) {col : Color} {a : Nat}
    (hca : (col = Color.white ∧ a = 0) ∨ (col = Color.black ∧ a = 7))
    (c : Nat) (hc : c < 8) :
    bget (makeMove s m).board a c ≠ Piece.mk col Kind.pawn := by
  have wf := hInv.wf
  have ok := candidate_moveOK s hInv hcand
  have cf := candidate_facts s hInv hcand
  have hstartval := makeMove_bget_start s m wf ok
  have hsprow : bget s.board a c ≠ Piece.mk col Kind.pawn := by
    rcases hca with ⟨rfl, rfl⟩ | ⟨rfl, rfl⟩
    · exact (hInv.prows c hc).1
    · exact (hInv.prows c hc).2
  have ha07 : a = 0 ∨ a = 7 := by
    rcases hca with ⟨-, rfl⟩ | ⟨-, rfl⟩
    · exact Or.inl rfl
    · exact Or.inr rfl
  intro hq
  by_cases heqs : (a, c) = (m.startRow, m.startCol)
  · rw [Prod.mk.injEq] at heqs
    rw [heqs.1, heqs.2, hstartval] at hq
    cases hq
  by_cases heq : (a, c) = (m.endRow, m.endCol)
  · rw [Prod.mk.injEq] at heq
    rw [heq.1, heq.2] at hq
    have h07 : m.endRow = 0 ∨ m.endRow = 7 := by
      rcases ha07 with h | h
      · exact Or.inl (by omega)
      · exact Or.inr (by omega)
    rw [makeMove_bget_end s m wf ok] at hq
    by_cases hkp : m.pieceMoved.kind = some Kind.pawn
    · have hpr : m.isPawnPromotion = true := by
        rw [cf.promoF]
        exact decide_eq_true ⟨hkp, h07⟩
      rw [if_pos hpr, piece_of_col_kind cf.mcol hkp, cf.pc] at hq
      simp [Piece.promote] at hq
    · by_cases hpr : m.isPawnPromotion = true
      · have hdec := cf.promoF
        rw [hpr] at hdec
        exact hkp (of_decide_eq_true hdec.symm).1
      · rw [if_neg hpr] at hq
        exact hkp (by rw [hq]; rfl)
  by_cases hcas : m.isCastleMove = true
  · obtain ⟨-, -, her, -, -, hd⟩ := ok.cas hcas
    have hcasread := makeMove_bget_castle s m wf ok hcas
    have hrooks := castle_rook_corner s hInv hcand hcas
    rcases hd with ⟨hec, -, -⟩ | ⟨hec, -, -, -⟩
    · obtain ⟨hv5, hv7⟩ := hcasread.1 hec
      by_cases h5 : (a, c) = (m.startRow, 5)
      · rw [Prod.mk.injEq] at h5
        rw [h5.1, h5.2, hv5, hrooks.1 hec] at hq
        simp at hq
      by_cases h7 : (a, c) = (m.startRow, 7)
      · rw [Prod.mk.injEq] at h7
        rw [h7.1, h7.2, hv7] at hq
        cases hq
      rw [makeMove_bget_cas s m ok hcas heqs heq
        (fun _ => ⟨by rw [her]; exact h5, by rw [her]; exact h7⟩)
        (fun hx => absurd hx (by omega))] at hq
      exact hsprow hq
    · obtain ⟨hv3, hv0⟩ := hcasread.2 hec
      by_cases h3 : (a, c) = (m.startRow, 3)
      · rw [Prod.mk.injEq] at h3
        rw [h3.1, h3.2, hv3, hrooks.2 hec] at hq
        simp at hq
      by_cases h0 : (a, c) = (m.startRow, 0)
      · rw [Prod.mk.injEq] at h0
        rw [h0.1, h0.2, hv0] at hq
        cases hq
      rw [makeMove_bget_cas s m ok hcas heqs heq
        (fun hx => absurd hx (by omega))
        (fun _ => ⟨by rw [her]; exact h3, by rw [her]; exact h0⟩)] at hq
      exact hsprow hq
  by_cases hep : m.isEnPassantMove = true
  · have hepsq := makeMove_bget_epsq s m wf ok hep
    by_cases heps : (a, c) =
        ((if m.pieceMoved = Piece.mk Color.white Kind.pawn then m.endRow + 1
          else m.endRow - 1), m.endCol)
    · rw [Prod.mk.injEq] at heps
      rw [heps.1, heps.2, hepsq] at hq
      cases hq
    rw [makeMove_bget_ep3 s m hep (Bool.eq_false_iff.mpr hcas)
      heqs heq heps] at hq
    exact hsprow hq
  · rw [makeMove_bget_plain s m (Bool.eq_false_iff.mpr hep)
      (Bool.eq_false_iff.mpr hcas) heqs heq] at hq
    exact hsprow hq

theorem inv_step (s : GameState) (hInv : Inv s) {m : Move}
    (hm : m ∈ (getValidMoves s).1) : Inv (makeMove s m) := by
  rw [getValidMoves_eq s hInv] at hm
  obtain ⟨hcand, hgood0⟩ := List.mem_filter.mp hm
  have hgood : badAfter s m = false := by rwa [Bool.not_eq_true'] at hgood0
  refine ⟨wf8_make s m hInv.wf, ?_, ?_, ?_, inv_step_epg s hInv hcand,
    inv_step_kings s hInv hcand, inv_step_rook s hInv hcand,
    inv_step_khome s hInv hcand, hgood, ?_⟩
  · rw [makeMove_checkMate]
    exact hInv.flagC
  · rw [makeMove_staleMate]
    exact hInv.flagS
  · rw [makeMove_rlog, makeMove_rights]
    exact List.getLast?_concat _
  · intro c hc
    exact ⟨makeMove_backrank_nopawn s hInv hcand (Or.inl ⟨rfl, rfl⟩) c hc,
      makeMove_backrank_nopawn s hInv hcand (Or.inr ⟨rfl, rfl⟩) c hc⟩

theorem inv_initial : Inv initialGameState := by
  refine ⟨⟨rfl, ?_⟩, rfl, rfl, rfl, trivial, ?_, ?_, ?_, ?_, ?_⟩
  · decide
  · refine ⟨by decide, by decide, by decide, by decide, by decide, by decide,
      ?_, ?_⟩
    · intro r c hr hc
      interval_cases r <;> interval_cases c <;> decide
    · intro r c hr hc
      interval_cases r <;> interval_cases c <;> decide
  · refine ⟨?_, ?_, ?_, ?_⟩ <;> intro h <;> decide
  · refine ⟨?_, ?_⟩ <;> intro h <;> decide
  · decide
  · decide

theorem reachable_inv {s : GameState} (h : Reachable s) : Inv s := by
  induction h with
  | init => exact inv_initial
  | step hr hm ih => exact inv_step _ ih hm


section FlagTwin

theorem candidateMoves_flags (t : GameState) (x y : Bool) :
    candidateMoves { t with checkMate := x, staleMate := y } =
      candidateMoves t := rfl

theorem badAfter_flags (t : GameState) (x y : Bool) :
    (fun m => !badAfter { t with checkMate := x, staleMate := y } m) =
      (fun m => !badAfter t m) := rfl

theorem inCheck_flags (t : GameState) (x y : Bool) :
    inCheck { t with checkMate := x, staleMate := y } = inCheck t := rfl

theorem inCheck_flags_ep (t : GameState) (x y : Bool) :
    inCheck { { t with checkMate := x, staleMate := y } with
        enpassantPossible := none } =
      inCheck { t with enpassantPossible := none } := rfl

theorem moveOK_flags {t : GameState} {m : Move} (x y : Bool)
    (ok : MoveOK t m) : MoveOK { t with checkMate := x, staleMate := y } m :=
  ⟨ok.sr, ok.sc, ok.er, ok.ec, ok.moved, ok.ne, ok.capF, ok.wkloc, ok.bkloc,
   ok.epc, ok.cas⟩

theorem getValidMoves_flags (t : GameState) (hInv : Inv t) (x y : Bool) :
    getValidMoves { t with checkMate := x, staleMate := y } =
      ((candidateMoves t).filter (fun m => !badAfter t m),
       if (candidateMoves t).filter (fun m => !badAfter t m) = [] then
         (if inCheck t then { t with checkMate := true, staleMate := y }
          else { t with checkMate := x, staleMate := true })
       else { t with checkMate := false, staleMate := false }) := by
  set u : GameState := { t with checkMate := x, staleMate := y } with hu
  have hok : ∀ m ∈ candidateMoves u, MoveOK u m := fun m hm =>
    moveOK_flags x y (candidate_moveOK t hInv
      (by rwa [hu, candidateMoves_flags] at hm))
  have hwf : WF8 u.board := hInv.wf
  have hrs : u.CastleRightLog.getLast? = some u.currentCastlingRights :=
    hInv.rsync
  have hnd : ((candidateMoves u).map Move.moveID).Nodup := by
    rw [hu, candidateMoves_flags]
    exact candidates_nodupID t hInv
  have hloop := checkFilterLoop_spec u hwf hrs
    (candidateMoves u).length (candidateMoves u) u (Or.inl rfl)
    (le_refl _) hok hnd
  rw [List.take_length, List.drop_length, List.append_nil] at hloop
  have h0 : getValidMoves u =
      ((checkFilterLoop (candidateMoves u) u (candidateMoves u).length).1,
       { (if (checkFilterLoop (candidateMoves u) u
              (candidateMoves u).length).1 = [] then
            (if inCheck (checkFilterLoop (candidateMoves u) u
                (candidateMoves u).length).2 then
              { (checkFilterLoop (candidateMoves u) u
                  (candidateMoves u).length).2 with checkMate := true }
             else
              { (checkFilterLoop (candidateMoves u) u
                  (candidateMoves u).length).2 with staleMate := true })
          else
            { (checkFilterLoop (candidateMoves u) u
                (candidateMoves u).length).2 with
                checkMate := false, staleMate := false }) with
          enpassantPossible := u.enpassantPossible,
          currentCastlingRights :=
            ⟨u.currentCastlingRights.wks, u.currentCastlingRights.bks,
             u.currentCastlingRights.wqs, u.currentCastlingRights.bqs⟩ }) :=
    rfl
  rw [h0, hloop]
  simp only []
  have hcu : candidateMoves u = candidateMoves t := candidateMoves_flags t x y
  have hbu : (fun m => !badAfter u m) = (fun m => !badAfter t m) :=
    badAfter_flags t x y
  rw [hcu, hbu]
  by_cases hn : (candidateMoves t).length = 0
  · rw [if_pos hn]
    rw [List.eq_nil_of_length_eq_zero hn, List.filter_nil]
    have hnil : (([] : List Move) = []) := rfl
    have hicu : inCheck u = inCheck t := inCheck_flags t x y
    by_cases hchk : inCheck t = true
    · simp only [if_pos hnil, hicu, if_pos hchk]
      rfl
    · simp only [if_pos hnil, hicu, if_neg hchk]
      rfl
  · rw [if_neg hn]
    have hic2 : inCheck { u with enpassantPossible := none } = inCheck t := by
      rw [show ({ u with enpassantPossible := none } : GameState) =
        { { t with checkMate := x, staleMate := y } with
          enpassantPossible := none } from rfl]
      rw [inCheck_flags_ep t x y]
      exact inCheck_strip t hInv
    by_cases hfe : (candidateMoves t).filter (fun m => !badAfter t m) = []
    · simp only [if_pos hfe, hic2]
      by_cases hchk : inCheck t = true
      · simp only [if_pos hchk]
      · simp only [if_neg hchk]
    · simp only [if_neg hfe]

end FlagTwin

/-- Equality of two states on every component except the two terminal flags
and the en-passant target: the relation the search loops preserve on the
threaded `GameState`. -/
theorem GEq_rfl (a : GameState) : GEq a a :=
  ⟨rfl, rfl, rfl, rfl, rfl, rfl, rfl⟩

theorem GEq_flags (t : GameState) (x y : Bool) :
    GEq { t with checkMate := x, staleMate := y } t :=
  ⟨rfl, rfl, rfl, rfl, rfl, rfl, rfl⟩

theorem GEq_trans {a b c : GameState} (h1 : GEq a b) (h2 : GEq b c) :
    GEq a c := by
  obtain ⟨a1, a2, a3, a4, a5, a6, a7⟩ := h1
  obtain ⟨b1, b2, b3, b4, b5, b6, b7⟩ := h2
  exact ⟨a1.trans b1, a2.trans b2, a3.trans b3, a4.trans b4, a5.trans b5,
    a6.trans b6, a7.trans b7⟩

theorem makeMove_GEq {u gs : GameState} (m : Move) (hG : GEq u gs) :
    makeMove u m =
      { makeMove gs m with checkMate := u.checkMate,
                           staleMate := u.staleMate } := by
  obtain ⟨hb, hw, hl, hwk, hbk, hcr, hrl⟩ := hG
  unfold makeMove
  rw [hb, hw, hl, hwk, hbk, hcr, hrl]

theorem flags_eta (t : GameState) (h1 : t.checkMate = false)
    (h2 : t.staleMate = false) :
    ({ t with checkMate := false, staleMate := false } : GameState) = t := by
  cases t
  simp only [] at h1 h2
  subst h1
  subst h2
  rfl

/-- Undoing from any state that agrees with `makeMove gs m` on the
non-flag, non-en-passant components restores those components of `gs`,
and copies the flags through. -/
theorem undo_twin (gs : GameState) (m : Move) (wf : WF8 gs.board)
    (ok : MoveOK gs m)
    (rs : gs.CastleRightLog.getLast? = some gs.currentCastlingRights)
    (w : GameState) (hG : GEq w (makeMove gs m)) :
    GEq (undoMove w) gs ∧ (undoMove w).checkMate = w.checkMate ∧
    (undoMove w).staleMate = w.staleMate := by
  have hlogc : (makeMove gs m).movelog.getLast? = some m := by
    rw [makeMove_movelog]
    exact List.getLast?_concat _
  have hlog : w.movelog.getLast? = some m := by
    rw [hG.2.2.1]
    exact hlogc
  have hclean := undo_make gs m wf ok rs
  have hww := undoMove_eq w m hlog
  have hcc := undoMove_eq (makeMove gs m) m hlogc
  obtain ⟨hb, hw, hl, hwk, hbk, hcr, hrl⟩ := hG
  refine ⟨⟨?_, ?_, ?_, ?_, ?_, ?_, ?_⟩, ?_, ?_⟩
  · have e1 : (undoMove w).board = undoBoard w.board m := by rw [hww]
    have e2 : (undoMove (makeMove gs m)).board =
        undoBoard (makeMove gs m).board m := by rw [hcc]
    have e3 : (undoMove (makeMove gs m)).board = gs.board := by rw [hclean]
    rw [e1, hb, ← e2, e3]
  · have e1 : (undoMove w).whiteToMove = !w.whiteToMove := by rw [hww]
    have e2 : (undoMove (makeMove gs m)).whiteToMove =
        !(makeMove gs m).whiteToMove := by rw [hcc]
    have e3 : (undoMove (makeMove gs m)).whiteToMove = gs.whiteToMove := by
      rw [hclean]
    rw [e1, hw, ← e2, e3]
  · have e1 : (undoMove w).movelog = w.movelog.dropLast := by rw [hww]
    have e2 : (undoMove (makeMove gs m)).movelog =
        (makeMove gs m).movelog.dropLast := by rw [hcc]
    have e3 : (undoMove (makeMove gs m)).movelog = gs.movelog := by
      rw [hclean]
    rw [e1, hl, ← e2, e3]
  · have e1 : (undoMove w).whiteKingLocation =
        (if m.pieceMoved = Piece.mk .white .king
         then (m.startRow, m.startCol) else w.whiteKingLocation) := by
      rw [hww]
    have e2 : (undoMove (makeMove gs m)).whiteKingLocation =
        (if m.pieceMoved = Piece.mk .white .king
         then (m.startRow, m.startCol)
         else (makeMove gs m).whiteKingLocation) := by
      rw [hcc]
    have e3 : (undoMove (makeMove gs m)).whiteKingLocation =
        gs.whiteKingLocation := by rw [hclean]
    rw [e1, hwk, ← e2, e3]
  · have e1 : (undoMove w).blackKingLocation =
        (if m.pieceMoved = Piece.mk .black .king
         then (m.startRow, m.startCol) else w.blackKingLocation) := by
      rw [hww]
    have e2 : (undoMove (makeMove gs m)).blackKingLocation =
        (if m.pieceMoved = Piece.mk .black .king
         then (m.startRow, m.startCol)
         else (makeMove gs m).blackKingLocation) := by
      rw [hcc]
    have e3 : (undoMove (makeMove gs m)).blackKingLocation =
        gs.blackKingLocation := by rw [hclean]
    rw [e1, hbk, ← e2, e3]
  · have e1 : (undoMove w).currentCastlingRights =
        ⟨((w.CastleRightLog.dropLast.getLast?).getD default).wks,
         ((w.CastleRightLog.dropLast.getLast?).getD default).bks,
         ((w.CastleRightLog.dropLast.getLast?).getD default).wqs,
         ((w.CastleRightLog.dropLast.getLast?).getD default).bqs⟩ := by
      rw [hww]
    have e2 : (undoMove (makeMove gs m)).currentCastlingRights =
        ⟨(((makeMove gs m).CastleRightLog.dropLast.getLast?).getD
            default).wks,
         (((makeMove gs m).CastleRightLog.dropLast.getLast?).getD
            default).bks,
         (((makeMove gs m).CastleRightLog.dropLast.getLast?).getD
            default).wqs,
         (((makeMove gs m).CastleRightLog.dropLast.getLast?).getD
            default).bqs⟩ := by
      rw [hcc]
    have e3 : (undoMove (makeMove gs m)).currentCastlingRights =
        gs.currentCastlingRights := by rw [hclean]
    rw [e1, hrl, ← e2, e3]
  · have e1 : (undoMove w).CastleRightLog = w.CastleRightLog.dropLast := by
      rw [hww]
    have e2 : (undoMove (makeMove gs m)).CastleRightLog =
        (makeMove gs m).CastleRightLog.dropLast := by rw [hcc]
    have e3 : (undoMove (makeMove gs m)).CastleRightLog =
        gs.CastleRightLog := by rw [hclean]
    rw [e1, hrl, ← e2, e3]
  · rw [hww]
  · rw [hww]

/-! ### Folded maxima -/

theorem foldl_max_ge_init (f : Move → ℚ) (l : List Move) (i : ℚ) :
    i ≤ l.foldl (fun a x => max a (f x)) i := by
  induction l generalizing i with
  | nil => exact le_refl i
  | cons a l ih => exact le_trans (le_max_left i (f a)) (ih (max i (f a)))

theorem foldl_max_init_mono (f : Move → ℚ) (l : List Move) {i j : ℚ}
    (h : i ≤ j) :
    l.foldl (fun a x => max a (f x)) i ≤ l.foldl (fun a x => max a (f x)) j := by
  induction l generalizing i j with
  | nil => exact h
  | cons a l ih => exact ih (max_le_max h (le_refl (f a)))

theorem foldl_max_absorb (f : Move → ℚ) (l : List Move) (i j : ℚ) :
    l.foldl (fun a x => max a (f x)) (max i j) =
      max (l.foldl (fun a x => max a (f x)) i) j := by
  induction l generalizing i with
  | nil => rfl
  | cons a l ih =>
    show l.foldl _ (max (max i j) (f a)) = _
    rw [show max (max i j) (f a) = max (max i (f a)) j from sup_right_comm i j (f a)]
    exact ih (max i (f a))

theorem foldl_max_le (f : Move → ℚ) (l : List Move) {i c : ℚ} (hi : i ≤ c)
    (h : ∀ x ∈ l, f x ≤ c) :
    l.foldl (fun a x => max a (f x)) i ≤ c := by
  induction l generalizing i with
  | nil => exact hi
  | cons a l ih =>
    exact ih (max_le hi (h a (List.mem_cons_self a l)))
      (fun x hx => h x (List.mem_cons_of_mem a hx))

theorem foldl_max_perm (f : Move → ℚ) {l l2 : List Move} (p : List.Perm l l2)
    (i : ℚ) :
    l.foldl (fun a x => max a (f x)) i = l2.foldl (fun a x => max a (f x)) i := by
  refine p.foldl_eq' ?_ i
  intro x _ y _ z
  show max (max z (f x)) (f y) = max (max z (f y)) (f x)
  rw [max_assoc, max_comm (f x), ← max_assoc]

/-! ### The move-ordering sort is a permutation -/

theorem insertByKey_perm (key : Move → ℚ) (a : Move) (l : List Move) :
    List.Perm (insertByKey key a l) (a :: l) := by
  induction l with
  | nil => exact List.Perm.refl _
  | cons b bs ih =>
    unfold insertByKey
    by_cases h : key b ≤ key a
    · rw [if_pos h]
      exact (ih.cons b).trans (List.Perm.swap a b bs)
    · rw [if_neg h]

theorem sortByKey_foldl_perm (key : Move → ℚ) (l acc : List Move) :
    List.Perm (l.foldl (fun acc a => insertByKey key a acc) acc) (acc ++ l) := by
  induction l generalizing acc with
  | nil => simp
  | cons a l ih =>
    show List.Perm (l.foldl (fun acc a => insertByKey key a acc)
      (insertByKey key a acc)) _
    refine (ih (insertByKey key a acc)).trans ?_
    refine ((insertByKey_perm key a acc).append_right l).trans ?_
    exact List.perm_middle.symm

theorem sortByKey_perm (key : Move → ℚ) (l : List Move) :
    List.Perm (sortByKey key l) l := by
  unfold sortByKey
  exact (sortByKey_foldl_perm key l []).trans (by simp)

theorem sortByKey_mem (key : Move → ℚ) {l : List Move} {m : Move}
    (h : m ∈ sortByKey key l) : m ∈ l :=
  (sortByKey_perm key l).mem_iff.mp h

/-! ### Bounds on the evaluation -/

theorem posTable_in_bound (k : Kind) : ∀ r, r < 8 → ∀ c, c < 8 →
    -5 ≤ ((piecePositionScores k).getD r []).getD c 0 ∧
    ((piecePositionScores k).getD r []).getD c 0 ≤ 5 := by
  cases k
  · with_unfolding_all decide
  · with_unfolding_all decide
  · with_unfolding_all decide
  · with_unfolding_all decide
  · with_unfolding_all decide
  · with_unfolding_all decide

theorem posTable_bound (k : Kind) (r c : Nat) :
    -5 ≤ ((piecePositionScores k).getD r []).getD c 0 ∧
    ((piecePositionScores k).getD r []).getD c 0 ≤ 5 := by
  by_cases hr : r < 8
  · by_cases hc : c < 8
    · exact posTable_in_bound k r hr c hc
    · have hlen : (((piecePositionScores k).getD r []).length) = 8 := by
        cases k <;> interval_cases r <;> rfl
      rw [List.getD_eq_default _ _ (by rw [hlen]; omega)]
      norm_num
  · have hlen : (piecePositionScores k).length = 8 := by cases k <;> rfl
    rw [List.getD_eq_default (piecePositionScores k) _ (by rw [hlen]; omega)]
    simp only [List.getD_nil]
    norm_num

theorem pieceScore_bound (k : Kind) :
    0 ≤ pieceScore k ∧ pieceScore k ≤ 10 := by
  cases k
  · with_unfolding_all decide
  · with_unfolding_all decide
  · with_unfolding_all decide
  · with_unfolding_all decide
  · with_unfolding_all decide
  · with_unfolding_all decide

theorem range_fold_bound (g : ℚ → ℕ → ℚ) (B : ℚ) (hB : 0 ≤ B)
    (hstep : ∀ acc i, acc - B ≤ g acc i ∧ g acc i ≤ acc + B) :
    ∀ (n : ℕ) (acc : ℚ), acc - n * B ≤ (List.range n).foldl g acc ∧
      (List.range n).foldl g acc ≤ acc + n * B := by
  intro n
  induction n with
  | zero =>
    intro acc
    simp
  | succ n ih =>
    intro acc
    rw [List.range_succ, List.foldl_append]
    simp only [List.foldl_cons, List.foldl_nil]
    obtain ⟨ih1, ih2⟩ := ih acc
    obtain ⟨hs1, hs2⟩ := hstep ((List.range n).foldl g acc) n
    push_cast
    have hexp : ((n : ℚ) + 1) * B = (n : ℚ) * B + B := by ring
    rw [hexp]
    constructor
    · linarith
    · linarith

theorem scoreBoard_bound (s : GameState) (wf : WF8 s.board) :
    -CHECKMATE ≤ scoreBoard s ∧ scoreBoard s ≤ CHECKMATE := by
  unfold scoreBoard
  by_cases h1 : s.checkMate = true
  · rw [if_pos h1]
    by_cases h2 : s.whiteToMove = true
    · rw [if_pos h2]
      unfold CHECKMATE
      norm_num
    · rw [if_neg h2]
      unfold CHECKMATE
      norm_num
  · rw [if_neg h1]
    by_cases h2 : s.staleMate = true
    · rw [if_pos h2]
      unfold STALEMATE CHECKMATE
      norm_num
    · rw [if_neg h2]
      have hrowlen : ∀ row : Nat, ((s.board.getD row []).length : ℚ) ≤ 8 := by
        intro row
        rcases Nat.lt_or_ge row s.board.length with hlt | hge
        · rw [List.getD_eq_getElem _ _ hlt]
          rw [wf.2 _ (List.getElem_mem hlt)]
          norm_num
        · rw [List.getD_eq_default _ _ hge]
          norm_num
      have hinner : ∀ (row : Nat) (acc : ℚ),
          acc - 88 ≤ (List.range ((s.board.getD row []).length)).foldl
            (fun acc2 col =>
              match bget s.board row col with
              | .empty => acc2
              | .mk c k =>
                acc2 + (if c = .white then
                  pieceScore k + (1 / 100) *
                    (if c = .white then
                      ((piecePositionScores k).getD (7 - row) []).getD col 0
                     else ((piecePositionScores k).getD row []).getD col 0)
                 else
                  -(pieceScore k + (1 / 100) *
                    (if c = .white then
                      ((piecePositionScores k).getD (7 - row) []).getD col 0
                     else ((piecePositionScores k).getD row []).getD col 0))))
            acc ∧
          (List.range ((s.board.getD row []).length)).foldl
            (fun acc2 col =>
              match bget s.board row col with
              | .empty => acc2
              | .mk c k =>
                acc2 + (if c = .white then
                  pieceScore k + (1 / 100) *
                    (if c = .white then
                      ((piecePositionScores k).getD (7 - row) []).getD col 0
                     else ((piecePositionScores k).getD row []).getD col 0)
                 else
                  -(pieceScore k + (1 / 100) *
                    (if c = .white then
                      ((piecePositionScores k).getD (7 - row) []).getD col 0
                     else ((piecePositionScores k).getD row []).getD col 0))))
            acc ≤ acc + 88 := by
        intro row acc
        have hstep : ∀ (acc2 : ℚ) (col : ℕ),
            acc2 - 11 ≤ (match bget s.board row col with
              | .empty => acc2
              | .mk c k =>
                acc2 + (if c = .white then
                  pieceScore k + (1 / 100) *
                    (if c = .white then
                      ((piecePositionScores k).getD (7 - row) []).getD col 0
                     else ((piecePositionScores k).getD row []).getD col 0)
                 else
                  -(pieceScore k + (1 / 100) *
                    (if c = .white then
                      ((piecePositionScores k).getD (7 - row) []).getD col 0
                     else ((piecePositionScores k).getD row []).getD col 0)))) ∧
            (match bget s.board row col with
              | .empty => acc2
              | .mk c k =>
                acc2 + (if c = .white then
                  pieceScore k + (1 / 100) *
                    (if c = .white then
                      ((piecePositionScores k).getD (7 - row) []).getD col 0
                     else ((piecePositionScores k).getD row []).getD col 0)
                 else
                  -(pieceScore k + (1 / 100) *
                    (if c = .white then
                      ((piecePositionScores k).getD (7 - row) []).getD col 0
                     else ((piecePositionScores k).getD row []).getD col 0)))) ≤
              acc2 + 11 := by
          intro acc2 col
          rcases hq : bget s.board row col with _ | ⟨c, k⟩
          · show acc2 - 11 ≤ acc2 ∧ acc2 ≤ acc2 + 11
            constructor <;> norm_num
          · show acc2 - 11 ≤ (acc2 + (if c = Color.white then
                  pieceScore k + (1 / 100) *
                    (if c = Color.white then
                      ((piecePositionScores k).getD (7 - row) []).getD col 0
                     else ((piecePositionScores k).getD row []).getD col 0)
                 else
                  -(pieceScore k + (1 / 100) *
                    (if c = Color.white then
                      ((piecePositionScores k).getD (7 - row) []).getD col 0
                     else ((piecePositionScores k).getD row []).getD col 0)))) ∧
              (acc2 + (if c = Color.white then
                  pieceScore k + (1 / 100) *
                    (if c = Color.white then
                      ((piecePositionScores k).getD (7 - row) []).getD col 0
                     else ((piecePositionScores k).getD row []).getD col 0)
                 else
                  -(pieceScore k + (1 / 100) *
                    (if c = Color.white then
                      ((piecePositionScores k).getD (7 - row) []).getD col 0
                     else ((piecePositionScores k).getD row []).getD col 0)))) ≤ acc2 + 11
            obtain ⟨hp1, hp2⟩ := pieceScore_bound k
            obtain ⟨ht1, ht2⟩ := posTable_bound k (7 - row) col
            obtain ⟨ht3, ht4⟩ := posTable_bound k row col
            by_cases hc : c = Color.white
            · rw [if_pos hc, if_pos hc]
              constructor <;> nlinarith
            · rw [if_neg hc, if_neg hc]
              constructor <;> nlinarith
        have hb := range_fold_bound _ 11 (by norm_num) hstep
          ((s.board.getD row []).length) acc
        have hr8 := hrowlen row
        constructor
        · nlinarith [hb.1]
        · nlinarith [hb.2]
      have houter := range_fold_bound _ 88 (by norm_num)
        (fun acc row => hinner row acc) s.board.length 0
      rw [wf.1] at houter
      rw [show ((0:ℚ) - ((8:ℕ):ℚ) * 88) = -704 from by norm_num,
        show ((0:ℚ) + ((8:ℕ):ℚ) * 88) = 704 from by norm_num] at houter
      unfold CHECKMATE
      rw [wf.1]
      simp only []
      constructor
      · linarith [houter.1]
      · linarith [houter.2]

/-! ### Helper lemmas for the search loops -/

theorem ite_lt_max (a b : ℚ) : (if a < b then b else a) = max a b := by
  rcases le_or_lt b a with h | h
  · rw [if_neg (not_lt.mpr h), max_eq_left h]
  · rw [if_pos h, max_eq_right (le_of_lt h)]

theorem legal_moveOK (s : GameState) (hInv : Inv s) {m : Move}
    (hm : m ∈ (getValidMoves s).1) : MoveOK s m := by
  rw [getValidMoves_eq s hInv] at hm
  exact candidate_moveOK s hInv (List.mem_filter.mp hm).1

theorem wtm_flags2 (t : GameState) (x y : Bool) :
    ({ t with checkMate := x, staleMate := y } : GameState).whiteToMove =
      t.whiteToMove := rfl

theorem wtm_flagC (t : GameState) (x : Bool) :
    ({ t with checkMate := x } : GameState).whiteToMove = t.whiteToMove := rfl

theorem wtm_flagS (t : GameState) (y : Bool) :
    ({ t with staleMate := y } : GameState).whiteToMove = t.whiteToMove := rfl

theorem cm_flags2 (t : GameState) (x y : Bool) :
    ({ t with checkMate := x, staleMate := y } : GameState).checkMate = x := rfl

theorem scoreBoard_mate (t : GameState) (y : Bool) :
    scoreBoard { t with checkMate := true, staleMate := y } =
      (if t.whiteToMove then -CHECKMATE else CHECKMATE) := rfl

theorem scoreBoard_mate1 (t : GameState) :
    scoreBoard { t with checkMate := true } =
      (if t.whiteToMove then -CHECKMATE else CHECKMATE) := rfl

theorem scoreBoard_stale (t : GameState) (x : Bool) (hx : x = false) :
    scoreBoard { t with checkMate := x, staleMate := true } = 0 := by
  subst hx
  rfl

theorem scoreBoard_stale1 (t : GameState) (hc : t.checkMate = false) :
    scoreBoard { t with staleMate := true } = 0 := by
  unfold scoreBoard
  rw [show ({ t with staleMate := true } : GameState).checkMate =
    t.checkMate from rfl, hc]
  rfl

theorem bestScore_bound (d : Nat) : ∀ (u t : GameState), Inv t → GEq u t →
    ∀ (mv : List Move), (∀ m ∈ mv, m ∈ (getValidMoves t).1) →
    -CHECKMATE ≤ bestScore d u mv ∧ bestScore d u mv ≤ CHECKMATE := by
  induction d with
  | zero =>
    intro u t hInv hG mv hmv
    show -CHECKMATE ≤ (if u.whiteToMove then (1 : ℚ) else -1) * scoreBoard u ∧
      (if u.whiteToMove then (1 : ℚ) else -1) * scoreBoard u ≤ CHECKMATE
    have hwf : WF8 u.board := by rw [hG.1]; exact hInv.wf
    have hsb := scoreBoard_bound u hwf
    by_cases hw : u.whiteToMove = true
    · rw [if_pos hw, one_mul]
      exact hsb
    · rw [if_neg hw]
      constructor <;> nlinarith [hsb.1, hsb.2]
  | succ d ih =>
    intro u t hInv hG mv hmv
    constructor
    · exact foldl_max_ge_init _ mv (-CHECKMATE)
    · refine foldl_max_le _ mv (by norm_num [CHECKMATE]) ?_
      intro mm hmm
      have hmm' := hmv mm hmm
      have hInv' : Inv (makeMove t mm) := inv_step t hInv hmm'
      have hmk := makeMove_GEq mm hG
      have h2G : GEq (getValidMoves (makeMove u mm)).2 (makeMove t mm) := by
        rw [hmk, getValidMoves_flags _ hInv']
        simp only []
        split_ifs <;> exact GEq_flags _ _ _
      have hsub : ∀ m2 ∈ (getValidMoves (makeMove u mm)).1,
          m2 ∈ (getValidMoves (makeMove t mm)).1 := by
        intro m2 hm2
        rw [hmk, getValidMoves_flags _ hInv'] at hm2
        rw [getValidMoves_eq _ hInv']
        exact hm2
      have hlow := (ih (getValidMoves (makeMove u mm)).2 (makeMove t mm) hInv'
        h2G (getValidMoves (makeMove u mm)).1 hsub).1
      linarith

theorem negaMaxLoop_cons
    (recurse : GameState → List Move → ℚ → Option Move → SearchResult)
    (d' : Nat) (tm : ℚ) (mm : Move) (rest : List Move) (m : ℚ)
    (nm : Option Move) (u : GameState) :
    negaMaxLoop recurse d' tm (mm :: rest) m nm u =
      negaMaxLoop recurse d' tm rest
        (if m < -(recurse (getValidMoves (makeMove u mm)).2
            (getValidMoves (makeMove u mm)).1 (-tm) nm).score
         then -(recurse (getValidMoves (makeMove u mm)).2
            (getValidMoves (makeMove u mm)).1 (-tm) nm).score
         else m)
        (if m < -(recurse (getValidMoves (makeMove u mm)).2
            (getValidMoves (makeMove u mm)).1 (-tm) nm).score
         then (if d' + 1 = DEPTH then some mm
               else (recurse (getValidMoves (makeMove u mm)).2
                 (getValidMoves (makeMove u mm)).1 (-tm) nm).nextMove)
         else (recurse (getValidMoves (makeMove u mm)).2
            (getValidMoves (makeMove u mm)).1 (-tm) nm).nextMove)
        (undoMove (recurse (getValidMoves (makeMove u mm)).2
            (getValidMoves (makeMove u mm)).1 (-tm) nm).state) := rfl

theorem alphaBetaLoop_cons
    (recurse : GameState → List Move → ℚ → ℚ → ℚ → Option Move → SearchResult)
    (d' : Nat) (tm : ℚ) (mm : Move) (rest : List Move) (m alpha beta : ℚ)
    (nm : Option Move) (u : GameState) :
    alphaBetaLoop recurse d' tm (mm :: rest) m alpha beta nm u =
      (if beta ≤ (if alpha < (if m < -(recurse (getValidMoves (makeMove u mm)).2
              (getValidMoves (makeMove u mm)).1 (-beta) (-alpha) (-tm) nm).score
            then -(recurse (getValidMoves (makeMove u mm)).2
              (getValidMoves (makeMove u mm)).1 (-beta) (-alpha) (-tm) nm).score
            else m)
          then (if m < -(recurse (getValidMoves (makeMove u mm)).2
              (getValidMoves (makeMove u mm)).1 (-beta) (-alpha) (-tm) nm).score
            then -(recurse (getValidMoves (makeMove u mm)).2
              (getValidMoves (makeMove u mm)).1 (-beta) (-alpha) (-tm) nm).score
            else m)
          else alpha)
       then (⟨(if m < -(recurse (getValidMoves (makeMove u mm)).2
              (getValidMoves (makeMove u mm)).1 (-beta) (-alpha) (-tm) nm).score
            then -(recurse (getValidMoves (makeMove u mm)).2
              (getValidMoves (makeMove u mm)).1 (-beta) (-alpha) (-tm) nm).score
            else m),
           (if m < -(recurse (getValidMoves (makeMove u mm)).2
              (getValidMoves (makeMove u mm)).1 (-beta) (-alpha) (-tm) nm).score
            then (if d' + 1 = DEPTH then some mm
                  else (recurse (getValidMoves (makeMove u mm)).2
                    (getValidMoves (makeMove u mm)).1 (-beta) (-alpha) (-tm)
                    nm).nextMove)
            else (recurse (getValidMoves (makeMove u mm)).2
              (getValidMoves (makeMove u mm)).1 (-beta) (-alpha) (-tm)
              nm).nextMove),
           undoMove (recurse (getValidMoves (makeMove u mm)).2
             (getValidMoves (makeMove u mm)).1 (-beta) (-alpha) (-tm)
             nm).state⟩ : SearchResult)
       else alphaBetaLoop recurse d' tm rest
         (if m < -(recurse (getValidMoves (makeMove u mm)).2
             (getValidMoves (makeMove u mm)).1 (-beta) (-alpha) (-tm) nm).score
          then -(recurse (getValidMoves (makeMove u mm)).2
             (getValidMoves (makeMove u mm)).1 (-beta) (-alpha) (-tm) nm).score
          else m)
         (if alpha < (if m < -(recurse (getValidMoves (makeMove u mm)).2
              (getValidMoves (makeMove u mm)).1 (-beta) (-alpha) (-tm) nm).score
            then -(recurse (getValidMoves (makeMove u mm)).2
              (getValidMoves (makeMove u mm)).1 (-beta) (-alpha) (-tm) nm).score
            else m)
          then (if m < -(recurse (getValidMoves (makeMove u mm)).2
              (getValidMoves (makeMove u mm)).1 (-beta) (-alpha) (-tm) nm).score
            then -(recurse (getValidMoves (makeMove u mm)).2
              (getValidMoves (makeMove u mm)).1 (-beta) (-alpha) (-tm) nm).score
            else m)
          else alpha)
         beta
         (if m < -(recurse (getValidMoves (makeMove u mm)).2
             (getValidMoves (makeMove u mm)).1 (-beta) (-alpha) (-tm) nm).score
          then (if d' + 1 = DEPTH then some mm
                else (recurse (getValidMoves (makeMove u mm)).2
                  (getValidMoves (makeMove u mm)).1 (-beta) (-alpha) (-tm)
                  nm).nextMove)
          else (recurse (getValidMoves (makeMove u mm)).2
            (getValidMoves (makeMove u mm)).1 (-beta) (-alpha) (-tm)
            nm).nextMove)
         (undoMove (recurse (getValidMoves (makeMove u mm)).2
             (getValidMoves (makeMove u mm)).1 (-beta) (-alpha) (-tm)
             nm).state)) := rfl


theorem tm_flip {gs : GameState} {tm : ℚ}
    (htm : tm = if gs.whiteToMove then (1 : ℚ) else -1) (m : Move) :
    -tm = (if (makeMove gs m).whiteToMove then (1 : ℚ) else -1) := by
  rw [makeMove_whiteToMove, htm]
  cases gs.whiteToMove
  · show -(if false = true then (1 : ℚ) else -1) =
      (if !false = true then (1 : ℚ) else -1)
    norm_num
  · show -(if true = true then (1 : ℚ) else -1) =
      (if !true = true then (1 : ℚ) else -1)
    norm_num

theorem tm_mate_mul (w : Bool) :
    (if w = true then (1 : ℚ) else -1) *
      (if w = true then -CHECKMATE else CHECKMATE) = -CHECKMATE := by
  cases w
  · show (-1 : ℚ) * CHECKMATE = -CHECKMATE
    norm_num
  · show (1 : ℚ) * -CHECKMATE = -CHECKMATE
    norm_num

/-- The `for` loop of `findMoveNegaMax` at any junk-flag twin `u` of the
clean position `gs` computes the clean fold of the children's negamax
values, and returns a state that again agrees with `gs` outside the flags.
The last hypothesis is the shadowing invariant: when the children are
evaluated at depth `0` and the threaded state carries a stale `checkMate`
flag, a sibling mate has already pushed the running maximum to
`CHECKMATE`. -/
theorem negaLoop_spec (d : Nat) : ∀ (gs : GameState), Inv gs →
    ∀ (tm : ℚ), tm = (if gs.whiteToMove then (1 : ℚ) else -1) →
    ∀ (rest : List Move), (∀ mm ∈ rest, mm ∈ (getValidMoves gs).1) →
    ∀ (u : GameState), GEq u gs → ∀ (m : ℚ) (nm : Option Move) (d' : Nat),
    (d = 0 → u.checkMate = true → CHECKMATE ≤ m) →
    (negaMaxLoop (fun gs2 mv2 tm2 nm2 => negaMaxAux d gs2 mv2 tm2 nm2) d' tm
        rest m nm u).score =
      rest.foldl
        (fun acc mm => max acc
          (-(bestScore d (getValidMoves (makeMove gs mm)).2
              (getValidMoves (makeMove gs mm)).1))) m ∧
    GEq (negaMaxLoop (fun gs2 mv2 tm2 nm2 => negaMaxAux d gs2 mv2 tm2 nm2) d'
        tm rest m nm u).state gs := by
  induction d with
  | zero =>
    intro gs hInv tm htm rest
    induction rest with
    | nil =>
      intro _ u hG m nm d' _
      exact ⟨rfl, hG⟩
    | cons mm rest ih =>
      intro hrest u hG m nm d' hSI
      have hmm : mm ∈ (getValidMoves gs).1 :=
        hrest mm (List.mem_cons_self mm rest)
      have hok : MoveOK gs mm := legal_moveOK gs hInv hmm
      have hInv' : Inv (makeMove gs mm) := inv_step gs hInv hmm
      have hcmF : (makeMove gs mm).checkMate = false := by
        rw [makeMove_checkMate]; exact hInv.flagC
      have hsmF : (makeMove gs mm).staleMate = false := by
        rw [makeMove_staleMate]; exact hInv.flagS
      have hmk := makeMove_GEq mm hG
      have h1 : (getValidMoves (makeMove u mm)).1 = (candidateMoves (makeMove gs mm)).filter
        (fun m2 => !badAfter (makeMove gs mm) m2) := by
        rw [hmk, getValidMoves_flags _ hInv']
      have h2 : (getValidMoves (makeMove u mm)).2 =
          (if (candidateMoves (makeMove gs mm)).filter
        (fun m2 => !badAfter (makeMove gs mm) m2) = [] then
            (if inCheck (makeMove gs mm) then
              { makeMove gs mm with checkMate := true,
                                    staleMate := u.staleMate }
             else
              { makeMove gs mm with checkMate := u.checkMate,
                                    staleMate := true })
           else
            { makeMove gs mm with checkMate := false,
                                  staleMate := false }) := by
        rw [hmk, getValidMoves_flags _ hInv']
      have hc1 : (getValidMoves (makeMove gs mm)).1 = (candidateMoves (makeMove gs mm)).filter
        (fun m2 => !badAfter (makeMove gs mm) m2) := by
        rw [getValidMoves_eq _ hInv']
      have hc2 : (getValidMoves (makeMove gs mm)).2 =
          (if (candidateMoves (makeMove gs mm)).filter
        (fun m2 => !badAfter (makeMove gs mm) m2) = [] then
            (if inCheck (makeMove gs mm) then
              { makeMove gs mm with checkMate := true }
             else { makeMove gs mm with staleMate := true })
           else
            { makeMove gs mm with checkMate := false,
                                  staleMate := false }) := by
        rw [getValidMoves_eq _ hInv']
      rw [negaMaxLoop_cons, List.foldl_cons]
      rw [h1, h2, hc1, hc2]
      by_cases hF0 : (candidateMoves (makeMove gs mm)).filter
        (fun m2 => !badAfter (makeMove gs mm) m2) = []
      · rw [if_pos hF0, if_pos hF0, hF0]
        by_cases hchk : inCheck (makeMove gs mm)
        · rw [if_pos hchk, if_pos hchk]
          have hRs : (negaMaxAux 0
              { makeMove gs mm with checkMate := true,
                                    staleMate := u.staleMate } []
              (-tm) nm).score = -CHECKMATE := by
            show -tm * scoreBoard
                { makeMove gs mm with checkMate := true,
                                      staleMate := u.staleMate } =
              -CHECKMATE
            rw [scoreBoard_mate, tm_flip htm mm]
            exact tm_mate_mul _
          have hcs : -(bestScore 0
              ({ makeMove gs mm with checkMate := true } : GameState) []) =
              CHECKMATE := by
            show -((if ({ makeMove gs mm with checkMate := true } :
                GameState).whiteToMove = true then (1 : ℚ) else -1) *
              scoreBoard { makeMove gs mm with checkMate := true }) =
              CHECKMATE
            rw [wtm_flagC, scoreBoard_mate1, tm_mate_mul]
            norm_num
          rw [hRs, neg_neg, hcs, ite_lt_max]
          have hRG : GEq (negaMaxAux 0
              { makeMove gs mm with checkMate := true,
                                    staleMate := u.staleMate } []
              (-tm) nm).state (makeMove gs mm) := GEq_flags _ _ _
          have hund := undo_twin gs mm hInv.wf hok hInv.rsync _ hRG
          refine ih (fun m2 h2m => hrest m2 (List.mem_cons_of_mem mm h2m))
            _ hund.1 _ _ d' ?_
          intro _ _
          exact le_max_right m CHECKMATE
        · rw [if_neg hchk, if_neg hchk]
          have hcs : -(bestScore 0
              ({ makeMove gs mm with staleMate := true } : GameState) []) =
              0 := by
            show -((if ({ makeMove gs mm with staleMate := true } :
                GameState).whiteToMove = true then (1 : ℚ) else -1) *
              scoreBoard { makeMove gs mm with staleMate := true }) = 0
            rw [scoreBoard_stale1 _ hcmF, mul_zero, neg_zero]
          cases hucm : u.checkMate
          · have hRs : (negaMaxAux 0
                { makeMove gs mm with checkMate := false,
                                      staleMate := true } []
                (-tm) nm).score = 0 := by
              show -tm * scoreBoard
                  { makeMove gs mm with checkMate := false,
                                        staleMate := true } = 0
              rw [scoreBoard_stale _ _ rfl, mul_zero]
            rw [hRs, neg_zero, hcs, ite_lt_max]
            have hRG : GEq (negaMaxAux 0
                { makeMove gs mm with checkMate := false,
                                      staleMate := true } []
                (-tm) nm).state (makeMove gs mm) := GEq_flags _ _ _
            have hund := undo_twin gs mm hInv.wf hok hInv.rsync _ hRG
            refine ih (fun m2 h2m => hrest m2 (List.mem_cons_of_mem mm h2m))
              _ hund.1 _ _ d' ?_
            intro _ hcmu
            rw [hund.2.1] at hcmu
            exact (Bool.false_ne_true hcmu).elim
          · have hCm : CHECKMATE ≤ m := hSI rfl hucm
            have hRs : (negaMaxAux 0
                { makeMove gs mm with checkMate := true,
                                      staleMate := true } []
                (-tm) nm).score = -CHECKMATE := by
              show -tm * scoreBoard
                  { makeMove gs mm with checkMate := true,
                                        staleMate := true } =
                -CHECKMATE
              rw [scoreBoard_mate, tm_flip htm mm]
              exact tm_mate_mul _
            rw [hRs, neg_neg, hcs, ite_lt_max]
            rw [max_eq_left hCm,
              max_eq_left (le_trans (by norm_num [CHECKMATE]) hCm)]
            have hRG : GEq (negaMaxAux 0
                { makeMove gs mm with checkMate := true,
                                      staleMate := true } []
                (-tm) nm).state (makeMove gs mm) := GEq_flags _ _ _
            have hund := undo_twin gs mm hInv.wf hok hInv.rsync _ hRG
            refine ih (fun m2 h2m => hrest m2 (List.mem_cons_of_mem mm h2m))
              _ hund.1 _ _ d' ?_
            intro _ _
            exact hCm
      · rw [if_neg hF0, if_neg hF0,
          flags_eta (makeMove gs mm) hcmF hsmF]
        have hRs : (negaMaxAux 0 (makeMove gs mm) ((candidateMoves (makeMove gs mm)).filter
        (fun m2 => !badAfter (makeMove gs mm) m2)) (-tm) nm).score =
            bestScore 0 (makeMove gs mm) ((candidateMoves (makeMove gs mm)).filter
        (fun m2 => !badAfter (makeMove gs mm) m2)) := by
          show -tm * scoreBoard (makeMove gs mm) =
            (if (makeMove gs mm).whiteToMove = true then (1 : ℚ) else -1) *
              scoreBoard (makeMove gs mm)
          rw [tm_flip htm mm]
        rw [hRs, ite_lt_max]
        have hRG : GEq (negaMaxAux 0 (makeMove gs mm) ((candidateMoves (makeMove gs mm)).filter
        (fun m2 => !badAfter (makeMove gs mm) m2))
            (-tm) nm).state (makeMove gs mm) := GEq_rfl _
        have hund := undo_twin gs mm hInv.wf hok hInv.rsync _ hRG
        refine ih (fun m2 h2m => hrest m2 (List.mem_cons_of_mem mm h2m))
          _ hund.1 _ _ d' ?_
        intro _ hcmu
        rw [hund.2.1] at hcmu
        have hcmu2 : (makeMove gs mm).checkMate = true := hcmu
        rw [hcmF] at hcmu2
        exact (Bool.false_ne_true hcmu2).elim
  | succ dd ihd =>
    intro gs hInv tm htm rest
    induction rest with
    | nil =>
      intro _ u hG m nm d' _
      exact ⟨rfl, hG⟩
    | cons mm rest ih =>
      intro hrest u hG m nm d' hSI
      have hmm : mm ∈ (getValidMoves gs).1 :=
        hrest mm (List.mem_cons_self mm rest)
      have hok : MoveOK gs mm := legal_moveOK gs hInv hmm
      have hInv' : Inv (makeMove gs mm) := inv_step gs hInv hmm
      have hcmF : (makeMove gs mm).checkMate = false := by
        rw [makeMove_checkMate]; exact hInv.flagC
      have hsmF : (makeMove gs mm).staleMate = false := by
        rw [makeMove_staleMate]; exact hInv.flagS
      have hmk := makeMove_GEq mm hG
      have h1 : (getValidMoves (makeMove u mm)).1 = (candidateMoves (makeMove gs mm)).filter
        (fun m2 => !badAfter (makeMove gs mm) m2) := by
        rw [hmk, getValidMoves_flags _ hInv']
      have h2 : (getValidMoves (makeMove u mm)).2 =
          (if (candidateMoves (makeMove gs mm)).filter
        (fun m2 => !badAfter (makeMove gs mm) m2) = [] then
            (if inCheck (makeMove gs mm) then
              { makeMove gs mm with checkMate := true,
                                    staleMate := u.staleMate }
             else
              { makeMove gs mm with checkMate := u.checkMate,
                                    staleMate := true })
           else
            { makeMove gs mm with checkMate := false,
                                  staleMate := false }) := by
        rw [hmk, getValidMoves_flags _ hInv']
      have hc1 : (getValidMoves (makeMove gs mm)).1 = (candidateMoves (makeMove gs mm)).filter
        (fun m2 => !badAfter (makeMove gs mm) m2) := by
        rw [getValidMoves_eq _ hInv']
      have hc2 : (getValidMoves (makeMove gs mm)).2 =
          (if (candidateMoves (makeMove gs mm)).filter
        (fun m2 => !badAfter (makeMove gs mm) m2) = [] then
            (if inCheck (makeMove gs mm) then
              { makeMove gs mm with checkMate := true }
             else { makeMove gs mm with staleMate := true })
           else
            { makeMove gs mm with checkMate := false,
                                  staleMate := false }) := by
        rw [getValidMoves_eq _ hInv']
      rw [negaMaxLoop_cons, List.foldl_cons]
      rw [h1, h2, hc1, hc2]
      by_cases hF0 : (candidateMoves (makeMove gs mm)).filter
        (fun m2 => !badAfter (makeMove gs mm) m2) = []
      · rw [if_pos hF0, if_pos hF0, hF0]
        by_cases hchk : inCheck (makeMove gs mm)
        · rw [if_pos hchk, if_pos hchk]
          have hRs : (negaMaxAux (dd + 1)
              { makeMove gs mm with checkMate := true,
                                    staleMate := u.staleMate } []
              (-tm) nm).score = -CHECKMATE := rfl
          have hcs : -(bestScore (dd + 1)
              ({ makeMove gs mm with checkMate := true } : GameState) []) =
              CHECKMATE := by
            show -(-CHECKMATE) = CHECKMATE
            norm_num
          rw [hRs, neg_neg, hcs, ite_lt_max]
          have hRG : GEq (negaMaxAux (dd + 1)
              { makeMove gs mm with checkMate := true,
                                    staleMate := u.staleMate } []
              (-tm) nm).state (makeMove gs mm) := GEq_flags _ _ _
          have hund := undo_twin gs mm hInv.wf hok hInv.rsync _ hRG
          refine ih (fun m2 h2m => hrest m2 (List.mem_cons_of_mem mm h2m))
            _ hund.1 _ _ d' ?_
          intro h0 _
          exact absurd h0 (Nat.succ_ne_zero dd)
        · rw [if_neg hchk, if_neg hchk]
          have hRs : (negaMaxAux (dd + 1)
              { makeMove gs mm with checkMate := u.checkMate,
                                    staleMate := true } []
              (-tm) nm).score = -CHECKMATE := rfl
          have hcs : -(bestScore (dd + 1)
              ({ makeMove gs mm with staleMate := true } : GameState) []) =
              CHECKMATE := by
            show -(-CHECKMATE) = CHECKMATE
            norm_num
          rw [hRs, neg_neg, hcs, ite_lt_max]
          have hRG : GEq (negaMaxAux (dd + 1)
              { makeMove gs mm with checkMate := u.checkMate,
                                    staleMate := true } []
              (-tm) nm).state (makeMove gs mm) := GEq_flags _ _ _
          have hund := undo_twin gs mm hInv.wf hok hInv.rsync _ hRG
          refine ih (fun m2 h2m => hrest m2 (List.mem_cons_of_mem mm h2m))
            _ hund.1 _ _ d' ?_
          intro h0 _
          exact absurd h0 (Nat.succ_ne_zero dd)
      · rw [if_neg hF0, if_neg hF0,
          flags_eta (makeMove gs mm) hcmF hsmF]
        have hleg2 : ∀ m2 ∈ ((candidateMoves (makeMove gs mm)).filter
            (fun m3 => !badAfter (makeMove gs mm) m3)),
            m2 ∈ (getValidMoves (makeMove gs mm)).1 := by
          intro m2 h2m
          rw [hc1]
          exact h2m
        have hvac : dd = 0 → (makeMove gs mm).checkMate = true →
            CHECKMATE ≤ -CHECKMATE := by
          intro _ hx
          rw [hcmF] at hx
          exact (Bool.false_ne_true hx).elim
        have hspec := ihd (makeMove gs mm) hInv' (-tm) (tm_flip htm mm)
          ((candidateMoves (makeMove gs mm)).filter
        (fun m2 => !badAfter (makeMove gs mm) m2)) hleg2 (makeMove gs mm) (GEq_rfl _) (-CHECKMATE) nm dd hvac
        have hRs : (negaMaxAux (dd + 1) (makeMove gs mm) ((candidateMoves (makeMove gs mm)).filter
        (fun m2 => !badAfter (makeMove gs mm) m2))
            (-tm) nm).score = bestScore (dd + 1) (makeMove gs mm) ((candidateMoves (makeMove gs mm)).filter
        (fun m2 => !badAfter (makeMove gs mm) m2)) :=
          hspec.1
        have hRG : GEq (negaMaxAux (dd + 1) (makeMove gs mm) ((candidateMoves (makeMove gs mm)).filter
        (fun m2 => !badAfter (makeMove gs mm) m2))
            (-tm) nm).state (makeMove gs mm) := hspec.2
        rw [hRs, ite_lt_max]
        have hund := undo_twin gs mm hInv.wf hok hInv.rsync _ hRG
        refine ih (fun m2 h2m => hrest m2 (List.mem_cons_of_mem mm h2m))
          _ hund.1 _ _ d' ?_
        intro h0 _
        exact absurd h0 (Nat.succ_ne_zero dd)


/-! ### The alpha-beta window arithmetic -/

theorem ab_break (f : Move → ℚ) (rest : List Move)
    (m alpha beta score vc : ℚ)
    (htr2 : score ≤ max alpha vc)
    (hmα : m ≤ alpha) (hαβ : alpha < beta)
    (hbr : beta ≤ max alpha (max m score)) :
    m ≤ max m score ∧
    max m score ≤ max alpha (rest.foldl (fun a x => max a (f x)) (max m vc)) ∧
    min beta (rest.foldl (fun a x => max a (f x)) (max m vc)) ≤ max m score ∧
    (alpha < rest.foldl (fun a x => max a (f x)) (max m vc) →
     rest.foldl (fun a x => max a (f x)) (max m vc) < beta →
     max m score = rest.foldl (fun a x => max a (f x)) (max m vc)) := by
  have hbs : beta ≤ score := by
    rcases le_or_lt beta score with h | h
    · exact h
    · exfalso
      have h1 : max m score < beta := max_lt (lt_of_le_of_lt hmα hαβ) h
      exact absurd hbr (not_le.mpr (max_lt hαβ h1))
  have hms : max m score = score :=
    max_eq_right (le_trans hmα (le_of_lt (lt_of_lt_of_le hαβ hbs)))
  have hsvc : score ≤ vc := by
    rcases max_choice alpha vc with he | he <;> rw [he] at htr2
    · exact absurd (lt_of_lt_of_le hαβ (le_trans hbs htr2)) (lt_irrefl alpha)
    · exact htr2
  have hWinit := foldl_max_ge_init f rest (max m vc)
  have hvW : vc ≤ rest.foldl (fun a x => max a (f x)) (max m vc) :=
    le_trans (le_max_right m vc) hWinit
  refine ⟨le_max_left m score, ?_, ?_, ?_⟩
  · rw [hms]
    exact le_trans (le_trans hsvc hvW) (le_max_right alpha _)
  · exact le_trans (min_le_left beta _) (le_trans hbs (le_of_eq hms.symm))
  · intro _ hWβ
    exact absurd (lt_of_lt_of_le hWβ (le_trans hbs (le_trans hsvc hvW)))
      (lt_irrefl _)

theorem ab_continue (f : Move → ℚ) (rest : List Move)
    (m alpha beta score vc L : ℚ)
    (htr1 : min beta vc ≤ score) (htr2 : score ≤ max alpha vc)
    (hmα : m ≤ alpha) (hαβ : alpha < beta)
    (hbr : ¬ beta ≤ max alpha (max m score))
    (hIH2 : max m score ≤ L)
    (hIH3 : L ≤ max (max alpha (max m score))
      (rest.foldl (fun a x => max a (f x)) (max m score)))
    (hIH4 : min beta (rest.foldl (fun a x => max a (f x)) (max m score)) ≤ L)
    (hIH5 : max alpha (max m score) <
        rest.foldl (fun a x => max a (f x)) (max m score) →
      rest.foldl (fun a x => max a (f x)) (max m score) < beta →
      L = rest.foldl (fun a x => max a (f x)) (max m score)) :
    m ≤ L ∧
    L ≤ max alpha (rest.foldl (fun a x => max a (f x)) (max m vc)) ∧
    min beta (rest.foldl (fun a x => max a (f x)) (max m vc)) ≤ L ∧
    (alpha < rest.foldl (fun a x => max a (f x)) (max m vc) →
     rest.foldl (fun a x => max a (f x)) (max m vc) < beta →
     L = rest.foldl (fun a x => max a (f x)) (max m vc)) := by
  by_cases hsα : score ≤ alpha
  · have hvs : vc ≤ score := by
      rcases min_choice beta vc with he | he <;> rw [he] at htr1
      · exact absurd (lt_of_le_of_lt htr1 (lt_of_le_of_lt hsα hαβ))
          (lt_irrefl beta)
      · exact htr1
    have hmsle : max m score ≤ alpha := max_le hmα hsα
    have habs := foldl_max_absorb f rest (max m vc) (max m score)
    rw [max_eq_right (max_le_max (le_refl m) hvs)] at habs
    rw [habs] at hIH3 hIH4 hIH5
    refine ⟨le_trans (le_max_left m score) hIH2, ?_, ?_, ?_⟩
    · refine le_trans hIH3 (max_le ?_ ?_)
      · rw [max_eq_left hmsle]
        exact le_max_left _ _
      · exact max_le (le_max_right _ _)
          (le_trans hmsle (le_max_left _ _))
    · exact le_trans (min_le_min (le_refl beta) (le_max_left _ _)) hIH4
    · intro hαW hWβ
      rw [max_eq_left (le_trans hmsle (le_of_lt hαW))] at hIH5
      refine hIH5 ?_ hWβ
      rw [max_eq_left hmsle]
      exact hαW
  · push_neg at hsα
    have hsβ : score < beta := lt_of_le_of_lt
      (le_trans (le_max_right m score) (le_max_right alpha _))
      (not_le.mp hbr)
    have h1 : score ≤ vc := by
      rcases max_choice alpha vc with he | he <;> rw [he] at htr2
      · exact absurd (lt_of_lt_of_le hsα htr2) (lt_irrefl alpha)
      · exact htr2
    have h2 : vc ≤ score := by
      rcases min_choice beta vc with he | he <;> rw [he] at htr1
      · exact absurd (lt_of_le_of_lt htr1 hsβ) (lt_irrefl beta)
      · exact htr1
    have hsv : score = vc := le_antisymm h1 h2
    rw [hsv] at hIH2 hIH3 hIH4 hIH5
    have hWinit := foldl_max_ge_init f rest (max m vc)
    refine ⟨le_trans (le_max_left m vc) hIH2, ?_, hIH4, ?_⟩
    · exact le_trans hIH3 (max_le (max_le (le_max_left _ _)
        (le_trans hWinit (le_max_right _ _))) (le_max_right _ _))
    · intro hαW hWβ
      have hle : L ≤ rest.foldl (fun a x => max a (f x)) (max m vc) :=
        le_trans hIH3 (max_le (max_le (le_of_lt hαW) hWinit) (le_refl _))
      have hge := hIH4
      rw [min_eq_right (le_of_lt hWβ)] at hge
      exact le_antisymm hle hge


/-- The `for` loop of `findMoveNegaMaxAlphaBeta` at any junk-flag twin `u` of
the clean position `gs` is a fail-hard alpha-beta pass over the clean
children's negamax values `W` (the same fold the unpruned search computes):
its score stays between `min beta W` and `max alpha W`, equals `W` whenever
`W` lies strictly inside the window, and the returned state again agrees
with `gs` outside the flags. -/
theorem abLoop_spec (d : Nat) : ∀ (gs : GameState), Inv gs →
    ∀ (tm : ℚ), tm = (if gs.whiteToMove then (1 : ℚ) else -1) →
    ∀ (rest : List Move), (∀ mm ∈ rest, mm ∈ (getValidMoves gs).1) →
    ∀ (u : GameState), GEq u gs →
    ∀ (m alpha beta : ℚ) (nm : Option Move) (d' : Nat),
    m ≤ alpha → -CHECKMATE ≤ alpha → alpha < beta → beta ≤ CHECKMATE →
    (d = 0 → u.checkMate = false) →
    GEq (alphaBetaLoop
        (fun gs2 mv2 a2 b2 tm2 nm2 => alphaBetaAux d gs2 mv2 a2 b2 tm2 nm2)
        d' tm rest m alpha beta nm u).state gs ∧
    (m ≤ (alphaBetaLoop
        (fun gs2 mv2 a2 b2 tm2 nm2 => alphaBetaAux d gs2 mv2 a2 b2 tm2 nm2)
        d' tm rest m alpha beta nm u).score ∧
     (alphaBetaLoop
        (fun gs2 mv2 a2 b2 tm2 nm2 => alphaBetaAux d gs2 mv2 a2 b2 tm2 nm2)
        d' tm rest m alpha beta nm u).score ≤
       max alpha (rest.foldl
         (fun acc mm => max acc
           (-(bestScore d (getValidMoves (makeMove gs mm)).2
               (getValidMoves (makeMove gs mm)).1))) m) ∧
     min beta (rest.foldl
         (fun acc mm => max acc
           (-(bestScore d (getValidMoves (makeMove gs mm)).2
               (getValidMoves (makeMove gs mm)).1))) m) ≤
       (alphaBetaLoop
        (fun gs2 mv2 a2 b2 tm2 nm2 => alphaBetaAux d gs2 mv2 a2 b2 tm2 nm2)
        d' tm rest m alpha beta nm u).score ∧
     (alpha < rest.foldl
         (fun acc mm => max acc
           (-(bestScore d (getValidMoves (makeMove gs mm)).2
               (getValidMoves (makeMove gs mm)).1))) m →
      rest.foldl
         (fun acc mm => max acc
           (-(bestScore d (getValidMoves (makeMove gs mm)).2
               (getValidMoves (makeMove gs mm)).1))) m < beta →
      (alphaBetaLoop
        (fun gs2 mv2 a2 b2 tm2 nm2 => alphaBetaAux d gs2 mv2 a2 b2 tm2 nm2)
        d' tm rest m alpha beta nm u).score =
        rest.foldl
         (fun acc mm => max acc
           (-(bestScore d (getValidMoves (makeMove gs mm)).2
               (getValidMoves (makeMove gs mm)).1))) m)) := by
  induction d with
  | zero =>
    intro gs hInv tm htm rest
    induction rest with
    | nil =>
      intro _ u hG m alpha beta nm d' hmα hCα hαβ hβC hcm0
      exact ⟨hG, le_refl m, le_max_right alpha m, min_le_right beta m,
        fun _ _ => rfl⟩
    | cons mm rest ih =>
      intro hrest u hG m alpha beta nm d' hmα hCα hαβ hβC hcm0
      have hmm : mm ∈ (getValidMoves gs).1 :=
        hrest mm (List.mem_cons_self mm rest)
      have hrest2 : ∀ m2 ∈ rest, m2 ∈ (getValidMoves gs).1 :=
        fun m2 h2m => hrest m2 (List.mem_cons_of_mem mm h2m)
      have hok : MoveOK gs mm := legal_moveOK gs hInv hmm
      have hInv' : Inv (makeMove gs mm) := inv_step gs hInv hmm
      have hcmF : (makeMove gs mm).checkMate = false := by
        rw [makeMove_checkMate]; exact hInv.flagC
      have hsmF : (makeMove gs mm).staleMate = false := by
        rw [makeMove_staleMate]; exact hInv.flagS
      have hmk := makeMove_GEq mm hG
      have h1 : (getValidMoves (makeMove u mm)).1 = ((candidateMoves (makeMove gs mm)).filter (fun m2 => !badAfter (makeMove gs mm) m2)) := by
        rw [hmk, getValidMoves_flags _ hInv']
      have h2 : (getValidMoves (makeMove u mm)).2 =
          (if ((candidateMoves (makeMove gs mm)).filter (fun m2 => !badAfter (makeMove gs mm) m2)) = [] then
            (if inCheck (makeMove gs mm) then { makeMove gs mm with checkMate := true, staleMate := u.staleMate }
             else { makeMove gs mm with checkMate := u.checkMate, staleMate := true })
           else
            { makeMove gs mm with checkMate := false,
                                  staleMate := false }) := by
        rw [hmk, getValidMoves_flags _ hInv']
      have hc1 : (getValidMoves (makeMove gs mm)).1 = ((candidateMoves (makeMove gs mm)).filter (fun m2 => !badAfter (makeMove gs mm) m2)) := by
        rw [getValidMoves_eq _ hInv']
      have hc2 : (getValidMoves (makeMove gs mm)).2 =
          (if ((candidateMoves (makeMove gs mm)).filter (fun m2 => !badAfter (makeMove gs mm) m2)) = [] then
            (if inCheck (makeMove gs mm) then
              { makeMove gs mm with checkMate := true }
             else { makeMove gs mm with staleMate := true })
           else
            { makeMove gs mm with checkMate := false,
                                  staleMate := false }) := by
        rw [getValidMoves_eq _ hInv']
      rw [alphaBetaLoop_cons, List.foldl_cons]
      rw [h1, h2, hc1, hc2]
      by_cases hF0 : ((candidateMoves (makeMove gs mm)).filter (fun m2 => !badAfter (makeMove gs mm) m2)) = []
      · rw [if_pos hF0, if_pos hF0, hF0]
        by_cases hchk : inCheck (makeMove gs mm)
        · rw [if_pos hchk, if_pos hchk]
          have hRs : (alphaBetaAux 0 { makeMove gs mm with checkMate := true, staleMate := u.staleMate } [] (-beta) (-alpha) (-tm) nm).score = -CHECKMATE := by
            show -tm * scoreBoard { makeMove gs mm with checkMate := true, staleMate := u.staleMate } = -CHECKMATE
            rw [scoreBoard_mate, tm_flip htm mm]
            exact tm_mate_mul _
          have hcs : -(bestScore 0
              ({ makeMove gs mm with checkMate := true } : GameState) []) =
              CHECKMATE := by
            show -((if ({ makeMove gs mm with checkMate := true } :
                GameState).whiteToMove = true then (1 : ℚ) else -1) *
              scoreBoard { makeMove gs mm with checkMate := true }) =
              CHECKMATE
            rw [wtm_flagC, scoreBoard_mate1, tm_mate_mul]
            norm_num
          rw [hRs, neg_neg, hcs, ite_lt_max, ite_lt_max]
          have hRG : GEq (alphaBetaAux 0 { makeMove gs mm with checkMate := true, staleMate := u.staleMate } [] (-beta) (-alpha) (-tm) nm).state (makeMove gs mm) := GEq_flags _ _ _
          have hund := undo_twin gs mm hInv.wf hok hInv.rsync _ hRG
          by_cases hbr : beta ≤ max alpha (max m CHECKMATE)
          · rw [if_pos hbr]
            exact ⟨hund.1, ab_break _ rest m alpha beta CHECKMATE CHECKMATE
              (le_max_right _ _) hmα hαβ hbr⟩
          · exact absurd (le_trans hβC (le_trans (le_max_right m CHECKMATE)
              (le_max_right alpha _))) hbr
        · rw [if_neg hchk, if_neg hchk]
          have hucm : u.checkMate = false := hcm0 rfl
          rw [hucm]
          have hRs : (alphaBetaAux 0 { makeMove gs mm with checkMate := false, staleMate := true } [] (-beta) (-alpha) (-tm) nm).score = 0 := by
            show -tm * scoreBoard { makeMove gs mm with checkMate := false, staleMate := true } = 0
            rw [scoreBoard_stale _ _ rfl, mul_zero]
          have hcs : -(bestScore 0
              ({ makeMove gs mm with staleMate := true } : GameState) []) =
              0 := by
            show -((if ({ makeMove gs mm with staleMate := true } :
                GameState).whiteToMove = true then (1 : ℚ) else -1) *
              scoreBoard { makeMove gs mm with staleMate := true }) = 0
            rw [scoreBoard_stale1 _ hcmF, mul_zero, neg_zero]
          rw [hRs, neg_zero, hcs, ite_lt_max, ite_lt_max]
          have hRG : GEq (alphaBetaAux 0 { makeMove gs mm with checkMate := false, staleMate := true } [] (-beta) (-alpha) (-tm) nm).state (makeMove gs mm) := GEq_flags _ _ _
          have hund := undo_twin gs mm hInv.wf hok hInv.rsync _ hRG
          by_cases hbr : beta ≤ max alpha (max m 0)
          · rw [if_pos hbr]
            exact ⟨hund.1, ab_break _ rest m alpha beta 0 0
              (le_max_right _ _) hmα hαβ hbr⟩
          · rw [if_neg hbr]
            obtain ⟨ihG, ih2, ih3, ih4, ih5⟩ := ih hrest2
              (undoMove (alphaBetaAux 0 { makeMove gs mm with checkMate := false, staleMate := true } [] (-beta) (-alpha) (-tm) nm).state) hund.1 (max m 0)
              (max alpha (max m 0)) beta
              (if m < (0 : ℚ) then
                (if d' + 1 = DEPTH then some mm else (alphaBetaAux 0 { makeMove gs mm with checkMate := false, staleMate := true } [] (-beta) (-alpha) (-tm) nm).nextMove)
               else (alphaBetaAux 0 { makeMove gs mm with checkMate := false, staleMate := true } [] (-beta) (-alpha) (-tm) nm).nextMove) d'
              (le_max_right _ _) (le_trans hCα (le_max_left _ _))
              (not_le.mp hbr) hβC
              (by intro _
                  rw [hund.2.1]
                  rfl)
            exact ⟨ihG, ab_continue _ rest m alpha beta 0 0 _
              (min_le_right _ _) (le_max_right _ _) hmα hαβ hbr
              ih2 ih3 ih4 ih5⟩
      · rw [if_neg hF0, if_neg hF0,
          flags_eta (makeMove gs mm) hcmF hsmF]
        have hRs : (alphaBetaAux 0 (makeMove gs mm) ((candidateMoves (makeMove gs mm)).filter (fun m2 => !badAfter (makeMove gs mm) m2)) (-beta) (-alpha) (-tm) nm).score =
            bestScore 0 (makeMove gs mm) ((candidateMoves (makeMove gs mm)).filter (fun m2 => !badAfter (makeMove gs mm) m2)) := by
          show -tm * scoreBoard (makeMove gs mm) =
            (if (makeMove gs mm).whiteToMove = true then (1 : ℚ) else -1) *
              scoreBoard (makeMove gs mm)
          rw [tm_flip htm mm]
        rw [hRs, ite_lt_max, ite_lt_max]
        have hRG : GEq (alphaBetaAux 0 (makeMove gs mm) ((candidateMoves (makeMove gs mm)).filter (fun m2 => !badAfter (makeMove gs mm) m2)) (-beta) (-alpha) (-tm) nm).state (makeMove gs mm) := GEq_rfl _
        have hund := undo_twin gs mm hInv.wf hok hInv.rsync _ hRG
        by_cases hbr : beta ≤
          max alpha (max m (-(bestScore 0 (makeMove gs mm) ((candidateMoves (makeMove gs mm)).filter (fun m2 => !badAfter (makeMove gs mm) m2)))))
        · rw [if_pos hbr]
          exact ⟨hund.1, ab_break _ rest m alpha beta
            (-(bestScore 0 (makeMove gs mm) ((candidateMoves (makeMove gs mm)).filter (fun m2 => !badAfter (makeMove gs mm) m2))))
            (-(bestScore 0 (makeMove gs mm) ((candidateMoves (makeMove gs mm)).filter (fun m2 => !badAfter (makeMove gs mm) m2))))
            (le_max_right _ _) hmα hαβ hbr⟩
        · rw [if_neg hbr]
          obtain ⟨ihG, ih2, ih3, ih4, ih5⟩ := ih hrest2
            (undoMove (alphaBetaAux 0 (makeMove gs mm) ((candidateMoves (makeMove gs mm)).filter (fun m2 => !badAfter (makeMove gs mm) m2)) (-beta) (-alpha) (-tm) nm).state) hund.1
            (max m (-(bestScore 0 (makeMove gs mm) ((candidateMoves (makeMove gs mm)).filter (fun m2 => !badAfter (makeMove gs mm) m2)))))
            (max alpha (max m (-(bestScore 0 (makeMove gs mm) ((candidateMoves (makeMove gs mm)).filter (fun m2 => !badAfter (makeMove gs mm) m2)))))) beta
            (if m < -(bestScore 0 (makeMove gs mm) ((candidateMoves (makeMove gs mm)).filter (fun m2 => !badAfter (makeMove gs mm) m2))) then
              (if d' + 1 = DEPTH then some mm else (alphaBetaAux 0 (makeMove gs mm) ((candidateMoves (makeMove gs mm)).filter (fun m2 => !badAfter (makeMove gs mm) m2)) (-beta) (-alpha) (-tm) nm).nextMove)
             else (alphaBetaAux 0 (makeMove gs mm) ((candidateMoves (makeMove gs mm)).filter (fun m2 => !badAfter (makeMove gs mm) m2)) (-beta) (-alpha) (-tm) nm).nextMove) d'
            (le_max_right _ _) (le_trans hCα (le_max_left _ _))
            (not_le.mp hbr) hβC
            (by intro _
                rw [hund.2.1]
                exact hcmF)
          exact ⟨ihG, ab_continue _ rest m alpha beta
            (-(bestScore 0 (makeMove gs mm) ((candidateMoves (makeMove gs mm)).filter (fun m2 => !badAfter (makeMove gs mm) m2))))
            (-(bestScore 0 (makeMove gs mm) ((candidateMoves (makeMove gs mm)).filter (fun m2 => !badAfter (makeMove gs mm) m2)))) _
            (min_le_right _ _) (le_max_right _ _) hmα hαβ hbr
            ih2 ih3 ih4 ih5⟩
  | succ dd ihd =>
    intro gs hInv tm htm rest
    induction rest with
    | nil =>
      intro _ u hG m alpha beta nm d' hmα hCα hαβ hβC hcm0
      exact ⟨hG, le_refl m, le_max_right alpha m, min_le_right beta m,
        fun _ _ => rfl⟩
    | cons mm rest ih =>
      intro hrest u hG m alpha beta nm d' hmα hCα hαβ hβC hcm0
      have hmm : mm ∈ (getValidMoves gs).1 :=
        hrest mm (List.mem_cons_self mm rest)
      have hrest2 : ∀ m2 ∈ rest, m2 ∈ (getValidMoves gs).1 :=
        fun m2 h2m => hrest m2 (List.mem_cons_of_mem mm h2m)
      have hok : MoveOK gs mm := legal_moveOK gs hInv hmm
      have hInv' : Inv (makeMove gs mm) := inv_step gs hInv hmm
      have hcmF : (makeMove gs mm).checkMate = false := by
        rw [makeMove_checkMate]; exact hInv.flagC
      have hsmF : (makeMove gs mm).staleMate = false := by
        rw [makeMove_staleMate]; exact hInv.flagS
      have hmk := makeMove_GEq mm hG
      have h1 : (getValidMoves (makeMove u mm)).1 = ((candidateMoves (makeMove gs mm)).filter (fun m2 => !badAfter (makeMove gs mm) m2)) := by
        rw [hmk, getValidMoves_flags _ hInv']
      have h2 : (getValidMoves (makeMove u mm)).2 =
          (if ((candidateMoves (makeMove gs mm)).filter (fun m2 => !badAfter (makeMove gs mm) m2)) = [] then
            (if inCheck (makeMove gs mm) then { makeMove gs mm with checkMate := true, staleMate := u.staleMate }
             else { makeMove gs mm with checkMate := u.checkMate, staleMate := true })
           else
            { makeMove gs mm with checkMate := false,
                                  staleMate := false }) := by
        rw [hmk, getValidMoves_flags _ hInv']
      have hc1 : (getValidMoves (makeMove gs mm)).1 = ((candidateMoves (makeMove gs mm)).filter (fun m2 => !badAfter (makeMove gs mm) m2)) := by
        rw [getValidMoves_eq _ hInv']
      have hc2 : (getValidMoves (makeMove gs mm)).2 =
          (if ((candidateMoves (makeMove gs mm)).filter (fun m2 => !badAfter (makeMove gs mm) m2)) = [] then
            (if inCheck (makeMove gs mm) then
              { makeMove gs mm with checkMate := true }
             else { makeMove gs mm with staleMate := true })
           else
            { makeMove gs mm with checkMate := false,
                                  staleMate := false }) := by
        rw [getValidMoves_eq _ hInv']
      rw [alphaBetaLoop_cons, List.foldl_cons]
      rw [h1, h2, hc1, hc2]
      by_cases hF0 : ((candidateMoves (makeMove gs mm)).filter (fun m2 => !badAfter (makeMove gs mm) m2)) = []
      · rw [if_pos hF0, if_pos hF0, hF0]
        by_cases hchk : inCheck (makeMove gs mm)
        · rw [if_pos hchk, if_pos hchk]
          have hRs : (alphaBetaAux (dd + 1) { makeMove gs mm with checkMate := true, staleMate := u.staleMate } [] (-beta) (-alpha) (-tm) nm).score = -CHECKMATE := rfl
          have hcs : -(bestScore (dd + 1)
              ({ makeMove gs mm with checkMate := true } : GameState) []) =
              CHECKMATE := by
            show -(-CHECKMATE) = CHECKMATE
            norm_num
          rw [hRs, neg_neg, hcs, ite_lt_max, ite_lt_max]
          have hRG : GEq (alphaBetaAux (dd + 1) { makeMove gs mm with checkMate := true, staleMate := u.staleMate } [] (-beta) (-alpha) (-tm) nm).state (makeMove gs mm) := GEq_flags _ _ _
          have hund := undo_twin gs mm hInv.wf hok hInv.rsync _ hRG
          by_cases hbr : beta ≤ max alpha (max m CHECKMATE)
          · rw [if_pos hbr]
            exact ⟨hund.1, ab_break _ rest m alpha beta CHECKMATE CHECKMATE
              (le_max_right _ _) hmα hαβ hbr⟩
          · exact absurd (le_trans hβC (le_trans (le_max_right m CHECKMATE)
              (le_max_right alpha _))) hbr
        · rw [if_neg hchk, if_neg hchk]
          have hRs : (alphaBetaAux (dd + 1) { makeMove gs mm with checkMate := u.checkMate, staleMate := true } [] (-beta) (-alpha) (-tm) nm).score = -CHECKMATE := rfl
          have hcs : -(bestScore (dd + 1)
              ({ makeMove gs mm with staleMate := true } : GameState) []) =
              CHECKMATE := by
            show -(-CHECKMATE) = CHECKMATE
            norm_num
          rw [hRs, neg_neg, hcs, ite_lt_max, ite_lt_max]
          have hRG : GEq (alphaBetaAux (dd + 1) { makeMove gs mm with checkMate := u.checkMate, staleMate := true } [] (-beta) (-alpha) (-tm) nm).state (makeMove gs mm) := GEq_flags _ _ _
          have hund := undo_twin gs mm hInv.wf hok hInv.rsync _ hRG
          by_cases hbr : beta ≤ max alpha (max m CHECKMATE)
          · rw [if_pos hbr]
            exact ⟨hund.1, ab_break _ rest m alpha beta CHECKMATE CHECKMATE
              (le_max_right _ _) hmα hαβ hbr⟩
          · exact absurd (le_trans hβC (le_trans (le_max_right m CHECKMATE)
              (le_max_right alpha _))) hbr
      · rw [if_neg hF0, if_neg hF0,
          flags_eta (makeMove gs mm) hcmF hsmF]
        have hsortmem : ∀ m2 ∈ (sortByKey (fun move => -(scoreMove move (makeMove gs mm))) ((candidateMoves (makeMove gs mm)).filter (fun m2 => !badAfter (makeMove gs mm) m2))),
            m2 ∈ (getValidMoves (makeMove gs mm)).1 := by
          intro m2 h2m
          rw [hc1]
          exact sortByKey_mem _ h2m
        obtain ⟨hGc, hcc2, hcc3, hcc4, hcc5⟩ := ihd (makeMove gs mm) hInv'
          (-tm) (tm_flip htm mm) (sortByKey (fun move => -(scoreMove move (makeMove gs mm))) ((candidateMoves (makeMove gs mm)).filter (fun m2 => !badAfter (makeMove gs mm) m2))) hsortmem (makeMove gs mm) (GEq_rfl _)
          (-CHECKMATE) (-beta) (-alpha) nm dd
          (neg_le_neg hβC) (neg_le_neg hβC) (neg_lt_neg hαβ) (by linarith)
          (fun _ => hcmF)
        have hWc : ((sortByKey (fun move => -(scoreMove move (makeMove gs mm))) ((candidateMoves (makeMove gs mm)).filter (fun m2 => !badAfter (makeMove gs mm) m2)))).foldl
            (fun acc mm2 => max acc
              (-(bestScore dd
                  (getValidMoves (makeMove (makeMove gs mm) mm2)).2
                  (getValidMoves (makeMove (makeMove gs mm) mm2)).1)))
            (-CHECKMATE) =
            bestScore (dd + 1) (makeMove gs mm) ((candidateMoves (makeMove gs mm)).filter (fun m2 => !badAfter (makeMove gs mm) m2)) :=
          foldl_max_perm _ (sortByKey_perm _ _) _
        rw [hWc] at hcc3 hcc4 hcc5
        have htr1 : min beta
            (-(bestScore (dd + 1) (makeMove gs mm) ((candidateMoves (makeMove gs mm)).filter (fun m2 => !badAfter (makeMove gs mm) m2)))) ≤
            -((alphaBetaAux (dd + 1) (makeMove gs mm) ((candidateMoves (makeMove gs mm)).filter (fun m2 => !badAfter (makeMove gs mm) m2)) (-beta) (-alpha) (-tm) nm).score) := by
          have h := neg_le_neg hcc3
          rw [← min_neg_neg, neg_neg] at h
          exact h
        have htr2 : -((alphaBetaAux (dd + 1) (makeMove gs mm) ((candidateMoves (makeMove gs mm)).filter (fun m2 => !badAfter (makeMove gs mm) m2)) (-beta) (-alpha) (-tm) nm).score) ≤
            max alpha (-(bestScore (dd + 1) (makeMove gs mm) ((candidateMoves (makeMove gs mm)).filter (fun m2 => !badAfter (makeMove gs mm) m2)))) := by
          have h := neg_le_neg hcc4
          rw [← max_neg_neg, neg_neg] at h
          exact h
        have htr3 : alpha <
            -(bestScore (dd + 1) (makeMove gs mm) ((candidateMoves (makeMove gs mm)).filter (fun m2 => !badAfter (makeMove gs mm) m2))) →
            -(bestScore (dd + 1) (makeMove gs mm) ((candidateMoves (makeMove gs mm)).filter (fun m2 => !badAfter (makeMove gs mm) m2))) < beta →
            -((alphaBetaAux (dd + 1) (makeMove gs mm) ((candidateMoves (makeMove gs mm)).filter (fun m2 => !badAfter (makeMove gs mm) m2)) (-beta) (-alpha) (-tm) nm).score) =
              -(bestScore (dd + 1) (makeMove gs mm) ((candidateMoves (makeMove gs mm)).filter (fun m2 => !badAfter (makeMove gs mm) m2))) := by
          intro hx hy
          have h := hcc5 (by linarith) (by linarith)
          exact congrArg Neg.neg h
        rw [ite_lt_max, ite_lt_max]
        have hRG : GEq (alphaBetaAux (dd + 1) (makeMove gs mm) ((candidateMoves (makeMove gs mm)).filter (fun m2 => !badAfter (makeMove gs mm) m2)) (-beta) (-alpha) (-tm) nm).state (makeMove gs mm) := hGc
        have hund := undo_twin gs mm hInv.wf hok hInv.rsync _ hRG
        by_cases hbr : beta ≤
          max alpha (max m (-((alphaBetaAux (dd + 1) (makeMove gs mm) ((candidateMoves (makeMove gs mm)).filter (fun m2 => !badAfter (makeMove gs mm) m2)) (-beta) (-alpha) (-tm) nm).score)))
        · rw [if_pos hbr]
          exact ⟨hund.1, ab_break _ rest m alpha beta
            (-((alphaBetaAux (dd + 1) (makeMove gs mm) ((candidateMoves (makeMove gs mm)).filter (fun m2 => !badAfter (makeMove gs mm) m2)) (-beta) (-alpha) (-tm) nm).score))
            (-(bestScore (dd + 1) (makeMove gs mm) ((candidateMoves (makeMove gs mm)).filter (fun m2 => !badAfter (makeMove gs mm) m2))))
            htr2 hmα hαβ hbr⟩
        · rw [if_neg hbr]
          obtain ⟨ihG, ih2, ih3, ih4, ih5⟩ := ih hrest2
            (undoMove (alphaBetaAux (dd + 1) (makeMove gs mm) ((candidateMoves (makeMove gs mm)).filter (fun m2 => !badAfter (makeMove gs mm) m2)) (-beta) (-alpha) (-tm) nm).state) hund.1
            (max m (-((alphaBetaAux (dd + 1) (makeMove gs mm) ((candidateMoves (makeMove gs mm)).filter (fun m2 => !badAfter (makeMove gs mm) m2)) (-beta) (-alpha) (-tm) nm).score)))
            (max alpha (max m (-((alphaBetaAux (dd + 1) (makeMove gs mm) ((candidateMoves (makeMove gs mm)).filter (fun m2 => !badAfter (makeMove gs mm) m2)) (-beta) (-alpha) (-tm) nm).score)))) beta
            (if m < -((alphaBetaAux (dd + 1) (makeMove gs mm) ((candidateMoves (makeMove gs mm)).filter (fun m2 => !badAfter (makeMove gs mm) m2)) (-beta) (-alpha) (-tm) nm).score) then
              (if d' + 1 = DEPTH then some mm else (alphaBetaAux (dd + 1) (makeMove gs mm) ((candidateMoves (makeMove gs mm)).filter (fun m2 => !badAfter (makeMove gs mm) m2)) (-beta) (-alpha) (-tm) nm).nextMove)
             else (alphaBetaAux (dd + 1) (makeMove gs mm) ((candidateMoves (makeMove gs mm)).filter (fun m2 => !badAfter (makeMove gs mm) m2)) (-beta) (-alpha) (-tm) nm).nextMove) d'
            (le_max_right _ _) (le_trans hCα (le_max_left _ _))
            (not_le.mp hbr) hβC
            (fun h0 => absurd h0 (Nat.succ_ne_zero dd))
          exact ⟨ihG, ab_continue _ rest m alpha beta
            (-((alphaBetaAux (dd + 1) (makeMove gs mm) ((candidateMoves (makeMove gs mm)).filter (fun m2 => !badAfter (makeMove gs mm) m2)) (-beta) (-alpha) (-tm) nm).score))
            (-(bestScore (dd + 1) (makeMove gs mm) ((candidateMoves (makeMove gs mm)).filter (fun m2 => !badAfter (makeMove gs mm) m2)))) _
            htr1 htr2 hmα hαβ hbr ih2 ih3 ih4 ih5⟩


/-- `findMoveNegaMax` computes the clean negamax value `bestScore` at every
invariant position, for the turn multiplier the caller passes. -/
theorem negaAux_score (d : Nat) (gs : GameState) (hInv : Inv gs)
    (tm : ℚ) (htm : tm = if gs.whiteToMove then (1 : ℚ) else -1)
    (mv : List Move) (hmv : ∀ m ∈ mv, m ∈ (getValidMoves gs).1)
    (nm : Option Move) :
    (negaMaxAux d gs mv tm nm).score = bestScore d gs mv := by
  cases d with
  | zero =>
    show tm * scoreBoard gs =
      (if gs.whiteToMove = true then (1 : ℚ) else -1) * scoreBoard gs
    rw [htm]
  | succ dd =>
    exact (negaLoop_spec dd gs hInv tm htm mv hmv gs (GEq_rfl _)
      (-CHECKMATE) nm dd
      (by intro _ hx
          rw [hInv.flagC] at hx
          exact (Bool.false_ne_true hx).elim)).1

/-- `findMoveNegaMaxAlphaBeta` from the full window computes the same clean
negamax value `bestScore`: the fail-hard bounds collapse because
`bestScore` always lies inside `[-CHECKMATE, CHECKMATE]`. -/
theorem abAux_score (d : Nat) (gs : GameState) (hInv : Inv gs)
    (tm : ℚ) (htm : tm = if gs.whiteToMove then (1 : ℚ) else -1)
    (mv : List Move) (hmv : ∀ m ∈ mv, m ∈ (getValidMoves gs).1)
    (nm : Option Move) :
    (alphaBetaAux d gs mv (-CHECKMATE) CHECKMATE tm nm).score =
      bestScore d gs mv := by
  cases d with
  | zero =>
    show tm * scoreBoard gs =
      (if gs.whiteToMove = true then (1 : ℚ) else -1) * scoreBoard gs
    rw [htm]
  | succ dd =>
    have hsortmem : ∀ m2 ∈ sortByKey (fun move => -(scoreMove move gs)) mv,
        m2 ∈ (getValidMoves gs).1 :=
      fun m2 h => hmv m2 (sortByKey_mem _ h)
    obtain ⟨hG, h2, h3, h4, h5⟩ := abLoop_spec dd gs hInv tm htm
      (sortByKey (fun move => -(scoreMove move gs)) mv) hsortmem gs
      (GEq_rfl _) (-CHECKMATE) (-CHECKMATE) CHECKMATE nm dd (le_refl _)
      (le_refl _) (by norm_num [CHECKMATE]) (le_refl _)
      (fun _ => hInv.flagC)
    have hW : (sortByKey (fun move => -(scoreMove move gs)) mv).foldl
        (fun acc mm => max acc
          (-(bestScore dd (getValidMoves (makeMove gs mm)).2
              (getValidMoves (makeMove gs mm)).1)))
        (-CHECKMATE) = bestScore (dd + 1) gs mv :=
      foldl_max_perm _ (sortByKey_perm _ _) _
    rw [hW] at h3 h4
    have hB := bestScore_bound (dd + 1) gs gs hInv (GEq_rfl _) mv hmv
    rw [max_eq_right hB.1] at h3
    rw [min_eq_right hB.2] at h4
    exact le_antisymm h3 h4

/-! ## The claims -/

/-- `e2-e4` is a legal opening move. -/
theorem mem_e4 : moveE4 ∈ (getValidMoves initialGameState).1 := by decide

/-- `Nb8-a6` is legal after `1. e4`. -/
theorem mem_na6 : moveNa6 ∈ (getValidMoves stateE4).1 := by decide

/-- C1 (counterexample): after the reachable position `1. e4` (whose
en-passant target is set) a legal knight move applied and undone does NOT
restore the en-passant target: `undoMove` always clears it. -/
theorem C1_roundtrip_counterexample :
    Reachable stateE4 ∧ moveNa6 ∈ (getValidMoves stateE4).1 ∧
    stateE4.enpassantPossible = some (5, 4) ∧
    (undoMove (makeMove stateE4 moveNa6)).enpassantPossible = none ∧
    undoMove (makeMove stateE4 moveNa6) ≠ stateE4 :=
  ⟨Reachable.step Reachable.init mem_e4, mem_na6, by decide, by decide,
   by decide⟩

/-- C1 (amended): for every reachable state and every legal move, applying
`makeMove` and then `undoMove` restores the full state except that the
en-passant target is always cleared to `none`; in particular board,
side-to-move, king locations and castling rights are restored exactly. -/
theorem C1_roundtrip (s : GameState) (h : Reachable s) {m : Move}
    (hm : m ∈ (getValidMoves s).1) :
    undoMove (makeMove s m) = { s with enpassantPossible := none } := by
  have hInv := reachable_inv h
  rw [getValidMoves_eq s hInv] at hm
  exact undo_make s m hInv.wf
    (candidate_moveOK s hInv (List.mem_filter.mp hm).1) hInv.rsync

/-- C1 witness: the round-trip at the initial position with `e2-e4`. -/
theorem C1_roundtrip_witness :
    undoMove (makeMove initialGameState moveE4) =
      { initialGameState with enpassantPossible := none } :=
  C1_roundtrip initialGameState Reachable.init mem_e4

/-- C2 (counterexample): at `abTieState` the depth-`DEPTH` unpruned negamax
search and the full-window alpha-beta search record different best moves. -/
theorem C2_move_counterexample :
    (findMoveNegaMax abTieState abTieMoves DEPTH 1 none).nextMove ≠
      (findMoveNegaMaxAlphaBeta abTieState abTieMoves DEPTH (-CHECKMATE)
        CHECKMATE 1 none).nextMove := by
  with_unfolding_all decide

/-- C2 (amended): for every reachable position, every passed list of legal
moves and every depth, the unpruned negamax search and the alpha-beta search
started from the full window `(-CHECKMATE, CHECKMATE)` return the same
score — but the recorded best move may differ (see the counterexample). -/
theorem C2_score_agreement (gs : GameState) (h : Reachable gs)
    (mv : List Move) (hmv : ∀ m ∈ mv, m ∈ (getValidMoves gs).1)
    (d : Nat) (nm1 nm2 : Option Move) :
    (findMoveNegaMax gs mv d (if gs.whiteToMove then (1 : ℚ) else -1)
        nm1).score =
      (findMoveNegaMaxAlphaBeta gs mv d (-CHECKMATE) CHECKMATE
        (if gs.whiteToMove then (1 : ℚ) else -1) nm2).score := by
  have hInv := reachable_inv h
  unfold findMoveNegaMax findMoveNegaMaxAlphaBeta
  rw [negaAux_score d gs hInv _ rfl mv hmv nm1,
    abAux_score d gs hInv _ rfl mv hmv nm2]

/-- C2 witness: the two searches agree on the score at the initial position
with its full legal-move list at the process depth. -/
theorem C2_score_agreement_witness :
    (findMoveNegaMax initialGameState (getValidMoves initialGameState).1
        DEPTH (if initialGameState.whiteToMove then (1 : ℚ) else -1)
        none).score =
      (findMoveNegaMaxAlphaBeta initialGameState
        (getValidMoves initialGameState).1 DEPTH (-CHECKMATE) CHECKMATE
        (if initialGameState.whiteToMove then (1 : ℚ) else -1) none).score :=
  C2_score_agreement initialGameState Reachable.init _ (fun m hm => hm)
    DEPTH none none

/-- C3 (counterexample): at `noMoveState` the legal-move list is non-empty,
yet `findBestMove` returns no move (every root move scores `-CHECKMATE`, so
no strict improvement is ever recorded). -/
theorem C3_none_counterexample :
    (getValidMoves noMoveState).1 ≠ [] ∧
    (findBestMove noMoveState (getValidMoves noMoveState).1).1 = none :=
  ⟨by decide, by with_unfolding_all decide⟩

/-- C3 (amended): `findBestMove` returns the recorded best move; on an empty
move list it returns `none`, but it can also return `none` on a non-empty
list (see the counterexample); whenever it returns `none` the caller falls
back to random selection, and otherwise the caller plays the returned move. -/
theorem C3_fallback (gs : GameState) (validMoves : List Move) (k : Nat) :
    (validMoves = [] → (findBestMove gs validMoves).1 = none) ∧
    ((findBestMove gs validMoves).1 = none →
      aiSelectMove gs validMoves k = findRandomMove validMoves k) ∧
    (∀ m, (findBestMove gs validMoves).1 = some m →
      aiSelectMove gs validMoves k = m) := by
  refine ⟨?_, ?_, ?_⟩
  · rintro rfl
    rfl
  · intro hn
    unfold aiSelectMove
    rw [hn]
  · intro m hm
    unfold aiSelectMove
    rw [hm]

/-- C4 (counterexample): after `1. e4 Na6` and one `undoMove`, the move log
ends with the double pawn advance `e2-e4` but the en-passant target is
`none`: the "if" direction of the en-passant invariant fails once `undoMove`
is allowed. -/
theorem C4_ep_counterexample :
    ReachableMU (undoMove (makeMove stateE4 moveNa6)) ∧
    (undoMove (makeMove stateE4 moveNa6)).movelog.getLast? = some moveE4 ∧
    moveE4.pieceMoved.kind = some Kind.pawn ∧
    absDiff moveE4.startRow moveE4.endRow = 2 ∧
    (undoMove (makeMove stateE4 moveNa6)).enpassantPossible = none :=
  ⟨ReachableMU.undo
    (ReachableMU.step (ReachableMU.step ReachableMU.init mem_e4) mem_na6),
   by decide, by decide, by decide, by decide⟩

/-- C4 (amended): in every state reachable by any interleaving of `makeMove`
and `undoMove`, a set en-passant target implies that the last logged move is
a two-square pawn advance and that the target is the square the pawn passed
over; the converse direction is refuted by the counterexample. -/
theorem C4_ep_only_if {s : GameState} (h : ReachableMU s) (er ec : Nat)
    (hep : s.enpassantPossible = some (er, ec)) :
    ∃ mlast, s.movelog.getLast? = some mlast ∧
      mlast.pieceMoved.kind = some Kind.pawn ∧
      absDiff mlast.startRow mlast.endRow = 2 ∧
      er = (mlast.startRow + mlast.endRow) / 2 ∧ ec = mlast.endCol := by
  revert hep
  induction h with
  | init =>
    intro hep
    cases hep
  | @step s1 m hr hm ih =>
    intro hep
    rw [makeMove_ep] at hep
    by_cases hd : m.pieceMoved.kind = some Kind.pawn ∧
        absDiff m.startRow m.endRow = 2
    · rw [if_pos hd] at hep
      have hpair := Option.some.inj hep
      rw [Prod.mk.injEq] at hpair
      refine ⟨m, ?_, hd.1, hd.2, hpair.1.symm, hpair.2.symm⟩
      rw [makeMove_movelog]
      exact List.getLast?_concat _
    · rw [if_neg hd] at hep
      cases hep
  | @undo s1 hr ih =>
    intro hep
    rcases hlog : s1.movelog.getLast? with _ | mlast
    · have hid : undoMove s1 = s1 := by
        unfold undoMove
        rw [hlog]
      rw [hid] at hep ⊢
      exact ih hep
    · rw [undoMove_eq s1 mlast hlog] at hep ⊢
      simp only [] at hep
      by_cases hd : mlast.pieceMoved.kind = some Kind.pawn ∧
          absDiff mlast.startRow mlast.endRow = 2
      · rw [if_pos hd] at hep
        cases hep
      · rw [if_neg hd] at hep
        obtain ⟨ml, h1, h2, h3, h4, h5⟩ := ih hep
        rw [hlog] at h1
        obtain rfl := Option.some.inj h1
        exact absurd ⟨h2, h3⟩ hd

/-- C4 witness: the invariant evaluated at the position after `1. e4`. -/
theorem C4_ep_only_if_witness :
    ∃ mlast, stateE4.movelog.getLast? = some mlast ∧
      mlast.pieceMoved.kind = some Kind.pawn ∧
      absDiff mlast.startRow mlast.endRow = 2 ∧
      5 = (mlast.startRow + mlast.endRow) / 2 ∧ 4 = mlast.endCol :=
  C4_ep_only_if (ReachableMU.step ReachableMU.init mem_e4) 5 4 (by decide)

/-- C5 (counterexample): in the initial position the attack test reports
square `(3, 0)` as attacked, although the only generated opposing moves
ending there are straight non-capturing pawn advances — a false positive
under chess rules. -/
theorem C5_attack_counterexample :
    SquareUnderAttack initialGameState 3 0 = true ∧
    ∀ m ∈ getAllPossibleMovees
        { initialGameState with whiteToMove := !initialGameState.whiteToMove },
      m.endRow = 3 ∧ m.endCol = 0 →
        m.pieceMoved.kind = some Kind.pawn ∧ m.startCol = m.endCol ∧
        m.pieceCaptured = Piece.empty :=
  ⟨by decide, by decide⟩

/-- C5 (amended): straight pawn moves (start and end in the same column) are
generated only onto empty squares and never capture, so the false-positive
attacks the test reports for them concern empty squares only. -/
theorem C5_pushes_only_empty (s : GameState) (r c : Nat) {m : Move}
    (h : m ∈ getPawnMoves s r c) (hcol : m.startCol = m.endCol) :
    bget s.board m.endRow m.endCol = Piece.empty ∧
    m.pieceCaptured = Piece.empty := by
  by_cases hw : s.whiteToMove = true
  · rcases getPawnMoves_mem_white hw h with
      ⟨he, rfl⟩ | ⟨h6, h1e, h2e, rfl⟩ | ⟨hc1, -, rfl⟩ | ⟨hc1, -, -, rfl⟩ |
      ⟨hc7, -, rfl⟩ | ⟨hc7, -, -, rfl⟩
    · exact ⟨he, by rw [mkMove_pieceCaptured_plain]; exact he⟩
    · exact ⟨h2e, by rw [mkMove_pieceCaptured_plain]; exact h2e⟩
    · simp only [mkMove_startCol, mkMove_endCol] at hcol
      omega
    · simp only [mkMove_startCol, mkMove_endCol] at hcol
      omega
    · simp only [mkMove_startCol, mkMove_endCol] at hcol
      omega
    · simp only [mkMove_startCol, mkMove_endCol] at hcol
      omega
  · have hw2 : s.whiteToMove = false := Bool.eq_false_iff.mpr hw
    rcases getPawnMoves_mem_black hw2 h with
      ⟨he, rfl⟩ | ⟨h6, h1e, h2e, rfl⟩ | ⟨hc1, -, rfl⟩ | ⟨hc1, -, -, rfl⟩ |
      ⟨hc7, -, rfl⟩ | ⟨hc7, -, -, rfl⟩
    · exact ⟨he, by rw [mkMove_pieceCaptured_plain]; exact he⟩
    · exact ⟨h2e, by rw [mkMove_pieceCaptured_plain]; exact h2e⟩
    · simp only [mkMove_startCol, mkMove_endCol] at hcol
      omega
    · simp only [mkMove_startCol, mkMove_endCol] at hcol
      omega
    · simp only [mkMove_startCol, mkMove_endCol] at hcol
      omega
    · simp only [mkMove_startCol, mkMove_endCol] at hcol
      omega

/-- C5 witness: the push `e2-e3` from the initial position ends on an empty
square and captures nothing. -/
theorem C5_pushes_only_empty_witness :
    bget initialGameState.board c5move.endRow c5move.endCol = Piece.empty ∧
    c5move.pieceCaptured = Piece.empty :=
  C5_pushes_only_empty initialGameState 6 4 (by decide) (by decide)

/-- C6: for every reachable position, after `getValidMoves` an empty returned
list means the checkmate flag is set exactly when the side to move is in
check and the stalemate flag exactly when it is not; a non-empty list leaves
both flags false, and the two flags are never both set. -/
theorem C6_terminal_flags (s : GameState) (h : Reachable s) :
    ((getValidMoves s).1 = [] →
      (((getValidMoves s).2.checkMate = true ↔ inCheck s = true) ∧
       ((getValidMoves s).2.staleMate = true ↔ inCheck s = false))) ∧
    ((getValidMoves s).1 ≠ [] →
      (getValidMoves s).2.checkMate = false ∧
      (getValidMoves s).2.staleMate = false) ∧
    ¬((getValidMoves s).2.checkMate = true ∧
      (getValidMoves s).2.staleMate = true) := by
  have hInv := reachable_inv h
  rw [getValidMoves_eq s hInv]
  simp only []
  by_cases hnil : (candidateMoves s).filter (fun m => !badAfter s m) = []
  · rw [if_pos hnil]
    by_cases hchk : inCheck s = true
    · rw [if_pos hchk]
      refine ⟨fun _ => ⟨⟨fun _ => hchk, fun _ => rfl⟩, ?_, ?_⟩,
        fun hne => absurd hnil hne, ?_⟩
      · intro hx
        exact absurd (show s.staleMate = true from hx)
          (by rw [hInv.flagS]; exact Bool.false_ne_true)
      · intro hx
        rw [hchk] at hx
        cases hx
      · intro hx
        exact absurd (show s.staleMate = true from hx.2)
          (by rw [hInv.flagS]; exact Bool.false_ne_true)
    · have hchk2 : inCheck s = false := Bool.eq_false_iff.mpr hchk
      rw [if_neg hchk]
      refine ⟨fun _ => ⟨⟨?_, ?_⟩, fun _ => hchk2, fun _ => rfl⟩,
        fun hne => absurd hnil hne, ?_⟩
      · intro hx
        exact absurd (show s.checkMate = true from hx)
          (by rw [hInv.flagC]; exact Bool.false_ne_true)
      · intro hx
        rw [hchk2] at hx
        cases hx
      · intro hx
        exact absurd (show s.checkMate = true from hx.1)
          (by rw [hInv.flagC]; exact Bool.false_ne_true)
  · rw [if_neg hnil]
    refine ⟨fun hx => absurd hx hnil, fun _ => ⟨rfl, rfl⟩, ?_⟩
    intro hx
    exact Bool.false_ne_true hx.1

/-- C6 witness: the initial position has legal moves and clean flags. -/
theorem C6_terminal_flags_witness :
    ((getValidMoves initialGameState).1 = [] →
      (((getValidMoves initialGameState).2.checkMate = true ↔
        inCheck initialGameState = true) ∧
       ((getValidMoves initialGameState).2.staleMate = true ↔
        inCheck initialGameState = false))) ∧
    ((getValidMoves initialGameState).1 ≠ [] →
      (getValidMoves initialGameState).2.checkMate = false ∧
      (getValidMoves initialGameState).2.staleMate = false) ∧
    ¬((getValidMoves initialGameState).2.checkMate = true ∧
      (getValidMoves initialGameState).2.staleMate = true) :=
  C6_terminal_flags initialGameState Reachable.init

/-- C7: applying a move revokes both castling rights of a side when its king
moves, revokes the matching right when a rook moves from its home square
(column 0 queenside, column 7 kingside, row by color), revokes the
corresponding right when a rook is captured on its home square, and never
sets a revoked right back to true. -/
theorem C7_castle_rights (s : GameState) (m : Move) :
    ((m.pieceMoved = Piece.mk Color.white Kind.king →
        (makeMove s m).currentCastlingRights.wks = false ∧
        (makeMove s m).currentCastlingRights.wqs = false) ∧
     (m.pieceMoved = Piece.mk Color.black Kind.king →
        (makeMove s m).currentCastlingRights.bks = false ∧
        (makeMove s m).currentCastlingRights.bqs = false)) ∧
    ((m.pieceMoved = Piece.mk Color.white Kind.rook → m.startRow = 7 →
        (m.startCol = 0 → (makeMove s m).currentCastlingRights.wqs = false) ∧
        (m.startCol = 7 → (makeMove s m).currentCastlingRights.wks = false)) ∧
     (m.pieceMoved = Piece.mk Color.black Kind.rook → m.startRow = 0 →
        (m.startCol = 0 → (makeMove s m).currentCastlingRights.bqs = false) ∧
        (m.startCol = 7 → (makeMove s m).currentCastlingRights.bks = false))) ∧
    ((m.pieceCaptured = Piece.mk Color.white Kind.rook → m.endRow = 7 →
        (m.endCol = 0 → (makeMove s m).currentCastlingRights.wqs = false) ∧
        (m.endCol = 7 → (makeMove s m).currentCastlingRights.wks = false)) ∧
     (m.pieceCaptured = Piece.mk Color.black Kind.rook → m.endRow = 0 →
        (m.endCol = 0 → (makeMove s m).currentCastlingRights.bqs = false) ∧
        (m.endCol = 7 → (makeMove s m).currentCastlingRights.bks = false))) ∧
    (((makeMove s m).currentCastlingRights.wks = true →
        s.currentCastlingRights.wks = true) ∧
     ((makeMove s m).currentCastlingRights.wqs = true →
        s.currentCastlingRights.wqs = true) ∧
     ((makeMove s m).currentCastlingRights.bks = true →
        s.currentCastlingRights.bks = true) ∧
     ((makeMove s m).currentCastlingRights.bqs = true →
        s.currentCastlingRights.bqs = true)) := by
  rw [makeMove_rights]
  exact ⟨⟨fun h => ucr_king_w _ m h, fun h => ucr_king_b _ m h⟩,
    ⟨fun h h7 => ucr_rook_w _ m h h7, fun h h0 => ucr_rook_b _ m h h0⟩,
    ⟨fun h h7 => ucr_cap_w _ m h h7, fun h h0 => ucr_cap_b _ m h h0⟩,
    ⟨(ucr_mono _ m).1.1, (ucr_mono _ m).1.2,
     (ucr_mono _ m).2.1, (ucr_mono _ m).2.2⟩⟩

/-- C8: for every reachable state, `getValidMoves` returns a state whose
board, side-to-move, king locations, en-passant target, castling rights,
move log and castling-rights log equal the input state's; only the
checkmate and stalemate flags may change. -/
theorem C8_frame (s : GameState) (h : Reachable s) :
    (getValidMoves s).2.board = s.board ∧
    (getValidMoves s).2.whiteToMove = s.whiteToMove ∧
    (getValidMoves s).2.whiteKingLocation = s.whiteKingLocation ∧
    (getValidMoves s).2.blackKingLocation = s.blackKingLocation ∧
    (getValidMoves s).2.enpassantPossible = s.enpassantPossible ∧
    (getValidMoves s).2.currentCastlingRights = s.currentCastlingRights ∧
    (getValidMoves s).2.movelog = s.movelog ∧
    (getValidMoves s).2.CastleRightLog = s.CastleRightLog := by
  rw [getValidMoves_eq s (reachable_inv h)]
  split_ifs <;> exact ⟨rfl, rfl, rfl, rfl, rfl, rfl, rfl, rfl⟩

/-- C8 witness: the frame property at the initial position. -/
theorem C8_frame_witness :
    (getValidMoves initialGameState).2.board = initialGameState.board ∧
    (getValidMoves initialGameState).2.whiteToMove =
      initialGameState.whiteToMove ∧
    (getValidMoves initialGameState).2.whiteKingLocation =
      initialGameState.whiteKingLocation ∧
    (getValidMoves initialGameState).2.blackKingLocation =
      initialGameState.blackKingLocation ∧
    (getValidMoves initialGameState).2.enpassantPossible =
      initialGameState.enpassantPossible ∧
    (getValidMoves initialGameState).2.currentCastlingRights =
      initialGameState.currentCastlingRights ∧
    (getValidMoves initialGameState).2.movelog = initialGameState.movelog ∧
    (getValidMoves initialGameState).2.CastleRightLog =
      initialGameState.CastleRightLog :=
  C8_frame initialGameState Reachable.init

/-- C9 (counterexample): a plain diagonal pawn capture of a pawn scores
`11 = 10·1 − 1 + 2` rather than the pure MVV-LVA value `9`: the
"diagonal pawn" bonus is also added to capturing moves. -/
theorem C9_scoreMove_counterexample :
    scoreMove c9move initialGameState = 11 ∧
    c9move.pieceCaptured ≠ Piece.empty ∧
    c9move.isPawnPromotion = false ∧
    10 * pieceVal c9move.pieceCaptured - pieceVal c9move.pieceMoved = 9 := by
  with_unfolding_all decide

/-- C9 (amended): `scoreMove` is exactly the MVV-LVA term for captures plus a
flat `9` for promotions plus a flat `2` for every diagonal pawn move —
captures included, so capturing pawn moves get the bonus too. -/
theorem C9_scoreMove_characterization (m : Move) (gs : GameState) :
    scoreMove m gs =
      (if m.pieceCaptured ≠ Piece.empty then
        10 * pieceVal m.pieceCaptured - pieceVal m.pieceMoved else 0) +
      (if m.pieceMoved.kind = some Kind.pawn ∧ (m.endRow = 0 ∨ m.endRow = 7)
       then 9 else 0) +
      (if m.pieceMoved.kind = some Kind.pawn ∧ m.startCol ≠ m.endCol
       then 2 else 0) := by
  unfold scoreMove
  simp only []
  split_ifs <;> ring

/-- C10: in every reachable state, a set castling right has the matching rook
on its home square, and every castling move in the returned legal-move list
has the moving side's rook on the home corner of the side being castled. -/
theorem C10_rook_home (s : GameState) (h : Reachable s) :
    (s.currentCastlingRights.wks = true →
      bget s.board 7 7 = Piece.mk Color.white Kind.rook) ∧
    (s.currentCastlingRights.wqs = true →
      bget s.board 7 0 = Piece.mk Color.white Kind.rook) ∧
    (s.currentCastlingRights.bks = true →
      bget s.board 0 7 = Piece.mk Color.black Kind.rook) ∧
    (s.currentCastlingRights.bqs = true →
      bget s.board 0 0 = Piece.mk Color.black Kind.rook) ∧
    (∀ m ∈ (getValidMoves s).1, m.isCastleMove = true →
      (m.endCol = 6 →
        bget s.board m.startRow 7 = Piece.mk (allyColor s) Kind.rook) ∧
      (m.endCol = 2 →
        bget s.board m.startRow 0 = Piece.mk (allyColor s) Kind.rook)) := by
  have hInv := reachable_inv h
  obtain ⟨h1, h2, h3, h4⟩ := hInv.rook
  refine ⟨h1, h2, h3, h4, ?_⟩
  intro m hm hcas
  rw [getValidMoves_eq s hInv] at hm
  exact castle_rook_corner s hInv (List.mem_filter.mp hm).1 hcas

/-- C10 witness: the rook-home property at the initial position. -/
theorem C10_rook_home_witness :
    (initialGameState.currentCastlingRights.wks = true →
      bget initialGameState.board 7 7 = Piece.mk Color.white Kind.rook) ∧
    (initialGameState.currentCastlingRights.wqs = true →
      bget initialGameState.board 7 0 = Piece.mk Color.white Kind.rook) ∧
    (initialGameState.currentCastlingRights.bks = true →
      bget initialGameState.board 0 7 = Piece.mk Color.black Kind.rook) ∧
    (initialGameState.currentCastlingRights.bqs = true →
      bget initialGameState.board 0 0 = Piece.mk Color.black Kind.rook) ∧
    (∀ m ∈ (getValidMoves initialGameState).1, m.isCastleMove = true →
      (m.endCol = 6 →
        bget initialGameState.board m.startRow 7 =
          Piece.mk (allyColor initialGameState) Kind.rook) ∧
      (m.endCol = 2 →
        bget initialGameState.board m.startRow 0 =
          Piece.mk (allyColor initialGameState) Kind.rook)) :=
  C10_rook_home initialGameState Reachable.init

end Chess
